import Mathlib

/-!
The game engine `TetrisGame` of kindle-tetris.

A shallow embedding of `src/include/tetris_game.hpp` and
`src/components/tetris_game.cpp`, followed by theorems about it.

Modelling conventions
* `int` and `long` are `Int`. Every value the engine computes stays far from
  the machine limits (coordinates are within a few cells of the 10 x 20 board,
  the level is at most 19), so no wrap-around is modelled; `/` and `%` are the
  truncating `Int.tdiv` and `Int.tmod` of C++.
* `std::array<std::array<int, WIDTH>, HEIGHT>` is `Fin 20 → Fin 10 → Int`.
  `Board.get` and `Board.set` are `board_[y][x]` as a read and as a write; the
  source guards every access with a bounds test, an access out of bounds (which
  the source never performs) reads `0` and writes nothing.
* `pieces_[piece].rotations[rotation]` with an index out of range is undefined
  behaviour in the source; the lookup here is total and falls back to the O
  tetromino.
* The two notification callbacks are external collaborators that only redraw;
  `emit_state` and `emit_stats` leave the engine untouched.
* `std::mt19937 rng_` is the list of raw values it will still produce;
  `uniform_int_distribution<int>(lo, hi)` consumes one raw value and maps it
  into `[lo, hi]` (an exhausted list produces `0`).
* `Clock::now()` is an argument of the public operation that reads the clock
  (each reads it at most once), in milliseconds.
-/

/-! ## Constants and the piece table -/

namespace TetrisGame

abbrev WIDTH : Int := 10
abbrev HEIGHT : Int := 20
abbrev BLOCK_TYPES : Int := 7

structure Coord where
  x : Int
  y : Int
deriving DecidableEq, Repr

structure Piece where
  rotation_count : Int
  rotations : List (List Coord)
deriving DecidableEq, Repr

def piece_O : Piece :=
  { rotation_count := 1
    rotations := [
      [⟨0, 0⟩, ⟨1, 0⟩, ⟨0, 1⟩, ⟨1, 1⟩],
      [⟨0, 0⟩, ⟨1, 0⟩, ⟨0, 1⟩, ⟨1, 1⟩],
      [⟨0, 0⟩, ⟨1, 0⟩, ⟨0, 1⟩, ⟨1, 1⟩],
      [⟨0, 0⟩, ⟨1, 0⟩, ⟨0, 1⟩, ⟨1, 1⟩]] }

def piece_Z : Piece :=
  { rotation_count := 2
    rotations := [
      [⟨0, 1⟩, ⟨1, 1⟩, ⟨1, 0⟩, ⟨2, 0⟩],
      [⟨0, 0⟩, ⟨0, 1⟩, ⟨1, 1⟩, ⟨1, 2⟩],
      [⟨0, 1⟩, ⟨1, 1⟩, ⟨1, 0⟩, ⟨2, 0⟩],
      [⟨0, 0⟩, ⟨0, 1⟩, ⟨1, 1⟩, ⟨1, 2⟩]] }

def piece_S : Piece :=
  { rotation_count := 2
    rotations := [
      [⟨0, 0⟩, ⟨1, 0⟩, ⟨1, 1⟩, ⟨2, 1⟩],
      [⟨1, 0⟩, ⟨1, 1⟩, ⟨0, 1⟩, ⟨0, 2⟩],
      [⟨0, 0⟩, ⟨1, 0⟩, ⟨1, 1⟩, ⟨2, 1⟩],
      [⟨1, 0⟩, ⟨1, 1⟩, ⟨0, 1⟩, ⟨0, 2⟩]] }

def piece_I : Piece :=
  { rotation_count := 2
    rotations := [
      [⟨1, 0⟩, ⟨1, 1⟩, ⟨1, 2⟩, ⟨1, 3⟩],
      [⟨0, 0⟩, ⟨1, 0⟩, ⟨2, 0⟩, ⟨3, 0⟩],
      [⟨1, 0⟩, ⟨1, 1⟩, ⟨1, 2⟩, ⟨1, 3⟩],
      [⟨0, 0⟩, ⟨1, 0⟩, ⟨2, 0⟩, ⟨3, 0⟩]] }

def piece_L : Piece :=
  { rotation_count := 4
    rotations := [
      [⟨1, 2⟩, ⟨1, 1⟩, ⟨1, 0⟩, ⟨2, 0⟩],
      [⟨0, 1⟩, ⟨1, 1⟩, ⟨2, 1⟩, ⟨2, 2⟩],
      [⟨0, 2⟩, ⟨1, 2⟩, ⟨1, 1⟩, ⟨1, 0⟩],
      [⟨0, 0⟩, ⟨0, 1⟩, ⟨1, 1⟩, ⟨2, 1⟩]] }

def piece_J : Piece :=
  { rotation_count := 4
    rotations := [
      [⟨0, 0⟩, ⟨1, 0⟩, ⟨1, 1⟩, ⟨1, 2⟩],
      [⟨0, 1⟩, ⟨1, 1⟩, ⟨2, 1⟩, ⟨2, 0⟩],
      [⟨1, 0⟩, ⟨1, 1⟩, ⟨1, 2⟩, ⟨2, 2⟩],
      [⟨0, 2⟩, ⟨0, 1⟩, ⟨1, 1⟩, ⟨2, 1⟩]] }

def piece_T : Piece :=
  { rotation_count := 4
    rotations := [
      [⟨1, 0⟩, ⟨0, 1⟩, ⟨1, 1⟩, ⟨2, 1⟩],
      [⟨2, 1⟩, ⟨1, 0⟩, ⟨1, 1⟩, ⟨1, 2⟩],
      [⟨1, 2⟩, ⟨0, 1⟩, ⟨1, 1⟩, ⟨2, 1⟩],
      [⟨0, 1⟩, ⟨1, 0⟩, ⟨1, 1⟩, ⟨1, 2⟩]] }

/-- The static table `pieces_`, indexed by piece type `0..6`. -/
def pieces_ : List Piece :=
  [piece_O, piece_Z, piece_S, piece_I, piece_L, piece_J, piece_T]

def lines_score : List Int := [40, 100, 300, 1200]

def level_speeds_ : List Int :=
  [1000, 886, 785, 695, 616, 546, 483, 428, 379, 336,
   298, 264, 234, 207, 183, 162, 144, 127, 113, 100]

def rotation_kick_offsets_ : List Int := [0, -1, 1, -2, 2]

abbrev clear_effect_duration_ : Int := 1500
abbrev clear_effect_toggle_ : Int := 250
abbrev game_over_fill_color_ : Int := BLOCK_TYPES + 1

/-- The lookup `pieces_[piece]`. -/
def piece_at (piece : Int) : Piece :=
  pieces_.getD piece.toNat piece_O

/-- The lookup `pieces_[piece].rotations[rotation]`, an array of 4 offsets. -/
def frame_at (piece rotation : Int) : List Coord :=
  (piece_at piece).rotations.getD rotation.toNat [⟨0, 0⟩, ⟨1, 0⟩, ⟨0, 1⟩, ⟨1, 1⟩]

/-- The lookup `pieces_[piece].rotations[rotation][i]`. -/
def coord_at (piece rotation : Int) (i : Nat) : Coord :=
  (frame_at piece rotation).getD i ⟨0, 0⟩

/-! ## The board -/

abbrev Board := Fin 20 → Fin 10 → Int

/-- The read `board_[y][x]`. -/
def Board.get (b : Board) (y x : Int) : Int :=
  if h : 0 ≤ y ∧ y < 20 ∧ 0 ≤ x ∧ x < 10 then
    b ⟨y.toNat, by omega⟩ ⟨x.toNat, by omega⟩
  else 0

/-- The write `board_[y][x] = v`. -/
def Board.set (b : Board) (y x v : Int) : Board :=
  fun r c => if (r.val : Int) = y ∧ (c.val : Int) = x then v else b r c

/-- The row `board_[y]`, read as a whole. -/
def Board.getRow (b : Board) (y : Int) : Fin 10 → Int :=
  if h : 0 ≤ y ∧ y < 20 then b ⟨y.toNat, by omega⟩ else fun _ => 0

/-- The row assignment `board_[y] = line`. -/
def Board.setRow (b : Board) (y : Int) (line : Fin 10 → Int) : Board :=
  fun r => if (r.val : Int) = y then line else b r

/-- The board after `row.fill(0)` on every row. -/
def Board.empty : Board := fun _ _ => 0

/-- Two boards are equal when they agree on each of the 200 cells. -/
instance Board.decEq : DecidableEq Board := fun a b =>
  decidable_of_iff (∀ (r : Fin 20) (c : Fin 10), a r c = b r c)
    ⟨fun h => funext fun r => funext fun c => h r c, fun h r c => by rw [h]⟩

/-! ## The engine state -/

structure PieceState where
  type : Int := 0
  rotation : Int := 0
deriving DecidableEq, Repr

inductive Phase where
  | Idle
  | Running
  | Paused
  | Clearing
  | GameOver
deriving DecidableEq, Repr

inductive Action where
  | MoveLeft
  | MoveRight
  | SoftDrop
  | HardDrop
  | RotateCW
  | RotateCCW
deriving DecidableEq, Repr

end TetrisGame

open TetrisGame in
/-- The data members of `class TetrisGame` (the two callbacks apart). -/
structure TetrisGame where
  board_ : Board := Board.empty
  phase_ : Phase := Phase.Idle
  current_ : PieceState := {}
  current_x_ : Int := 0
  current_y_ : Int := 0
  next_ : PieceState := {}
  pending_spawn_ : Option PieceState := none
  game_over_fill_row_ : Int := HEIGHT - 1
  game_over_animation_active_ : Bool := false
  score_ : Int := 0
  level_ : Int := 0
  lines_cleared_ : Int := 0
  rng_ : List Nat := []
  clearing_rows_ : List Int := []
  flash_on_ : Bool := true
  clear_start_time_ : Int := 0
  last_toggle_time_ : Int := 0

open TetrisGame in
/-- Two engine states are equal when they agree on every data member. -/
instance TetrisGame.decEq : DecidableEq TetrisGame := fun a b =>
  decidable_of_iff
    (a.board_ = b.board_ ∧ a.phase_ = b.phase_ ∧ a.current_ = b.current_ ∧
      a.current_x_ = b.current_x_ ∧ a.current_y_ = b.current_y_ ∧ a.next_ = b.next_ ∧
      a.pending_spawn_ = b.pending_spawn_ ∧
      a.game_over_fill_row_ = b.game_over_fill_row_ ∧
      a.game_over_animation_active_ = b.game_over_animation_active_ ∧
      a.score_ = b.score_ ∧ a.level_ = b.level_ ∧ a.lines_cleared_ = b.lines_cleared_ ∧
      a.rng_ = b.rng_ ∧ a.clearing_rows_ = b.clearing_rows_ ∧ a.flash_on_ = b.flash_on_ ∧
      a.clear_start_time_ = b.clear_start_time_ ∧
      a.last_toggle_time_ = b.last_toggle_time_)
    ⟨fun h => by
      cases a
      cases b
      simp only [TetrisGame.mk.injEq]
      exact h,
     fun h => by
      subst h
      simp⟩

namespace TetrisGame

/-! ## Small members of the header -/

def set_phase (g : TetrisGame) (next_phase : Phase) : TetrisGame :=
  { g with phase_ := next_phase }

def can_accept_actions (g : TetrisGame) : Bool :=
  decide (g.phase_ = Phase.Running)

def is_running (g : TetrisGame) : Bool := decide (g.phase_ = Phase.Running)
def is_paused (g : TetrisGame) : Bool := decide (g.phase_ = Phase.Paused)
def is_game_over (g : TetrisGame) : Bool := decide (g.phase_ = Phase.GameOver)
def is_clearing (g : TetrisGame) : Bool := decide (g.phase_ = Phase.Clearing)
def flash_visible (g : TetrisGame) : Bool := g.flash_on_
def clearing_rows (g : TetrisGame) : List Int := g.clearing_rows_
def score (g : TetrisGame) : Int := g.score_
def level (g : TetrisGame) : Int := g.level_
def lines (g : TetrisGame) : Int := g.lines_cleared_

def is_game_over_animating (g : TetrisGame) : Bool :=
  decide (g.phase_ = Phase.GameOver) && g.game_over_animation_active_

/-- The lookup `level_speeds_[level_]` (an index out of range reads 0). -/
def speed_ms (g : TetrisGame) : Int := level_speeds_.getD g.level_.toNat 0

/-- The callback only notifies the front end. -/
def emit_state (g : TetrisGame) : TetrisGame := g

/-- The callback only notifies the front end. -/
def emit_stats (g : TetrisGame) : TetrisGame := g

/-- The call `std::uniform_int_distribution<int>(lo, hi)(rng_)`: the value
drawn and the generator after the draw. -/
def uniform_int (lo hi : Int) (rng : List Nat) : Int × List Nat :=
  (lo + ((rng.headD 0 : Nat) : Int) % (hi - lo + 1), rng.tail)

/-- The clamp `std::clamp(v, lo, hi)`. -/
def clamp (v lo hi : Int) : Int :=
  if v < lo then lo else if hi < v then hi else v

/-! ## Piece generation -/

def random_piece (g : TetrisGame) : Int × TetrisGame :=
  let d := uniform_int 0 (BLOCK_TYPES - 1) g.rng_
  (d.1, { g with rng_ := d.2 })

def prepare_next_piece (g : TetrisGame) : TetrisGame :=
  let p := random_piece g
  let g1 : TetrisGame := { p.2 with next_ := { p.2.next_ with type := p.1 } }
  let frames := (piece_at g1.next_.type).rotation_count
  if frames = 1 then
    { g1 with next_ := { g1.next_ with rotation := 0 } }
  else
    let d := uniform_int 0 (frames - 1) g1.rng_
    { g1 with next_ := { g1.next_ with rotation := d.1 }, rng_ := d.2 }

/-! ## Collision, locking, scoring -/

/-- The loop of `is_valid_position`, with `n` iterations left and `i` the loop
variable; `board_` is the only member it reads. -/
def is_valid_position_loop (board_ : Board) (x y piece rotation : Int) :
    Nat → Nat → Bool
  | 0, _ => true
  | n + 1, i =>
    let coord := coord_at piece rotation i
    let block_x := x + coord.x
    let block_y := y + coord.y
    if block_x < 0 ∨ block_x ≥ WIDTH ∨ block_y < 0 ∨ block_y ≥ HEIGHT then
      false
    else if Board.get board_ block_y block_x ≠ 0 then
      false
    else
      is_valid_position_loop board_ x y piece rotation n (i + 1)

def is_valid_position (board_ : Board) (x y piece rotation : Int) : Bool :=
  is_valid_position_loop board_ x y piece rotation 4 0

def lock_piece (g : TetrisGame) : TetrisGame :=
  let frame := frame_at g.current_.type g.current_.rotation
  { g with
    board_ := frame.foldl (fun b coord =>
      let block_x := g.current_x_ + coord.x
      let block_y := g.current_y_ + coord.y
      if block_y ≥ 0 ∧ block_y < HEIGHT ∧ block_x ≥ 0 ∧ block_x < WIDTH then
        Board.set b block_y block_x (g.current_.type + 1)
      else b) g.board_ }

def add_score (g : TetrisGame) (delta : Int) : TetrisGame :=
  if delta ≤ 0 then g else { g with score_ := g.score_ + delta }

/-- An index `cleared_lines - 1` outside the table reads 0. -/
def update_level_and_score (g : TetrisGame) (cleared_lines : Int) : TetrisGame :=
  if cleared_lines > 0 then
    let g1 : TetrisGame := { g with lines_cleared_ := g.lines_cleared_ + cleared_lines }
    let g2 := add_score g1 (lines_score.getD (cleared_lines - 1).toNat 0 * (g1.level_ + 1))
    emit_stats { g2 with level_ := clamp (g2.lines_cleared_.tdiv 10) 0 19 }
  else
    emit_stats g

def collect_full_rows (g : TetrisGame) : List Int :=
  (List.range 20).foldl (fun (rows : List Int) (row : Nat) =>
    if (List.range 10).all
        (fun (col : Nat) => decide (Board.get g.board_ (row : Int) (col : Int) ≠ 0)) then
      rows ++ [(row : Int)]
    else rows) []

/-- The flags `remove_flags` of `remove_rows` after its first loop. -/
def remove_flags (rows : List Int) : Int → Bool :=
  rows.foldl (fun flags row =>
    if row ≥ 0 ∧ row < HEIGHT then (fun r => if r = row then true else flags r)
    else flags) (fun _ => false)

/-- The copy loop of `remove_rows`: `n` is `row + 1`, the pair is the board
and the cursor `target`. -/
def remove_rows_copy (flags : Int → Bool) : Nat → Board × Int → Board × Int
  | 0, st => st
  | n + 1, st =>
    let row : Int := n
    if flags row then
      remove_rows_copy flags n st
    else
      let b := if st.2 ≠ row then Board.setRow st.1 st.2 (Board.getRow st.1 row) else st.1
      remove_rows_copy flags n (b, st.2 - 1)

/-- The loop `while (target >= 0)` of `remove_rows`: `n` is `target + 1`. -/
def remove_rows_fill : Nat → Board → Board
  | 0, b => b
  | n + 1, b => remove_rows_fill n (Board.setRow b (n : Int) (fun _ => 0))

def remove_rows (g : TetrisGame) (rows : List Int) : TetrisGame :=
  if rows.isEmpty then g
  else
    let flags := remove_flags rows
    let st := remove_rows_copy flags 20 (g.board_, HEIGHT - 1)
    { g with board_ := remove_rows_fill (st.2 + 1).toNat st.1 }

/-! ## Spawn and game over -/

def reset_game_over_animation (g : TetrisGame) : TetrisGame :=
  { g with game_over_animation_active_ := false, game_over_fill_row_ := HEIGHT - 1 }

def begin_game_over_animation (g : TetrisGame) : TetrisGame :=
  emit_state { set_phase g Phase.GameOver with
    game_over_animation_active_ := true, game_over_fill_row_ := HEIGHT - 1 }

def spawn_piece (g : TetrisGame) : TetrisGame × Bool :=
  let g1 : TetrisGame :=
    match g.pending_spawn_ with
    | some p => { g with current_ := p, pending_spawn_ := none }
    | none => prepare_next_piece { g with current_ := g.next_ }
  let g2 : TetrisGame := { g1 with current_x_ := WIDTH.tdiv 2 - 2, current_y_ := 0 }
  if !is_valid_position g2.board_ g2.current_x_ g2.current_y_ g2.current_.type
      g2.current_.rotation then
    (emit_stats (begin_game_over_animation g2), false)
  else
    (g2, true)

/-- The fill of one row by `advance_game_over_animation`. -/
def fill_game_over_row (b : Board) (row : Int) : Board :=
  (List.range 10).foldl (fun (b : Board) (col : Nat) =>
    if Board.get b row (col : Int) = 0 then Board.set b row (col : Int) game_over_fill_color_
    else b) b

def advance_game_over_animation (g : TetrisGame) : TetrisGame × Bool :=
  if !g.game_over_animation_active_ then (g, false)
  else if g.game_over_fill_row_ < 0 then
    ({ g with game_over_animation_active_ := false }, false)
  else
    let g1 : TetrisGame := { g with board_ := fill_game_over_row g.board_ g.game_over_fill_row_ }
    let g2 : TetrisGame := emit_state { g1 with game_over_fill_row_ := g1.game_over_fill_row_ - 1 }
    if g2.game_over_fill_row_ < 0 then
      ({ g2 with game_over_animation_active_ := false }, false)
    else
      (g2, true)

/-! ## Line clearing -/

def begin_line_clear (g : TetrisGame) (rows : List Int) (now : Int) : TetrisGame :=
  set_phase { g with
    clearing_rows_ := rows, flash_on_ := true,
    clear_start_time_ := now, last_toggle_time_ := now } Phase.Clearing

def finish_line_clear (g : TetrisGame) : TetrisGame × Bool :=
  let g1 := remove_rows g g.clearing_rows_
  let cleared : Int := g1.clearing_rows_.length
  let g2 : TetrisGame := { g1 with clearing_rows_ := [], flash_on_ := true }
  let g3 := update_level_and_score (set_phase g2 Phase.Running) cleared
  let r := spawn_piece g3
  (emit_state r.1, r.2)

def advance_clear_animation (g : TetrisGame) (now : Int) : TetrisGame × Bool :=
  let toggled := decide (now - g.last_toggle_time_ ≥ clear_effect_toggle_)
  let g1 : TetrisGame :=
    if toggled then { g with flash_on_ := !g.flash_on_, last_toggle_time_ := now } else g
  if now - g1.clear_start_time_ ≥ clear_effect_duration_ then
    finish_line_clear g1
  else
    (if toggled then emit_state g1 else g1, true)

def handle_locked_piece (g : TetrisGame) (now : Int) : TetrisGame × Bool :=
  let g1 := lock_piece g
  let rows := collect_full_rows g1
  if rows.isEmpty then
    let r := spawn_piece (update_level_and_score g1 0)
    (emit_state r.1, r.2)
  else
    (emit_state (begin_line_clear g1 rows now), true)

/-! ## Movement, rotation, drops -/

def try_move (g : TetrisGame) (dx dy : Int) : TetrisGame × Bool :=
  if !can_accept_actions g then (g, false)
  else
    let new_x := g.current_x_ + dx
    let new_y := g.current_y_ + dy
    if is_valid_position g.board_ new_x new_y g.current_.type g.current_.rotation then
      (emit_state { g with current_x_ := new_x, current_y_ := new_y }, true)
    else
      (g, false)

/-- The loop of `apply_rotation_with_kicks` over the offsets still to try. -/
def apply_rotation_with_kicks_loop (g : TetrisGame) (new_rotation : Int) :
    List Int → TetrisGame × Bool
  | [] => (g, false)
  | dx :: rest =>
    let candidate_x := g.current_x_ + dx
    if is_valid_position g.board_ candidate_x g.current_y_ g.current_.type new_rotation then
      (emit_state { g with
        current_x_ := candidate_x,
        current_ := { g.current_ with rotation := new_rotation } }, true)
    else
      apply_rotation_with_kicks_loop g new_rotation rest

def apply_rotation_with_kicks (g : TetrisGame) (new_rotation : Int) : TetrisGame × Bool :=
  apply_rotation_with_kicks_loop g new_rotation rotation_kick_offsets_

def try_rotate (g : TetrisGame) (delta : Int) : TetrisGame × Bool :=
  if !can_accept_actions g then (g, false)
  else
    let frames := (piece_at g.current_.type).rotation_count
    let new_rotation := (frames + (g.current_.rotation + delta)).tmod frames
    apply_rotation_with_kicks g new_rotation

def reward_soft_drop (g : TetrisGame) : TetrisGame :=
  emit_stats (add_score g 1)

def reward_hard_drop (g : TetrisGame) (dropped_rows : Int) : TetrisGame :=
  if dropped_rows ≤ 0 then g
  else emit_stats (add_score g (dropped_rows * (g.level_ + 1)))

def soft_drop_step (g : TetrisGame) : TetrisGame × Bool :=
  let r := try_move g 0 1
  if r.2 then (reward_soft_drop r.1, true) else (r.1, false)

/-- The loop `while (try_move(0, 1)) dropped++` of `hard_drop_step`: the engine
after the loop and the final value of `dropped`. Every successful step moves
the piece one row down inside the board, which bounds the number of steps. -/
def hard_drop_loop (g : TetrisGame) (dropped : Int) : TetrisGame × Int :=
  if _h : (try_move g 0 1).2 = true then
    hard_drop_loop (try_move g 0 1).1 (dropped + 1)
  else
    ((try_move g 0 1).1, dropped)
termination_by (HEIGHT - g.current_y_).toNat
decreasing_by
  have hc : ∀ n m : Nat, 0 ≤ (((pieces_.getD n piece_O).rotations.getD m
      [⟨0, 0⟩, ⟨1, 0⟩, ⟨0, 1⟩, ⟨1, 1⟩]).getD 0 ⟨0, 0⟩).y := by
    intro n m
    rcases n with _ | _ | _ | _ | _ | _ | _ | n <;>
      rcases m with _ | _ | _ | _ | m <;>
        simp [pieces_, piece_O, piece_Z, piece_S, piece_I, piece_L, piece_J, piece_T]
  have h0 := hc g.current_.type.toNat g.current_.rotation.toNat
  have key : (try_move g 0 1).1.current_y_ = g.current_y_ + 1 ∧ g.current_y_ + 1 < 20 := by
    simp only [try_move, emit_state] at _h ⊢
    split_ifs at _h ⊢ with hp hv
    · refine ⟨rfl, ?_⟩
      unfold is_valid_position is_valid_position_loop at hv
      simp only [coord_at, frame_at, piece_at] at hv
      split at hv
      · exact absurd hv (by simp)
      · rename_i hb
        simp only [HEIGHT] at hb
        omega
  rw [key.1]
  have := key.2
  simp only [HEIGHT]
  omega

def hard_drop_step (g : TetrisGame) (now : Int) : TetrisGame × Bool :=
  if !can_accept_actions g then (g, false)
  else
    let r := hard_drop_loop g 0
    handle_locked_piece (reward_hard_drop r.1 r.2) now

/-! ## The public operations -/

def reset (g : TetrisGame) : TetrisGame :=
  let g1 : TetrisGame :=
    { g with board_ := Board.empty, score_ := 0, level_ := 0, lines_cleared_ := 0 }
  let g2 := reset_game_over_animation (set_phase g1 Phase.Idle)
  let g3 : TetrisGame := { g2 with clearing_rows_ := [], flash_on_ := true }
  let g4 := prepare_next_piece { g3 with pending_spawn_ := none }
  let g5 : TetrisGame := { g4 with pending_spawn_ := some g4.next_ }
  let g6 : TetrisGame :=
    match g5.pending_spawn_ with
    | some p => { g5 with current_ := p }
    | none => { g5 with current_ := {} }
  let g7 : TetrisGame := { g6 with current_x_ := WIDTH.tdiv 2 - 2, current_y_ := 0 }
  emit_stats (emit_state (prepare_next_piece g7))

/-- The constructor: the default member initialisers, the seeded generator,
then `reset()`. -/
def new (rng : List Nat) : TetrisGame :=
  reset { rng_ := rng }

def start (g : TetrisGame) : TetrisGame :=
  let g1 := if g.phase_ ≠ Phase.Idle then reset g else g
  emit_stats (emit_state (spawn_piece (set_phase g1 Phase.Running)).1)

def stop (g : TetrisGame) : TetrisGame :=
  let g1 := reset_game_over_animation (set_phase g Phase.Idle)
  { g1 with clearing_rows_ := [], flash_on_ := true }

def toggle_pause (g : TetrisGame) : TetrisGame :=
  if g.phase_ = Phase.GameOver ∨ g.phase_ = Phase.Idle then g
  else if g.phase_ = Phase.Paused then set_phase g Phase.Running
  else if g.phase_ = Phase.Running then set_phase g Phase.Paused
  else g

def tick (g : TetrisGame) (now : Int) : TetrisGame × Bool :=
  if g.phase_ = Phase.Paused then (g, true)
  else if g.phase_ = Phase.Clearing then advance_clear_animation g now
  else if g.phase_ ≠ Phase.Running then (g, false)
  else
    let r := try_move g 0 1
    if r.2 then (r.1, true) else handle_locked_piece r.1 now

def perform_action (g : TetrisGame) (action : Action) (now : Int) : TetrisGame × Bool :=
  if !can_accept_actions g then (g, false)
  else
    match action with
    | Action.MoveLeft => try_move g (-1) 0
    | Action.MoveRight => try_move g 1 0
    | Action.SoftDrop => soft_drop_step g
    | Action.HardDrop => hard_drop_step g now
    | Action.RotateCW => try_rotate g 1
    | Action.RotateCCW => try_rotate g (-1)

def step_clear_animation (g : TetrisGame) (now : Int) : TetrisGame × Bool :=
  if g.phase_ = Phase.Clearing then advance_clear_animation g now
  else if is_game_over_animating g then advance_game_over_animation g
  else (g, false)

/-- The cells `active_cells()` reports: x, y and colour. -/
def active_cells (g : TetrisGame) : List (Int × Int × Int) :=
  (frame_at g.current_.type g.current_.rotation).map fun coord =>
    (g.current_x_ + coord.x, g.current_y_ + coord.y, g.current_.type + 1)

/-- The cells `next_cells()` reports: x, y and colour. -/
def next_cells (g : TetrisGame) : List (Int × Int × Int) :=
  (frame_at g.next_.type g.next_.rotation).map fun coord =>
    (coord.x, coord.y, g.next_.type + 1)

/-! ## Runs of the engine -/

/-- One call of a public operation, with the clock reading it is given. -/
inductive Op where
  | start
  | reset
  | stop
  | toggle_pause
  | tick (now : Int)
  | perform_action (action : Action) (now : Int)
  | step_clear_animation (now : Int)
deriving DecidableEq, Repr

/-- The engine after one call. -/
def Op.apply (g : TetrisGame) : Op → TetrisGame
  | Op.start => TetrisGame.start g
  | Op.reset => TetrisGame.reset g
  | Op.stop => TetrisGame.stop g
  | Op.toggle_pause => TetrisGame.toggle_pause g
  | Op.tick now => (TetrisGame.tick g now).1
  | Op.perform_action action now => (TetrisGame.perform_action g action now).1
  | Op.step_clear_animation now => (TetrisGame.step_clear_animation g now).1

/-- The engine after a sequence of calls. -/
def run (g : TetrisGame) (ops : List Op) : TetrisGame :=
  ops.foldl Op.apply g

/-- The states an engine can be in: constructed with any generator, then
driven by any sequence of public calls. -/
def Reachable (g : TetrisGame) : Prop :=
  ∃ (rng : List Nat) (ops : List Op), g = run (new rng) ops

/-! ## Example states -/

/-- A running engine that has just been started with the generator `[]`:
the O tetromino at the spawn origin of an empty board. -/
def fresh_game : TetrisGame := start (new [])

/-- A running engine with the vertical I tetromino moved four columns to the
right of the spawn origin, so that it stands in column 8 of an empty board. -/
def kick_game : TetrisGame :=
  run (new [3, 0])
    [Op.start, Op.perform_action Action.MoveRight 0, Op.perform_action Action.MoveRight 0,
     Op.perform_action Action.MoveRight 0, Op.perform_action Action.MoveRight 0]

/-- A running engine with the vertical I tetromino in column 4, rows 0 to 3,
of a board whose row 0 is occupied everywhere except in column 4: the
horizontal frame fits nowhere on row 0. -/
def walled_game : TetrisGame :=
  { fresh_game with
    current_ := { type := 3, rotation := 0 }
    board_ := fun r c => if r.val = 0 ∧ c.val ≠ 4 then 1 else 0 }

/-- The engine of `fresh_game` after 18 gravity ticks: the O tetromino rests
on the floor of the empty board, in rows 18 and 19. -/
def landed_game : TetrisGame :=
  run (new []) (Op.start :: List.replicate 18 (Op.tick 0))

/-- The active piece stands on a valid position of the board. -/
def piece_placed (g : TetrisGame) : Bool :=
  is_valid_position g.board_ g.current_x_ g.current_y_ g.current_.type g.current_.rotation

/-- The invariant of play: while the engine is Running, or Paused in the
middle of play, the active piece stands on a valid position. -/
def play_invariant (g : TetrisGame) : Prop :=
  g.phase_ = Phase.Running ∨ g.phase_ = Phase.Paused → piece_placed g = true

/-- The hard drop, as one call of the engine. -/
def hard_drop : Op := Op.perform_action Action.HardDrop 0

/-- A reachable Running state with column 4 stacked up to row 4: five vertical
I tetrominoes are drawn, four of them are dropped and lock in rows 4 to 19 of
column 4, and the fifth stands at the spawn origin in rows 0 to 3 and cannot
move down. -/
def topped_game : TetrisGame :=
  run (new [3, 0, 3, 0, 3, 0, 3, 0, 3, 0]) [Op.start, hard_drop, hard_drop, hard_drop, hard_drop]

/-! ## Full rows, and example states with a full row -/

/-- Every cell of row `r` of the board is non-zero. -/
def row_full (b : Board) (r : Fin 20) : Prop := ∀ c : Fin 10, b r c ≠ 0

instance row_full_decidable (b : Board) (r : Fin 20) : Decidable (row_full b r) :=
  inferInstanceAs (Decidable (∀ c : Fin 10, b r c ≠ 0))

/-- The indices of the full rows of a board, in ascending order. -/
def full_rows (b : Board) : List Int :=
  ((List.finRange 20).filter (fun r => decide (row_full b r))).map (fun r => (r.val : Int))

/-- A reachable Running state one hard drop away from a full row: two
horizontal I tetrominoes lie in row 19, columns 0 to 7, and the O tetromino
stands above columns 8 and 9. -/
def row_game : TetrisGame :=
  run (new [3, 1, 3, 1, 0])
    [Op.start,
     Op.perform_action Action.MoveLeft 0, Op.perform_action Action.MoveLeft 0,
     Op.perform_action Action.MoveLeft 0, hard_drop,
     Op.perform_action Action.MoveRight 0, hard_drop,
     Op.perform_action Action.MoveRight 0, Op.perform_action Action.MoveRight 0,
     Op.perform_action Action.MoveRight 0, Op.perform_action Action.MoveRight 0,
     Op.perform_action Action.MoveRight 0]

/-- The state `row_game` after the hard drop at clock reading 1000: row 19 is
full and the engine is Clearing. -/
def clearing_game : TetrisGame :=
  (perform_action row_game Action.HardDrop 1000).1

/-- The piece `spawn_piece` makes active: the buffered pending-spawn piece when
there is one, the next piece otherwise. -/
def queued_piece (g : TetrisGame) : PieceState :=
  match g.pending_spawn_ with
  | some p => p
  | none => g.next_

/-- The engine after `spawn_piece` has taken the queued piece (and, without a
buffered piece, has generated a new next piece) and put it at the spawn
origin, before the position is validated. -/
def spawn_placed (g : TetrisGame) : TetrisGame :=
  let g1 : TetrisGame :=
    match g.pending_spawn_ with
    | some p => { g with current_ := p, pending_spawn_ := none }
    | none => prepare_next_piece { g with current_ := g.next_ }
  { g1 with current_x_ := 3, current_y_ := 0 }

/-- The engine after the active piece has fallen `k` rows and the hard-drop
reward `k * (level + 1)` has been added to the score (for `k = 0`, the engine
itself). -/
def dropped (g : TetrisGame) (k : Nat) : TetrisGame :=
  { g with current_y_ := g.current_y_ + k, score_ := g.score_ + k * (g.level_ + 1) }

/-- The level is the one computed from the lines cleared. -/
def level_consistent (g : TetrisGame) : Prop :=
  g.level_ = clamp (g.lines_cleared_.tdiv 10) 0 19

/-- How one call may change the counters, from `g` to `g'`: the score does not
decrease, and level and lines are either both left alone or the level has
just been recomputed from the lines. -/
def counters_step (g g' : TetrisGame) : Prop :=
  g.score_ ≤ g'.score_ ∧
  ((g'.level_ = g.level_ ∧ g'.lines_cleared_ = g.lines_cleared_) ∨ level_consistent g')

/-! ## Row removal, as the specification words it -/

/-- The rows of the board whose index is not in `rows`, in their original
top-to-bottom order. -/
def kept_rows (b : Board) (rows : List Int) : List (Fin 10 → Int) :=
  ((List.finRange 20).filter (fun i => decide ((i.val : Int) ∉ rows))).map b

/-- Filter out the removed rows, then pad with all-zero rows on top. -/
def remove_rows_spec (b : Board) (rows : List Int) : List (Fin 10 → Int) :=
  List.replicate (20 - (kept_rows b rows).length) (fun _ => 0) ++ kept_rows b rows

/-- The indices below `n` that the flags do not mark, in ascending order. -/
def kept_below (flags : Int → Bool) (n : Nat) : List Nat :=
  (List.range n).filter (fun i => !flags (i : Int))

/-! ## A run that clears five rows at once -/

/-- The calls that move the active piece `dx` columns from the spawn origin
(to the left when `dx` is negative) and then drop it. -/
def place_piece (dx : Int) : List Op :=
  List.replicate dx.natAbs
      (Op.perform_action (if dx < 0 then Action.MoveLeft else Action.MoveRight) 0) ++
    [hard_drop]

/-- The raw draws of thirteen pieces: vertical I (3, 0) four times, horizontal
I (3, 1), vertical I four times, horizontal I, vertical I twice, O (0). -/
def over_clear_rng : List Nat :=
  [3, 0, 3, 0, 3, 0, 3, 0, 3, 1, 3, 0, 3, 0, 3, 0, 3, 0, 3, 1, 3, 0, 3, 0, 0]

/-- Twelve pieces fill rows 16 to 19 and columns 0 to 7 of row 15, which
starts a clear of four rows; the engine is stopped during the animation and
started again (from Idle, so without a reset), and the O tetromino is dropped
on columns 8 and 9. -/
def over_clear_ops : List Op :=
  [Op.start] ++
    place_piece (-4) ++ place_piece (-3) ++ place_piece (-2) ++ place_piece (-1) ++
    place_piece (-3) ++
    place_piece 0 ++ place_piece 1 ++ place_piece 2 ++ place_piece 3 ++
    place_piece 1 ++
    place_piece 4 ++ place_piece 5 ++
    [Op.stop, Op.start] ++
    place_piece 5

/-- The engine after the run `over_clear_ops`. -/
def over_clear_game : TetrisGame := run (new over_clear_rng) over_clear_ops

/-- The state `reset()` leaves with the raw draws 3, 0, 0: the first piece
generated is the I tetromino (type 3, rotation 0), the second the O tetromino
(type 0). -/
def two_piece_game : TetrisGame := reset { rng_ := [3, 0, 0] }

/-- The engine of `topped_game` after one more `HardDrop`: the fifth piece is
locked where it stands, the sixth cannot be spawned, the game is over and the
fill animation has been started. -/
def lost_game : TetrisGame := (perform_action topped_game Action.HardDrop 0).1

/-- Consecutive `step_clear_animation()` calls at the clock readings given:
the engine after the last call and the results returned, oldest first. -/
def step_clear_animation_calls (g : TetrisGame) : List Int → TetrisGame × List Bool
  | [] => (g, [])
  | now :: rest =>
    let r := step_clear_animation g now
    let rs := step_clear_animation_calls r.1 rest
    (rs.1, r.2 :: rs.2)

/-- At most one of normal play, line-clear animation and game-over fill
animation is active: there are clearing rows exactly in phase Clearing, and
the fill animation flag is set only in phase GameOver. -/
def phase_exclusive (g : TetrisGame) : Prop :=
  (g.clearing_rows_ ≠ [] ↔ g.phase_ = Phase.Clearing) ∧
  (g.game_over_animation_active_ = true → g.phase_ = Phase.GameOver)

/-- The phase, the clearing rows and the fill animation flag are the same in
both states. -/
def same_mode (g g' : TetrisGame) : Prop :=
  g'.phase_ = g.phase_ ∧ g'.clearing_rows_ = g.clearing_rows_ ∧
  g'.game_over_animation_active_ = g.game_over_animation_active_

/-- The lowest row a frame occupies (the largest `y` offset). -/
def frame_bottom (frame : List Coord) : Int :=
  frame.foldl (fun m coord => max m coord.y) 0

/-- The rows the first piece of a game falls on the empty board. -/
def first_drop_rows (g : TetrisGame) : Nat :=
  (19 - frame_bottom (frame_at g.current_.type g.current_.rotation)).toNat

/-! ## The piece table, rotation and the settled board -/

/-- The quarter turn clockwise of the 3x3 box, as the specification words it:
`(x, y)` goes to `(2 - y, x)`, in screen coordinates (y grows downward). -/
def rotate_cw (coord : Coord) : Coord := ⟨2 - coord.y, coord.x⟩

/-- The rotation index `try_rotate(delta)` computes for a piece state. -/
def new_rotation (p : PieceState) (delta : Int) : Int :=
  ((piece_at p.type).rotation_count + (p.rotation + delta)).tmod (piece_at p.type).rotation_count

/-- A running engine just started with the vertical I tetromino (type 3,
rotation 0) at the spawn origin of the empty board. -/
def upright_game : TetrisGame := start (new [3, 0])

/-- The piece state indexes the piece table in range: the type is in 0..6 and
the rotation index is in `[0, rotation_count)`. -/
def piece_in_range (p : PieceState) : Prop :=
  0 ≤ p.type ∧ p.type < BLOCK_TYPES ∧
  0 ≤ p.rotation ∧ p.rotation < (piece_at p.type).rotation_count

/-- The active piece, the next piece and the buffered piece, when there is
one, index the piece table in range. -/
def pieces_in_range (g : TetrisGame) : Prop :=
  piece_in_range g.current_ ∧ piece_in_range g.next_ ∧
  ∀ p, g.pending_spawn_ = some p → piece_in_range p

/-- The active, next and buffered pieces are the same in both states. -/
def same_pieces (g g' : TetrisGame) : Prop :=
  g'.current_ = g.current_ ∧ g'.next_ = g.next_ ∧ g'.pending_spawn_ = g.pending_spawn_

/-- The states the shipped front end can drive the engine into: constructed
with any generator, then driven by any sequence of calls of `start`, `reset`,
`toggle_pause`, `tick`, `perform_action` and `step_clear_animation` (`stop`
is never called). -/
def ReachableWithoutStop (g : TetrisGame) : Prop :=
  ∃ (rng : List Nat) (ops : List Op), Op.stop ∉ ops ∧ g = run (new rng) ops

/-- The board is settled: outside a clear (in Running, Paused and Idle) no
row is full, and during a clear the full rows are exactly the clearing rows,
at most 4 of them. -/
def rows_settled (g : TetrisGame) : Prop :=
  ((g.phase_ = Phase.Running ∨ g.phase_ = Phase.Paused ∨ g.phase_ = Phase.Idle) →
    full_rows g.board_ = []) ∧
  (g.phase_ = Phase.Clearing →
    g.clearing_rows_ = full_rows g.board_ ∧ g.clearing_rows_.length ≤ 4)

/-- The phase, the board and the clearing rows are the same in both states. -/
def same_rows (g g' : TetrisGame) : Prop :=
  g'.phase_ = g.phase_ ∧ g'.board_ = g.board_ ∧ g'.clearing_rows_ = g.clearing_rows_

/-! ## Auxiliary lemmas: the piece table and the board -/

theorem frame_at_length (piece rotation : Int) : (frame_at piece rotation).length = 4 := by
  unfold frame_at piece_at
  generalize piece.toNat = n
  generalize rotation.toNat = m
  rcases n with _ | _ | _ | _ | _ | _ | _ | n <;>
    rcases m with _ | _ | _ | _ | m <;>
      simp [pieces_, piece_O, piece_Z, piece_S, piece_I, piece_L, piece_J, piece_T]

theorem frame_at_eq (piece rotation : Int) :
    frame_at piece rotation =
      [coord_at piece rotation 0, coord_at piece rotation 1,
       coord_at piece rotation 2, coord_at piece rotation 3] := by
  have h := frame_at_length piece rotation
  unfold coord_at
  rcases hf : frame_at piece rotation with _ | ⟨a, _ | ⟨b, _ | ⟨c, _ | ⟨d, _ | ⟨e, l⟩⟩⟩⟩⟩ <;>
    simp [hf] at h ⊢

/-- Every lookup in the piece table, in range or not, yields one of the 28
frames of the table. -/
theorem frame_at_table (piece rotation : Int) :
    ∃ t : Fin 7, ∃ k : Fin 4, frame_at piece rotation = frame_at (t.val : Int) (k.val : Int) := by
  unfold frame_at piece_at
  generalize piece.toNat = n
  generalize rotation.toNat = m
  rcases n with _ | _ | _ | _ | _ | _ | _ | n
  · rcases m with _ | _ | _ | _ | m
    · exact ⟨0, 0, rfl⟩
    · exact ⟨0, 1, rfl⟩
    · exact ⟨0, 2, rfl⟩
    · exact ⟨0, 3, rfl⟩
    · exact ⟨0, 0, rfl⟩
  · rcases m with _ | _ | _ | _ | m
    · exact ⟨1, 0, rfl⟩
    · exact ⟨1, 1, rfl⟩
    · exact ⟨1, 2, rfl⟩
    · exact ⟨1, 3, rfl⟩
    · exact ⟨0, 0, rfl⟩
  · rcases m with _ | _ | _ | _ | m
    · exact ⟨2, 0, rfl⟩
    · exact ⟨2, 1, rfl⟩
    · exact ⟨2, 2, rfl⟩
    · exact ⟨2, 3, rfl⟩
    · exact ⟨0, 0, rfl⟩
  · rcases m with _ | _ | _ | _ | m
    · exact ⟨3, 0, rfl⟩
    · exact ⟨3, 1, rfl⟩
    · exact ⟨3, 2, rfl⟩
    · exact ⟨3, 3, rfl⟩
    · exact ⟨0, 0, rfl⟩
  · rcases m with _ | _ | _ | _ | m
    · exact ⟨4, 0, rfl⟩
    · exact ⟨4, 1, rfl⟩
    · exact ⟨4, 2, rfl⟩
    · exact ⟨4, 3, rfl⟩
    · exact ⟨0, 0, rfl⟩
  · rcases m with _ | _ | _ | _ | m
    · exact ⟨5, 0, rfl⟩
    · exact ⟨5, 1, rfl⟩
    · exact ⟨5, 2, rfl⟩
    · exact ⟨5, 3, rfl⟩
    · exact ⟨0, 0, rfl⟩
  · rcases m with _ | _ | _ | _ | m
    · exact ⟨6, 0, rfl⟩
    · exact ⟨6, 1, rfl⟩
    · exact ⟨6, 2, rfl⟩
    · exact ⟨6, 3, rfl⟩
    · exact ⟨0, 0, rfl⟩
  · rcases m with _ | _ | _ | _ | m
    · exact ⟨0, 0, rfl⟩
    · exact ⟨0, 1, rfl⟩
    · exact ⟨0, 2, rfl⟩
    · exact ⟨0, 3, rfl⟩
    · exact ⟨0, 0, rfl⟩

/-- Every offset of every frame lies in the 4 x 4 box. -/
theorem frame_at_range (piece rotation : Int) :
    ∀ c ∈ frame_at piece rotation, 0 ≤ c.x ∧ c.x ≤ 3 ∧ 0 ≤ c.y ∧ c.y ≤ 3 := by
  obtain ⟨t, k, h⟩ := frame_at_table piece rotation
  rw [h]
  clear h
  revert t k
  decide

theorem coord_at_mem (piece rotation : Int) (i : Nat) (hi : i < 4) :
    coord_at piece rotation i ∈ frame_at piece rotation := by
  rw [frame_at_eq]
  rcases i with _ | _ | _ | _ | i
  · simp
  · simp
  · simp
  · simp
  · omega

theorem coord_at_range (piece rotation : Int) (i : Nat) (hi : i < 4) :
    0 ≤ (coord_at piece rotation i).x ∧ (coord_at piece rotation i).x ≤ 3 ∧
    0 ≤ (coord_at piece rotation i).y ∧ (coord_at piece rotation i).y ≤ 3 :=
  frame_at_range piece rotation _ (coord_at_mem piece rotation i hi)

theorem Board.get_of_fin (b : Board) (r : Fin 20) (c : Fin 10) :
    Board.get b (r.val : Int) (c.val : Int) = b r c := by
  have hr := r.isLt
  have hc := c.isLt
  unfold Board.get
  rw [dif_pos (by omega)]
  simp

theorem Board.get_ne_zero_iff (b : Board) (y x : Int) :
    Board.get b y x ≠ 0 ↔
      ∃ (r : Fin 20) (c : Fin 10), (r.val : Int) = y ∧ (c.val : Int) = x ∧ b r c ≠ 0 := by
  constructor
  · intro h
    unfold Board.get at h
    split at h
    · rename_i hb
      exact ⟨⟨y.toNat, by omega⟩, ⟨x.toNat, by omega⟩, by simp; omega, by simp; omega, h⟩
    · exact absurd rfl h
  · rintro ⟨r, c, rfl, rfl, h⟩
    rwa [Board.get_of_fin]

theorem Board.get_set (b : Board) (y x v y' x' : Int)
    (hy : 0 ≤ y' ∧ y' < 20) (hx : 0 ≤ x' ∧ x' < 10) :
    Board.get (Board.set b y x v) y' x' = if y' = y ∧ x' = x then v else Board.get b y' x' := by
  unfold Board.get Board.set
  rw [dif_pos (by omega), dif_pos (by omega)]
  have h1 : ((y'.toNat : Nat) : Int) = y' := by omega
  have h2 : ((x'.toNat : Nat) : Int) = x' := by omega
  simp only [h1, h2]

/-- The loop of `is_valid_position` accepts exactly when each remaining cell is
inside the board and on a zero cell. -/
theorem is_valid_position_loop_iff (b : Board) (x y piece rotation : Int) (n i : Nat) :
    is_valid_position_loop b x y piece rotation n i = true ↔
      ∀ j, i ≤ j → j < i + n →
        (0 ≤ x + (coord_at piece rotation j).x ∧ x + (coord_at piece rotation j).x < 10 ∧
         0 ≤ y + (coord_at piece rotation j).y ∧ y + (coord_at piece rotation j).y < 20) ∧
        Board.get b (y + (coord_at piece rotation j).y) (x + (coord_at piece rotation j).x) = 0 := by
  induction n generalizing i with
  | zero =>
    simp only [is_valid_position_loop, true_iff]
    intro j h1 h2
    omega
  | succ n ih =>
    unfold is_valid_position_loop
    simp only [WIDTH, HEIGHT]
    split_ifs with h1 h2
    · simp only [Bool.false_eq_true, false_iff]
      intro h
      have := (h i (le_refl _) (by omega)).1
      omega
    · simp only [Bool.false_eq_true, false_iff]
      intro h
      exact h2 (h i (le_refl _) (by omega)).2
    · rw [ih]
      constructor
      · intro h j hj1 hj2
        by_cases hij : j = i
        · subst hij
          exact ⟨by omega, not_not.mp h2⟩
        · exact h j (by omega) (by omega)
      · intro h j hj1 hj2
        exact h j (by omega) (by omega)

theorem is_valid_position_iff (b : Board) (x y piece rotation : Int) :
    is_valid_position b x y piece rotation = true ↔
      ∀ j, j < 4 →
        (0 ≤ x + (coord_at piece rotation j).x ∧ x + (coord_at piece rotation j).x < 10 ∧
         0 ≤ y + (coord_at piece rotation j).y ∧ y + (coord_at piece rotation j).y < 20) ∧
        Board.get b (y + (coord_at piece rotation j).y) (x + (coord_at piece rotation j).x) = 0 := by
  unfold is_valid_position
  rw [is_valid_position_loop_iff]
  constructor
  · intro h j hj
    exact h j (Nat.zero_le _) (by omega)
  · intro h j _ hj
    exact h j (by omega)

/-! ## Collision -/

/-- C1: for every board, origin, piece type and rotation, `is_valid_position`
returns false if and only if at least one of the 4 absolute cells of the frame
lies outside `[0,10) x [0,20)` or lies on a non-zero board cell. -/
theorem is_valid_position_false_iff (board_ : Board) (x y piece rotation : Int) :
    is_valid_position board_ x y piece rotation = false ↔
      ∃ i : Fin 4,
        (x + (coord_at piece rotation i).x < 0 ∨ 10 ≤ x + (coord_at piece rotation i).x ∨
         y + (coord_at piece rotation i).y < 0 ∨ 20 ≤ y + (coord_at piece rotation i).y) ∨
        ∃ (r : Fin 20) (c : Fin 10),
          (r.val : Int) = y + (coord_at piece rotation i).y ∧
          (c.val : Int) = x + (coord_at piece rotation i).x ∧ board_ r c ≠ 0 := by
  rw [← Bool.not_eq_true, is_valid_position_iff]
  constructor
  · intro h
    by_contra hne
    apply h
    intro j hj
    have hj' := fun hh => hne ⟨⟨j, hj⟩, hh⟩
    simp only [not_or] at hj'
    refine ⟨by by_contra hb; exact hj' (Or.inl (by omega)), ?_⟩
    by_contra hb
    exact hj' (Or.inr ((Board.get_ne_zero_iff _ _ _).mp hb))
  · rintro ⟨i, hi⟩ h
    have hh := h i.val i.isLt
    rcases hi with hi | hi
    · omega
    · exact (Board.get_ne_zero_iff _ _ _).mpr hi hh.2

/-! ## Movement and rotation -/

theorem try_move_eq (g : TetrisGame) (dx dy : Int) :
    try_move g dx dy =
      if g.phase_ = Phase.Running ∧
          is_valid_position g.board_ (g.current_x_ + dx) (g.current_y_ + dy)
            g.current_.type g.current_.rotation = true then
        ({ g with current_x_ := g.current_x_ + dx, current_y_ := g.current_y_ + dy }, true)
      else (g, false) := by
  unfold try_move can_accept_actions emit_state
  by_cases hp : g.phase_ = Phase.Running
  · by_cases hv : is_valid_position g.board_ (g.current_x_ + dx) (g.current_y_ + dy)
        g.current_.type g.current_.rotation = true
    · simp [hp, hv]
    · simp [hp, hv]
  · simp [hp]

/-- C5: in a Running state `MoveLeft` (dx = -1) and `MoveRight` (dx = +1)
return true exactly when the position one column over is valid; on true the
origin x becomes x + dx and nothing else changes, on false the state is
unchanged. -/
theorem perform_action_move (g : TetrisGame) (now : Int) (action : Action) (dx : Int)
    (hrun : g.phase_ = Phase.Running)
    (ha : (action = Action.MoveLeft ∧ dx = -1) ∨ (action = Action.MoveRight ∧ dx = 1)) :
    ((perform_action g action now).2 = true ↔
      is_valid_position g.board_ (g.current_x_ + dx) g.current_y_
        g.current_.type g.current_.rotation = true) ∧
    ((perform_action g action now).2 = true →
      (perform_action g action now).1 = { g with current_x_ := g.current_x_ + dx }) ∧
    ((perform_action g action now).2 = false → (perform_action g action now).1 = g) := by
  have hp : perform_action g action now = try_move g dx 0 := by
    rcases ha with ⟨rfl, rfl⟩ | ⟨rfl, rfl⟩ <;> simp [perform_action, can_accept_actions, hrun]
  rw [hp, try_move_eq]
  by_cases hv : is_valid_position g.board_ (g.current_x_ + dx) g.current_y_
      g.current_.type g.current_.rotation = true
  · simp [hrun, hv]
  · simp [hrun, hv]

theorem perform_action_move_witness :
    fresh_game.phase_ = Phase.Running ∧
    (perform_action fresh_game Action.MoveLeft 0).2 = true ∧
    (perform_action fresh_game Action.MoveLeft 0).1 =
      { fresh_game with current_x_ := fresh_game.current_x_ + (-1) } :=
  have h := perform_action_move fresh_game 0 Action.MoveLeft (-1) (by decide)
    (Or.inl ⟨rfl, rfl⟩)
  ⟨by decide, h.1.mpr (by decide), h.2.1 (h.1.mpr (by decide))⟩

/-- C7: in a Running state `SoftDrop` with a valid position one row down
returns true, increases the origin y by 1 and the score by exactly 1 and
changes nothing else; with no valid position one row down it returns false
and leaves the state unchanged (the piece is not locked). -/
theorem perform_action_soft_drop (g : TetrisGame) (now : Int)
    (hrun : g.phase_ = Phase.Running) :
    (is_valid_position g.board_ g.current_x_ (g.current_y_ + 1)
        g.current_.type g.current_.rotation = true →
      perform_action g Action.SoftDrop now =
        ({ g with current_y_ := g.current_y_ + 1, score_ := g.score_ + 1 }, true)) ∧
    (is_valid_position g.board_ g.current_x_ (g.current_y_ + 1)
        g.current_.type g.current_.rotation = false →
      perform_action g Action.SoftDrop now = (g, false)) := by
  have hp : perform_action g Action.SoftDrop now = soft_drop_step g := by
    simp [perform_action, can_accept_actions, hrun]
  rw [hp]
  unfold soft_drop_step
  rw [try_move_eq]
  constructor
  · intro hv
    simp [hrun, hv, reward_soft_drop, add_score, emit_stats]
  · intro hv
    simp [hrun, hv]

theorem perform_action_soft_drop_witness :
    fresh_game.phase_ = Phase.Running ∧
    perform_action fresh_game Action.SoftDrop 0 =
      ({ fresh_game with
          current_y_ := fresh_game.current_y_ + 1, score_ := fresh_game.score_ + 1 }, true) :=
  ⟨by decide, (perform_action_soft_drop fresh_game 0 (by decide)).1 (by decide)⟩

/-- C8: in the phases Idle, Paused, Clearing and GameOver every one of the six
actions is rejected: `perform_action` returns false and leaves the whole
engine state unchanged. -/
theorem perform_action_rejected (g : TetrisGame) (action : Action) (now : Int)
    (hphase : g.phase_ = Phase.Idle ∨ g.phase_ = Phase.Paused ∨
      g.phase_ = Phase.Clearing ∨ g.phase_ = Phase.GameOver) :
    perform_action g action now = (g, false) := by
  have hne : g.phase_ ≠ Phase.Running := by
    rcases hphase with h | h | h | h <;> simp [h]
  simp [perform_action, can_accept_actions, hne]

theorem perform_action_rejected_witness :
    (new []).phase_ = Phase.Idle ∧
    perform_action (new []) Action.HardDrop 0 = (new [], false) :=
  ⟨by decide, perform_action_rejected (new []) Action.HardDrop 0 (Or.inl (by decide))⟩

theorem rotation_count_pos (piece : Int) : 0 < (piece_at piece).rotation_count := by
  unfold piece_at
  generalize piece.toNat = n
  rcases n with _ | _ | _ | _ | _ | _ | _ | n <;>
    simp [pieces_, piece_O, piece_Z, piece_S, piece_I, piece_L, piece_J, piece_T]

/-- The rotation index `try_rotate` computes is the non-negative remainder. -/
theorem new_rotation_eq (piece rotation delta : Int) (hrot : 0 ≤ rotation)
    (hdelta : delta = 1 ∨ delta = -1) :
    ((piece_at piece).rotation_count + (rotation + delta)).tmod (piece_at piece).rotation_count
      = (rotation + delta) % (piece_at piece).rotation_count := by
  have hpos := rotation_count_pos piece
  rw [Int.tmod_eq_emod (by omega) (by omega), Int.add_emod_self_left]

theorem kicks_loop_found (g : TetrisGame) (r d : Int) (pre post : List Int)
    (hpre : ∀ e ∈ pre,
      is_valid_position g.board_ (g.current_x_ + e) g.current_y_ g.current_.type r = false)
    (hd : is_valid_position g.board_ (g.current_x_ + d) g.current_y_ g.current_.type r = true) :
    apply_rotation_with_kicks_loop g r (pre ++ d :: post) =
      ({ g with current_x_ := g.current_x_ + d,
                current_ := { g.current_ with rotation := r } }, true) := by
  induction pre with
  | nil => simp [apply_rotation_with_kicks_loop, hd, emit_state]
  | cons e pre ih =>
    have he := hpre e (List.mem_cons_self _ _)
    simp only [List.cons_append, apply_rotation_with_kicks_loop, he]
    exact ih (fun e' he' => hpre e' (List.mem_cons_of_mem _ he'))

theorem kicks_loop_none (g : TetrisGame) (r : Int) (l : List Int)
    (hall : ∀ e ∈ l,
      is_valid_position g.board_ (g.current_x_ + e) g.current_y_ g.current_.type r = false) :
    apply_rotation_with_kicks_loop g r l = (g, false) := by
  induction l with
  | nil => rfl
  | cons e l ih =>
    have he := hall e (List.mem_cons_self _ _)
    simp only [apply_rotation_with_kicks_loop, he]
    exact ih (fun e' he' => hall e' (List.mem_cons_of_mem _ he'))

theorem perform_action_rotate_eq (g : TetrisGame) (now : Int) (action : Action) (delta : Int)
    (hrun : g.phase_ = Phase.Running) (hrot : 0 ≤ g.current_.rotation)
    (ha : (action = Action.RotateCW ∧ delta = 1) ∨ (action = Action.RotateCCW ∧ delta = -1)) :
    perform_action g action now =
      apply_rotation_with_kicks_loop g
        ((g.current_.rotation + delta) % (piece_at g.current_.type).rotation_count)
        rotation_kick_offsets_ := by
  have hd : delta = 1 ∨ delta = -1 := by rcases ha with ⟨_, h⟩ | ⟨_, h⟩ <;> simp [h]
  have hp : perform_action g action now = try_rotate g delta := by
    rcases ha with ⟨rfl, rfl⟩ | ⟨rfl, rfl⟩ <;> simp [perform_action, can_accept_actions, hrun]
  rw [hp]
  unfold try_rotate apply_rotation_with_kicks
  simp only [can_accept_actions, hrun, decide_True, Bool.not_true, Bool.false_eq_true, if_false]
  rw [new_rotation_eq _ _ _ hrot hd]

/-- C3: in a Running state, for `RotateCW` (delta = +1) and `RotateCCW`
(delta = -1), with r' the non-negative remainder of rotation + delta modulo
the rotation count and d the first offset of the ordered list 0, -1, 1, -2, 2
at which the frame r' is valid on the unchanged row: `perform_action` returns
true, the origin x becomes x + d, the rotation becomes r' and nothing else
changes. -/
theorem perform_action_rotate_kick (g : TetrisGame) (now : Int) (action : Action)
    (delta d : Int) (pre post : List Int)
    (hrun : g.phase_ = Phase.Running) (hrot : 0 ≤ g.current_.rotation)
    (ha : (action = Action.RotateCW ∧ delta = 1) ∨ (action = Action.RotateCCW ∧ delta = -1))
    (hlist : rotation_kick_offsets_ = pre ++ d :: post)
    (hpre : ∀ e ∈ pre,
      is_valid_position g.board_ (g.current_x_ + e) g.current_y_ g.current_.type
        ((g.current_.rotation + delta) % (piece_at g.current_.type).rotation_count) = false)
    (hd : is_valid_position g.board_ (g.current_x_ + d) g.current_y_ g.current_.type
        ((g.current_.rotation + delta) % (piece_at g.current_.type).rotation_count) = true) :
    rotation_kick_offsets_ = [0, -1, 1, -2, 2] ∧
    perform_action g action now =
      ({ g with
          current_x_ := g.current_x_ + d,
          current_ := { g.current_ with
            rotation := (g.current_.rotation + delta) %
              (piece_at g.current_.type).rotation_count } }, true) := by
  refine ⟨rfl, ?_⟩
  rw [perform_action_rotate_eq g now action delta hrun hrot ha, hlist]
  exact kicks_loop_found g _ d pre post hpre hd

theorem perform_action_rotate_kick_witness :
    kick_game.phase_ = Phase.Running ∧
    is_valid_position kick_game.board_ (kick_game.current_x_ + 0) kick_game.current_y_
      kick_game.current_.type 1 = false ∧
    perform_action kick_game Action.RotateCW 0 =
      ({ kick_game with
          current_x_ := kick_game.current_x_ + (-1),
          current_ := { kick_game.current_ with rotation := 1 } }, true) :=
  ⟨by decide, by decide,
    (perform_action_rotate_kick kick_game 0 Action.RotateCW 1 (-1) [0] [1, -2, 2]
      (by decide) (by decide) (Or.inl ⟨rfl, rfl⟩) (by decide) (by decide) (by decide)).2⟩

/-- C4: in a Running state, for a rotation action, if none of the offsets
0, -1, 1, -2, 2 gives a valid position for the target rotation on the
unchanged row, `perform_action` returns false and the whole engine state is
the state before the call. -/
theorem perform_action_rotate_blocked (g : TetrisGame) (now : Int) (action : Action)
    (delta : Int)
    (hrun : g.phase_ = Phase.Running) (hrot : 0 ≤ g.current_.rotation)
    (ha : (action = Action.RotateCW ∧ delta = 1) ∨ (action = Action.RotateCCW ∧ delta = -1))
    (hall : ∀ e ∈ [(0 : Int), -1, 1, -2, 2],
      is_valid_position g.board_ (g.current_x_ + e) g.current_y_ g.current_.type
        ((g.current_.rotation + delta) % (piece_at g.current_.type).rotation_count) = false) :
    perform_action g action now = (g, false) := by
  rw [perform_action_rotate_eq g now action delta hrun hrot ha]
  exact kicks_loop_none g _ _ hall

theorem perform_action_rotate_blocked_witness :
    walled_game.phase_ = Phase.Running ∧
    is_valid_position walled_game.board_ walled_game.current_x_ walled_game.current_y_
      walled_game.current_.type walled_game.current_.rotation = true ∧
    perform_action walled_game Action.RotateCW 0 = (walled_game, false) :=
  ⟨by decide, by decide,
    perform_action_rotate_blocked walled_game 0 Action.RotateCW 1
      (by decide) (by decide) (Or.inl ⟨rfl, rfl⟩) (by decide)⟩

/-! ## Locking and the hard drop -/

theorem prepare_next_piece_eq (g : TetrisGame) :
    prepare_next_piece g =
      { g with next_ := (prepare_next_piece g).next_, rng_ := (prepare_next_piece g).rng_ } := by
  unfold prepare_next_piece random_piece
  dsimp only
  split_ifs <;> rfl

theorem prepare_next_piece_board (g : TetrisGame) :
    (prepare_next_piece g).board_ = g.board_ := by
  rw [prepare_next_piece_eq]

theorem prepare_next_piece_current (g : TetrisGame) :
    (prepare_next_piece g).current_ = g.current_ := by
  rw [prepare_next_piece_eq]

theorem prepare_next_piece_phase (g : TetrisGame) :
    (prepare_next_piece g).phase_ = g.phase_ := by
  rw [prepare_next_piece_eq]

theorem prepare_next_piece_score (g : TetrisGame) :
    (prepare_next_piece g).score_ = g.score_ := by
  rw [prepare_next_piece_eq]

theorem spawn_piece_board (g : TetrisGame) : (spawn_piece g).1.board_ = g.board_ := by
  unfold spawn_piece
  cases g.pending_spawn_ <;>
    (dsimp only; split_ifs <;>
      simp [begin_game_over_animation, emit_state, emit_stats, set_phase,
        prepare_next_piece_board])

theorem spawn_piece_score (g : TetrisGame) : (spawn_piece g).1.score_ = g.score_ := by
  unfold spawn_piece
  cases g.pending_spawn_ <;>
    (dsimp only; split_ifs <;>
      simp [begin_game_over_animation, emit_state, emit_stats, set_phase,
        prepare_next_piece_score])

/-- The spawn either fails and ends the game, or leaves the phase alone and
puts the piece on a valid position. -/
theorem spawn_piece_post (g : TetrisGame) :
    ((spawn_piece g).2 = false ∧ (spawn_piece g).1.phase_ = Phase.GameOver) ∨
    ((spawn_piece g).2 = true ∧ (spawn_piece g).1.phase_ = g.phase_ ∧
      is_valid_position (spawn_piece g).1.board_ (spawn_piece g).1.current_x_
        (spawn_piece g).1.current_y_ (spawn_piece g).1.current_.type
        (spawn_piece g).1.current_.rotation = true) := by
  unfold spawn_piece
  cases g.pending_spawn_ with
  | none =>
    dsimp only
    split_ifs with h
    · left
      simp [begin_game_over_animation, emit_state, emit_stats, set_phase]
    · right
      simp only [Bool.not_eq_true, Bool.not_eq_false_eq_eq_true] at h
      refine ⟨rfl, ?_, ?_⟩
      · simp [prepare_next_piece_phase]
      · simpa using h
  | some p =>
    dsimp only
    split_ifs with h
    · left
      simp [begin_game_over_animation, emit_state, emit_stats, set_phase]
    · right
      simp only [Bool.not_eq_true, Bool.not_eq_false_eq_eq_true] at h
      exact ⟨rfl, rfl, by simpa using h⟩

/-- The board after `lock_piece`: the cells of the active piece hold
`type + 1`, every other cell is as before. -/
theorem lock_piece_board (g : TetrisGame) (r : Fin 20) (c : Fin 10) :
    (lock_piece g).board_ r c =
      if ∃ coord ∈ frame_at g.current_.type g.current_.rotation,
          (r.val : Int) = g.current_y_ + coord.y ∧ (c.val : Int) = g.current_x_ + coord.x then
        g.current_.type + 1
      else g.board_ r c := by
  unfold lock_piece
  dsimp only
  generalize frame_at g.current_.type g.current_.rotation = l
  generalize g.board_ = b
  induction l generalizing b with
  | nil => simp
  | cons a l ih =>
    rw [List.foldl_cons, ih]
    have hr := r.isLt
    have hc := c.isLt
    by_cases hl : ∃ coord ∈ l,
        (r.val : Int) = g.current_y_ + coord.y ∧ (c.val : Int) = g.current_x_ + coord.x
    · have hl' : ∃ coord ∈ a :: l,
          (r.val : Int) = g.current_y_ + coord.y ∧ (c.val : Int) = g.current_x_ + coord.x := by
        obtain ⟨co, hm, hco⟩ := hl
        exact ⟨co, List.mem_cons_of_mem _ hm, hco⟩
      rw [if_pos hl, if_pos hl']
    · rw [if_neg hl]
      by_cases ha : (r.val : Int) = g.current_y_ + a.y ∧ (c.val : Int) = g.current_x_ + a.x
      · have hl' : ∃ coord ∈ a :: l,
            (r.val : Int) = g.current_y_ + coord.y ∧ (c.val : Int) = g.current_x_ + coord.x :=
          ⟨a, List.mem_cons_self _ _, ha⟩
        rw [if_pos hl']
        have hin : g.current_y_ + a.y ≥ 0 ∧ g.current_y_ + a.y < HEIGHT ∧
            g.current_x_ + a.x ≥ 0 ∧ g.current_x_ + a.x < WIDTH := by
          simp only [HEIGHT, WIDTH]
          omega
        rw [if_pos hin]
        simp [Board.set, ha.1, ha.2]
      · have hl' : ¬ ∃ coord ∈ a :: l,
            (r.val : Int) = g.current_y_ + coord.y ∧ (c.val : Int) = g.current_x_ + coord.x := by
          rintro ⟨co, hm, hco⟩
          rcases List.mem_cons.mp hm with rfl | hm
          · exact ha hco
          · exact hl ⟨co, hm, hco⟩
        rw [if_neg hl']
        split_ifs
        · simp only [Board.set]
          rw [if_neg ha]
        · rfl

theorem update_level_and_score_zero (g : TetrisGame) : update_level_and_score g 0 = g := by
  simp [update_level_and_score, emit_stats]

theorem handle_locked_piece_board (g : TetrisGame) (now : Int) :
    (handle_locked_piece g now).1.board_ = (lock_piece g).board_ := by
  unfold handle_locked_piece
  dsimp only
  split_ifs
  · simp [emit_state, update_level_and_score_zero, spawn_piece_board]
  · simp [emit_state, begin_line_clear, set_phase]

theorem handle_locked_piece_score (g : TetrisGame) (now : Int) :
    (handle_locked_piece g now).1.score_ = g.score_ := by
  unfold handle_locked_piece
  dsimp only
  split_ifs
  · simp [emit_state, update_level_and_score_zero, spawn_piece_score, lock_piece]
  · simp [emit_state, begin_line_clear, set_phase, lock_piece]

theorem frame_at_exists_iff (piece rotation : Int) (p : Coord → Prop) :
    (∃ coord ∈ frame_at piece rotation, p coord) ↔ ∃ i : Fin 4, p (coord_at piece rotation i) := by
  constructor
  · rintro ⟨co, hm, hco⟩
    rw [frame_at_eq] at hm
    simp only [List.mem_cons, List.mem_singleton, List.not_mem_nil, or_false] at hm
    rcases hm with rfl | rfl | rfl | rfl
    · exact ⟨0, hco⟩
    · exact ⟨1, hco⟩
    · exact ⟨2, hco⟩
    · exact ⟨3, hco⟩
  · rintro ⟨i, hi⟩
    exact ⟨_, coord_at_mem piece rotation i.val i.isLt, hi⟩

/-- C10: in a Running state with a validly placed active piece that cannot
move down, `tick` writes `type + 1` into exactly the 4 board cells the active
piece occupies (each of them a cell of the board) and leaves every other
board cell as it was. -/
theorem tick_locks_piece (g : TetrisGame) (now : Int)
    (hrun : g.phase_ = Phase.Running)
    (hvalid : is_valid_position g.board_ g.current_x_ g.current_y_
      g.current_.type g.current_.rotation = true)
    (hdown : is_valid_position g.board_ g.current_x_ (g.current_y_ + 1)
      g.current_.type g.current_.rotation = false) :
    (∀ (r : Fin 20) (c : Fin 10),
      (tick g now).1.board_ r c =
        if ∃ i : Fin 4,
            (r.val : Int) = g.current_y_ + (coord_at g.current_.type g.current_.rotation i).y ∧
            (c.val : Int) = g.current_x_ + (coord_at g.current_.type g.current_.rotation i).x then
          g.current_.type + 1
        else g.board_ r c) ∧
    (∀ i : Fin 4, ∃ (r : Fin 20) (c : Fin 10),
      (r.val : Int) = g.current_y_ + (coord_at g.current_.type g.current_.rotation i).y ∧
      (c.val : Int) = g.current_x_ + (coord_at g.current_.type g.current_.rotation i).x ∧
      (tick g now).1.board_ r c = g.current_.type + 1) := by
  have ht : tick g now = handle_locked_piece g now := by
    unfold tick
    rw [try_move_eq]
    simp [hrun, hdown]
  have hboard : ∀ (r : Fin 20) (c : Fin 10),
      (tick g now).1.board_ r c =
        if ∃ i : Fin 4,
            (r.val : Int) = g.current_y_ + (coord_at g.current_.type g.current_.rotation i).y ∧
            (c.val : Int) = g.current_x_ + (coord_at g.current_.type g.current_.rotation i).x then
          g.current_.type + 1
        else g.board_ r c := by
    intro r c
    rw [ht, handle_locked_piece_board, lock_piece_board]
    simp only [frame_at_exists_iff]
  refine ⟨hboard, ?_⟩
  intro i
  have hin := ((is_valid_position_iff _ _ _ _ _).mp hvalid i.val i.isLt).1
  refine ⟨⟨(g.current_y_ + (coord_at g.current_.type g.current_.rotation i).y).toNat, by omega⟩,
    ⟨(g.current_x_ + (coord_at g.current_.type g.current_.rotation i).x).toNat, by omega⟩,
    by simp; omega, by simp; omega, ?_⟩
  rw [hboard, if_pos]
  exact ⟨i, by simp; omega, by simp; omega⟩

theorem tick_locks_piece_witness :
    landed_game.phase_ = Phase.Running ∧
    (∀ (r : Fin 20) (c : Fin 10),
      (tick landed_game 0).1.board_ r c =
        if ∃ i : Fin 4,
            (r.val : Int) = landed_game.current_y_ +
              (coord_at landed_game.current_.type landed_game.current_.rotation i).y ∧
            (c.val : Int) = landed_game.current_x_ +
              (coord_at landed_game.current_.type landed_game.current_.rotation i).x then
          landed_game.current_.type + 1
        else landed_game.board_ r c) :=
  ⟨by decide!, (tick_locks_piece landed_game 0 (by decide!) (by decide!) (by decide!)).1⟩

theorem try_move_down_eq (g : TetrisGame) :
    try_move g 0 1 =
      if g.phase_ = Phase.Running ∧
          is_valid_position g.board_ g.current_x_ (g.current_y_ + 1)
            g.current_.type g.current_.rotation = true then
        ({ g with current_y_ := g.current_y_ + 1 }, true)
      else (g, false) := by
  rw [try_move_eq]
  simp only [add_zero]

/-- The loop of the hard drop, run from a Running state whose piece can fall
exactly `k` rows: the piece ends `k` rows lower and `dropped` grows by `k`. -/
theorem hard_drop_loop_eq (k : Nat) (g : TetrisGame) (dropped : Int)
    (hrun : g.phase_ = Phase.Running)
    (hfall : ∀ j : Nat, 1 ≤ j → j ≤ k →
      is_valid_position g.board_ g.current_x_ (g.current_y_ + j)
        g.current_.type g.current_.rotation = true)
    (hstop : is_valid_position g.board_ g.current_x_ (g.current_y_ + (k + 1 : Nat))
        g.current_.type g.current_.rotation = false) :
    hard_drop_loop g dropped = ({ g with current_y_ := g.current_y_ + k }, dropped + k) := by
  induction k generalizing g dropped with
  | zero =>
    rw [hard_drop_loop, try_move_down_eq]
    have hs : is_valid_position g.board_ g.current_x_ (g.current_y_ + 1)
        g.current_.type g.current_.rotation = false := by simpa using hstop
    simp [hs]
  | succ k ih =>
    rw [hard_drop_loop, try_move_down_eq]
    have h1 : is_valid_position g.board_ g.current_x_ (g.current_y_ + 1)
        g.current_.type g.current_.rotation = true := by
      simpa using hfall 1 (le_refl _) (by omega)
    rw [if_pos ⟨hrun, h1⟩]
    simp only [dite_true]
    rw [ih]
    · have e1 : g.current_y_ + 1 + (k : Int) = g.current_y_ + ((k : Int) + 1) := by ring
      have e2 : dropped + 1 + (k : Int) = dropped + ((k : Int) + 1) := by ring
      simp only [Nat.cast_add, Nat.cast_one, e1, e2]
    · exact hrun
    · intro j hj1 hj2
      have := hfall (j + 1) (by omega) (by omega)
      rw [← this]
      congr 1
      push_cast
      ring
    · rw [← hstop]
      congr 1
      push_cast
      ring

/-- From every origin the piece can fall only finitely far. -/
theorem drop_depth_exists (b : Board) (x y piece rotation : Int) :
    ∃ k : Nat,
      (∀ j : Nat, 1 ≤ j → j ≤ k → is_valid_position b x (y + j) piece rotation = true) ∧
      is_valid_position b x (y + (k + 1 : Nat)) piece rotation = false := by
  have hex : ∃ n : Nat, is_valid_position b x (y + (n + 1 : Nat)) piece rotation = false := by
    refine ⟨(20 - y).toNat, ?_⟩
    rw [← Bool.not_eq_true, is_valid_position_iff]
    intro h
    have h0 := (h 0 (by omega)).1
    have hc := coord_at_range piece rotation 0 (by omega)
    push_cast at h0
    omega
  classical
  refine ⟨Nat.find hex, ?_, Nat.find_spec hex⟩
  intro j hj1 hj2
  have hlt : j - 1 < Nat.find hex := by omega
  have := Nat.find_min hex hlt
  rw [Bool.not_eq_false] at this
  have hj : ((j - 1 + 1 : Nat) : Int) = (j : Int) := by
    congr 1
    omega
  rwa [hj] at this

theorem reward_hard_drop_eq (g : TetrisGame) (k : Nat) (hlevel : 0 ≤ g.level_) :
    reward_hard_drop g k = { g with score_ := g.score_ + k * (g.level_ + 1) } := by
  unfold reward_hard_drop
  rcases Nat.eq_zero_or_pos k with hk | hk
  · subst hk
    simp
  · have h1 : ¬ ((k : Int) ≤ 0) := by omega
    have h2 : ¬ ((k : Int) * (g.level_ + 1) ≤ 0) := by
      have : 0 < (k : Int) * (g.level_ + 1) := by positivity
      omega
    simp [h1, add_score, h2, emit_stats]

theorem hard_drop_step_eq (g : TetrisGame) (now : Int) (k : Nat)
    (hrun : g.phase_ = Phase.Running) (hlevel : 0 ≤ g.level_)
    (hfall : ∀ j : Nat, 1 ≤ j → j ≤ k →
      is_valid_position g.board_ g.current_x_ (g.current_y_ + j)
        g.current_.type g.current_.rotation = true)
    (hstop : is_valid_position g.board_ g.current_x_ (g.current_y_ + (k + 1 : Nat))
        g.current_.type g.current_.rotation = false) :
    perform_action g Action.HardDrop now =
      handle_locked_piece
        { g with current_y_ := g.current_y_ + k,
                 score_ := g.score_ + k * (g.level_ + 1) } now := by
  have hp : perform_action g Action.HardDrop now = hard_drop_step g now := by
    simp [perform_action, can_accept_actions, hrun]
  have hc : can_accept_actions g = true := by simp [can_accept_actions, hrun]
  rw [hp]
  unfold hard_drop_step
  simp only [hc, Bool.not_true, Bool.false_eq_true, if_false]
  rw [hard_drop_loop_eq k g 0 hrun hfall hstop]
  simp only [zero_add]
  rw [reward_hard_drop_eq { g with current_y_ := g.current_y_ + k } k hlevel]

/-- C6: in a Running state with a validly placed active piece and a level that
is not negative, `HardDrop` returns; with k the number of rows the piece can
fall (every position 1..k rows down is valid, the one k + 1 rows down is not)
the piece is locked k rows down: its 4 cells there are board cells holding
`type + 1` afterwards, every other cell is as before, and the score after the
call is the score before plus exactly k * (level + 1). -/
theorem perform_action_hard_drop (g : TetrisGame) (now : Int)
    (hrun : g.phase_ = Phase.Running)
    (hvalid : is_valid_position g.board_ g.current_x_ g.current_y_
      g.current_.type g.current_.rotation = true)
    (hlevel : 0 ≤ g.level_) :
    ∃ k : Nat,
      (∀ j : Nat, 1 ≤ j → j ≤ k →
        is_valid_position g.board_ g.current_x_ (g.current_y_ + j)
          g.current_.type g.current_.rotation = true) ∧
      is_valid_position g.board_ g.current_x_ (g.current_y_ + (k + 1 : Nat))
        g.current_.type g.current_.rotation = false ∧
      (∀ (r : Fin 20) (c : Fin 10),
        (perform_action g Action.HardDrop now).1.board_ r c =
          if ∃ i : Fin 4,
              (r.val : Int) =
                g.current_y_ + k + (coord_at g.current_.type g.current_.rotation i).y ∧
              (c.val : Int) =
                g.current_x_ + (coord_at g.current_.type g.current_.rotation i).x then
            g.current_.type + 1
          else g.board_ r c) ∧
      (∀ i : Fin 4, ∃ (r : Fin 20) (c : Fin 10),
        (r.val : Int) = g.current_y_ + k + (coord_at g.current_.type g.current_.rotation i).y ∧
        (c.val : Int) = g.current_x_ + (coord_at g.current_.type g.current_.rotation i).x ∧
        (perform_action g Action.HardDrop now).1.board_ r c = g.current_.type + 1) ∧
      (perform_action g Action.HardDrop now).1.score_ = g.score_ + k * (g.level_ + 1) := by
  obtain ⟨k, hfall, hstop⟩ :=
    drop_depth_exists g.board_ g.current_x_ g.current_y_ g.current_.type g.current_.rotation
  have hstep := hard_drop_step_eq g now k hrun hlevel hfall hstop
  have hboard : ∀ (r : Fin 20) (c : Fin 10),
      (perform_action g Action.HardDrop now).1.board_ r c =
        if ∃ i : Fin 4,
            (r.val : Int) =
              g.current_y_ + k + (coord_at g.current_.type g.current_.rotation i).y ∧
            (c.val : Int) =
              g.current_x_ + (coord_at g.current_.type g.current_.rotation i).x then
          g.current_.type + 1
        else g.board_ r c := by
    intro r c
    rw [hstep, handle_locked_piece_board, lock_piece_board]
    simp only [frame_at_exists_iff]
  have hland : is_valid_position g.board_ g.current_x_ (g.current_y_ + k)
      g.current_.type g.current_.rotation = true := by
    rcases Nat.eq_zero_or_pos k with hk | hk
    · subst hk
      simpa using hvalid
    · exact hfall k hk (le_refl _)
  refine ⟨k, hfall, hstop, hboard, ?_, ?_⟩
  · intro i
    have hin := ((is_valid_position_iff _ _ _ _ _).mp hland i.val i.isLt).1
    refine ⟨⟨(g.current_y_ + k + (coord_at g.current_.type g.current_.rotation i).y).toNat,
        by omega⟩,
      ⟨(g.current_x_ + (coord_at g.current_.type g.current_.rotation i).x).toNat, by omega⟩,
      by simp; omega, by simp; omega, ?_⟩
    rw [hboard, if_pos]
    exact ⟨i, by simp; omega, by simp; omega⟩
  · rw [hstep, handle_locked_piece_score]

theorem perform_action_hard_drop_witness :
    fresh_game.phase_ = Phase.Running ∧
    is_valid_position fresh_game.board_ fresh_game.current_x_ fresh_game.current_y_
      fresh_game.current_.type fresh_game.current_.rotation = true ∧
    0 ≤ fresh_game.level_ ∧
    ∃ k : Nat,
      is_valid_position fresh_game.board_ fresh_game.current_x_
        (fresh_game.current_y_ + (k + 1 : Nat))
        fresh_game.current_.type fresh_game.current_.rotation = false ∧
      (perform_action fresh_game Action.HardDrop 0).1.score_ =
        fresh_game.score_ + k * (fresh_game.level_ + 1) :=
  ⟨by decide, by decide, by decide,
    (perform_action_hard_drop fresh_game 0 (by decide) (by decide) (by decide)).imp
      fun _ h => ⟨h.2.1, h.2.2.2.2⟩⟩

theorem handle_locked_piece_of_no_full (g : TetrisGame) (now : Int)
    (h : collect_full_rows (lock_piece g) = []) :
    handle_locked_piece g now = spawn_piece (lock_piece g) := by
  unfold handle_locked_piece
  simp [h, emit_state, update_level_and_score_zero]

/-- A board with an empty column has no full row. -/
theorem collect_full_rows_of_empty_column (g : TetrisGame) (c0 : Fin 10)
    (h : ∀ r : Fin 20, g.board_ r c0 = 0) : collect_full_rows g = [] := by
  unfold collect_full_rows
  have hrow : ∀ row ∈ List.range 20,
      (List.range 10).all
        (fun (col : Nat) => decide (Board.get g.board_ (row : Int) (col : Int) ≠ 0)) = false := by
    intro row hrow
    rw [List.all_eq_false]
    refine ⟨c0.val, List.mem_range.mpr c0.isLt, ?_⟩
    have hr : row < 20 := List.mem_range.mp hrow
    have := Board.get_of_fin g.board_ ⟨row, hr⟩ c0
    simp only at this
    simp [this, h]
  generalize List.range 20 = l at hrow
  induction l with
  | nil => rfl
  | cons a l ih =>
    rw [List.foldl_cons, hrow a (List.mem_cons_self _ _)]
    exact ih (fun row hr => hrow row (List.mem_cons_of_mem _ hr))

/-! ## The active piece stays on a valid position -/

theorem reset_phase (g : TetrisGame) : (reset g).phase_ = Phase.Idle := by
  simp [reset, emit_stats, emit_state, prepare_next_piece_phase, set_phase,
    reset_game_over_animation]

theorem spawn_piece_invariant (g : TetrisGame) : play_invariant (spawn_piece g).1 := by
  intro hp
  rcases spawn_piece_post g with ⟨_, h⟩ | ⟨_, _, h⟩
  · rw [h] at hp
    simp at hp
  · exact h

theorem handle_locked_piece_post (g : TetrisGame) (now : Int) :
    (handle_locked_piece g now).1.phase_ = Phase.Clearing ∨
      play_invariant (handle_locked_piece g now).1 := by
  unfold handle_locked_piece
  dsimp only
  split_ifs
  · right
    exact spawn_piece_invariant _
  · left
    simp [emit_state, begin_line_clear, set_phase]

theorem finish_line_clear_invariant (g : TetrisGame) :
    play_invariant (finish_line_clear g).1 := by
  unfold finish_line_clear
  exact spawn_piece_invariant _

theorem advance_clear_animation_invariant (g : TetrisGame) (now : Int)
    (hp : g.phase_ = Phase.Clearing) : play_invariant (advance_clear_animation g now).1 := by
  unfold advance_clear_animation
  dsimp only
  split_ifs with h1 h2 h3
  · exact finish_line_clear_invariant _
  · intro h
    simp [emit_state, hp] at h
  · exact finish_line_clear_invariant _
  · intro h
    simp [hp] at h

theorem advance_game_over_animation_phase (g : TetrisGame) :
    (advance_game_over_animation g).1.phase_ = g.phase_ := by
  unfold advance_game_over_animation
  dsimp only
  split_ifs <;> simp [emit_state]

theorem try_move_invariant (g : TetrisGame) (dx dy : Int) (h : play_invariant g) :
    play_invariant (try_move g dx dy).1 := by
  rw [try_move_eq]
  split_ifs with hv
  · intro _
    exact hv.2
  · exact h

theorem kicks_loop_invariant (g : TetrisGame) (r : Int) (l : List Int)
    (h : play_invariant g) : play_invariant (apply_rotation_with_kicks_loop g r l).1 := by
  induction l with
  | nil => exact h
  | cons e l ih =>
    unfold apply_rotation_with_kicks_loop
    dsimp only
    split_ifs with hv
    · intro _
      exact hv
    · exact ih

theorem add_score_invariant (g : TetrisGame) (delta : Int) (h : play_invariant g) :
    play_invariant (add_score g delta) := by
  unfold add_score
  split_ifs
  · exact h
  · exact h

theorem soft_drop_step_invariant (g : TetrisGame) (h : play_invariant g) :
    play_invariant (soft_drop_step g).1 := by
  unfold soft_drop_step reward_soft_drop emit_stats
  dsimp only
  split_ifs
  · exact add_score_invariant _ _ (try_move_invariant g 0 1 h)
  · exact try_move_invariant g 0 1 h

theorem clearing_invariant (g : TetrisGame) (h : g.phase_ = Phase.Clearing) :
    play_invariant g := by
  intro hp
  rw [h] at hp
  simp at hp

theorem hard_drop_step_invariant (g : TetrisGame) (now : Int) (h : play_invariant g) :
    play_invariant (hard_drop_step g now).1 := by
  unfold hard_drop_step
  dsimp only
  split_ifs
  · exact h
  · rcases handle_locked_piece_post (reward_hard_drop (hard_drop_loop g 0).1
      (hard_drop_loop g 0).2) now with hc | hi
    · exact clearing_invariant _ hc
    · exact hi

theorem perform_action_invariant (g : TetrisGame) (action : Action) (now : Int)
    (h : play_invariant g) : play_invariant (perform_action g action now).1 := by
  unfold perform_action
  split_ifs
  · exact h
  · cases action
    · exact try_move_invariant g (-1) 0 h
    · exact try_move_invariant g 1 0 h
    · exact soft_drop_step_invariant g h
    · exact hard_drop_step_invariant g now h
    · unfold try_rotate apply_rotation_with_kicks
      split_ifs
      exact kicks_loop_invariant g _ _ h
    · unfold try_rotate apply_rotation_with_kicks
      split_ifs
      exact kicks_loop_invariant g _ _ h

theorem tick_invariant (g : TetrisGame) (now : Int) (h : play_invariant g) :
    play_invariant (tick g now).1 := by
  unfold tick
  dsimp only
  split_ifs with h1 h2 h3 h4
  · exact h
  · exact advance_clear_animation_invariant g now h2
  · exact h
  · exact try_move_invariant g 0 1 h
  · rcases handle_locked_piece_post (try_move g 0 1).1 now with hc | hi
    · exact clearing_invariant _ hc
    · exact hi

theorem step_clear_animation_invariant (g : TetrisGame) (now : Int) (h : play_invariant g) :
    play_invariant (step_clear_animation g now).1 := by
  unfold step_clear_animation
  split_ifs with h1 h2
  · exact advance_clear_animation_invariant g now h1
  · intro hp
    rw [advance_game_over_animation_phase] at hp
    simp only [is_game_over_animating, Bool.and_eq_true, decide_eq_true_eq] at h2
    rw [h2.1] at hp
    simp at hp
  · exact h

theorem toggle_pause_invariant (g : TetrisGame) (h : play_invariant g) :
    play_invariant (toggle_pause g) := by
  unfold toggle_pause
  split_ifs with h1 h2 h3
  · exact h
  · intro _
    exact h (Or.inr h2)
  · intro _
    exact h (Or.inl h3)
  · exact h

theorem apply_invariant (g : TetrisGame) (op : Op) (h : play_invariant g) :
    play_invariant (Op.apply g op) := by
  cases op with
  | start =>
    show play_invariant (start g)
    unfold start
    exact spawn_piece_invariant _
  | reset =>
    intro hp
    have := reset_phase g
    simp [Op.apply, this] at hp
  | stop =>
    intro hp
    simp [Op.apply, stop, set_phase, reset_game_over_animation] at hp
  | toggle_pause => exact toggle_pause_invariant g h
  | tick now => exact tick_invariant g now h
  | perform_action action now => exact perform_action_invariant g action now h
  | step_clear_animation now => exact step_clear_animation_invariant g now h

theorem run_invariant (ops : List Op) (g : TetrisGame) (h : play_invariant g) :
    play_invariant (run g ops) := by
  induction ops generalizing g with
  | nil => exact h
  | cons op ops ih => exact ih (Op.apply g op) (apply_invariant g op h)

theorem new_invariant (rng : List Nat) : play_invariant (new rng) := by
  intro hp
  have := reset_phase { rng_ := rng }
  simp [new, this] at hp

theorem is_valid_position_cell (b : Board) (x y piece rotation : Int)
    (hv : is_valid_position b x y piece rotation = true) (j : Nat) (hj : j < 4) :
    (0 ≤ x + (coord_at piece rotation j).x ∧ x + (coord_at piece rotation j).x < 10 ∧
      0 ≤ y + (coord_at piece rotation j).y ∧ y + (coord_at piece rotation j).y < 20) ∧
    ∃ (r : Fin 20) (c : Fin 10),
      (r.val : Int) = y + (coord_at piece rotation j).y ∧
      (c.val : Int) = x + (coord_at piece rotation j).x ∧ b r c = 0 := by
  have h := (is_valid_position_iff _ _ _ _ _).mp hv j hj
  refine ⟨h.1, ⟨(y + (coord_at piece rotation j).y).toNat, by omega⟩,
    ⟨(x + (coord_at piece rotation j).x).toNat, by omega⟩, by simp; omega, by simp; omega, ?_⟩
  have h2 := h.2
  unfold Board.get at h2
  rw [dif_pos (by omega)] at h2
  exact h2

/-- C2: in every state reachable from a newly constructed engine by any
sequence of public operations, with any clock readings and random draws, a
Running phase means that `is_valid_position` holds for the current origin,
type and rotation, that is, each of the 4 cells of the active piece is inside
the board and over a zero board cell. -/
theorem running_piece_valid (g : TetrisGame) (hreach : Reachable g)
    (hrun : g.phase_ = Phase.Running) :
    is_valid_position g.board_ g.current_x_ g.current_y_
      g.current_.type g.current_.rotation = true ∧
    ∀ cell ∈ active_cells g,
      (0 ≤ cell.1 ∧ cell.1 < 10 ∧ 0 ≤ cell.2.1 ∧ cell.2.1 < 20) ∧
      ∃ (r : Fin 20) (c : Fin 10),
        (r.val : Int) = cell.2.1 ∧ (c.val : Int) = cell.1 ∧ g.board_ r c = 0 := by
  obtain ⟨rng, ops, rfl⟩ := hreach
  have hv := run_invariant ops (new rng) (new_invariant rng) (Or.inl hrun)
  refine ⟨hv, ?_⟩
  intro cell hcell
  unfold active_cells at hcell
  rw [frame_at_eq] at hcell
  have key := is_valid_position_cell _ _ _ _ _ hv
  simp only [List.map_cons, List.map_nil, List.mem_cons, List.mem_singleton,
    List.not_mem_nil, or_false] at hcell
  rcases hcell with rfl | rfl | rfl | rfl
  · exact key 0 (by omega)
  · exact key 1 (by omega)
  · exact key 2 (by omega)
  · exact key 3 (by omega)

theorem running_piece_valid_witness :
    Reachable fresh_game ∧ fresh_game.phase_ = Phase.Running ∧
    is_valid_position fresh_game.board_ fresh_game.current_x_ fresh_game.current_y_
      fresh_game.current_.type fresh_game.current_.rotation = true :=
  ⟨⟨[], [Op.start], rfl⟩, by decide,
    (running_piece_valid fresh_game ⟨[], [Op.start], rfl⟩ (by decide)).1⟩

/-! ## What a false result of `perform_action` means -/

theorem kicks_loop_false (g : TetrisGame) (r : Int) (l : List Int)
    (h : (apply_rotation_with_kicks_loop g r l).2 = false) :
    (apply_rotation_with_kicks_loop g r l).1 = g := by
  induction l with
  | nil => rfl
  | cons e l ih =>
    unfold apply_rotation_with_kicks_loop at h ⊢
    dsimp only at h ⊢
    split_ifs at h ⊢ with hv
    exact ih h

theorem try_move_false (g : TetrisGame) (dx dy : Int) (h : (try_move g dx dy).2 = false) :
    (try_move g dx dy).1 = g := by
  rw [try_move_eq] at h ⊢
  split_ifs at h ⊢
  rfl

theorem handle_locked_piece_false (g : TetrisGame) (now : Int)
    (h : (handle_locked_piece g now).2 = false) :
    (handle_locked_piece g now).1.phase_ = Phase.GameOver := by
  unfold handle_locked_piece at h ⊢
  dsimp only at h ⊢
  split_ifs at h ⊢
  · rcases spawn_piece_post (update_level_and_score (lock_piece g) 0) with ⟨_, hp⟩ | ⟨ht, _⟩
    · exact hp
    · rw [ht] at h
      simp at h

/-- C9, the claim as stated fails: `topped_game` is reachable and Running,
`HardDrop` on it returns false, and the engine after the call is not the
engine before it (the piece has been locked and the game is over). -/
theorem hard_drop_false_mutates :
    Reachable topped_game ∧
    topped_game.phase_ = Phase.Running ∧
    (perform_action topped_game Action.HardDrop 0).2 = false ∧
    (perform_action topped_game Action.HardDrop 0).1 ≠ topped_game ∧
    (perform_action topped_game Action.HardDrop 0).1.phase_ = Phase.GameOver := by
  have hrun : topped_game.phase_ = Phase.Running := by decide!
  have hover : (perform_action topped_game Action.HardDrop 0).1.phase_ = Phase.GameOver := by
    decide!
  refine ⟨⟨_, _, rfl⟩, hrun, by decide!, ?_, hover⟩
  intro h
  rw [h, hrun] at hover
  exact absurd hover (by decide)

/-- C9, amended: for every state and every action, a false result of
`perform_action` means that the engine state is unchanged, or that the action
was `HardDrop` in phase Running and the phase after the call is GameOver (the
piece was locked and the next piece could not be spawned). -/
theorem perform_action_false (g : TetrisGame) (action : Action) (now : Int)
    (h : (perform_action g action now).2 = false) :
    (perform_action g action now).1 = g ∨
    (action = Action.HardDrop ∧ g.phase_ = Phase.Running ∧
      (perform_action g action now).1.phase_ = Phase.GameOver) := by
  by_cases hrun : g.phase_ = Phase.Running
  · have hc : can_accept_actions g = true := by simp [can_accept_actions, hrun]
    cases action with
    | MoveLeft =>
      left
      simp only [perform_action, hc, Bool.not_true, Bool.false_eq_true, if_false] at h ⊢
      exact try_move_false g _ _ h
    | MoveRight =>
      left
      simp only [perform_action, hc, Bool.not_true, Bool.false_eq_true, if_false] at h ⊢
      exact try_move_false g _ _ h
    | SoftDrop =>
      left
      simp only [perform_action, hc, Bool.not_true, Bool.false_eq_true, if_false,
        soft_drop_step] at h ⊢
      split_ifs at h ⊢ with ht
      exact try_move_false g 0 1 (by simpa using ht)
    | HardDrop =>
      right
      refine ⟨rfl, hrun, ?_⟩
      simp only [perform_action, hc, Bool.not_true, Bool.false_eq_true, if_false,
        hard_drop_step] at h ⊢
      exact handle_locked_piece_false _ now h
    | RotateCW =>
      left
      simp only [perform_action, hc, Bool.not_true, Bool.false_eq_true, if_false,
        try_rotate, apply_rotation_with_kicks] at h ⊢
      exact kicks_loop_false g _ _ h
    | RotateCCW =>
      left
      simp only [perform_action, hc, Bool.not_true, Bool.false_eq_true, if_false,
        try_rotate, apply_rotation_with_kicks] at h ⊢
      exact kicks_loop_false g _ _ h
  · left
    simp [perform_action, can_accept_actions, hrun]

theorem perform_action_false_witness :
    (perform_action walled_game Action.RotateCW 0).2 = false ∧
    ((perform_action walled_game Action.RotateCW 0).1 = walled_game ∨
      (Action.RotateCW = Action.HardDrop ∧ walled_game.phase_ = Phase.Running ∧
        (perform_action walled_game Action.RotateCW 0).1.phase_ = Phase.GameOver)) :=
  ⟨by decide, perform_action_false walled_game Action.RotateCW 0 (by decide)⟩

/-! ## Scoring of cleared lines -/

theorem add_score_pos (g : TetrisGame) (delta : Int) (h : 0 < delta) :
    add_score g delta = { g with score_ := g.score_ + delta } := by
  unfold add_score
  rw [if_neg (by omega)]

theorem update_level_and_score_pos (g : TetrisGame) (n : Int) (hn : 0 < n)
    (hd : 0 < lines_score.getD (n - 1).toNat 0 * (g.level_ + 1)) :
    update_level_and_score g n =
      { g with
        lines_cleared_ := g.lines_cleared_ + n
        score_ := g.score_ + lines_score.getD (n - 1).toNat 0 * (g.level_ + 1)
        level_ := clamp ((g.lines_cleared_ + n).tdiv 10) 0 19 } := by
  unfold update_level_and_score emit_stats
  rw [if_pos (by omega)]
  dsimp only
  rw [add_score_pos _ _ hd]

/-- C12: for N in 1..4 and a level L in 0..19, `update_level_and_score(N)`
adds exactly `base[N-1] * (L + 1)` to the score, with base 40, 100, 300, 1200
and L the level before the update, and adds exactly N to the lines cleared;
at level 0 the awards are 40, 100, 300 and 1200. -/
theorem update_level_and_score_awards (g : TetrisGame) (n : Int)
    (hn : 1 ≤ n ∧ n ≤ 4) (hlevel : 0 ≤ g.level_ ∧ g.level_ ≤ 19) :
    (update_level_and_score g n).score_ =
      g.score_ + ([40, 100, 300, 1200] : List Int).getD (n - 1).toNat 0 * (g.level_ + 1) ∧
    (update_level_and_score g n).lines_cleared_ = g.lines_cleared_ + n ∧
    (g.level_ = 0 →
      (update_level_and_score g n).score_ =
        g.score_ + (if n = 1 then 40 else if n = 2 then 100 else if n = 3 then 300 else 1200)) := by
  obtain ⟨h1, h4⟩ := hn
  obtain ⟨hl0, _⟩ := hlevel
  have hbase : 0 < lines_score.getD (n - 1).toNat 0 ∧
      lines_score.getD (n - 1).toNat 0 =
        (if n = 1 then 40 else if n = 2 then 100 else if n = 3 then 300 else 1200) := by
    have hcases : n = 1 ∨ n = 2 ∨ n = 3 ∨ n = 4 := by omega
    rcases hcases with rfl | rfl | rfl | rfl <;> decide
  have hd : 0 < lines_score.getD (n - 1).toNat 0 * (g.level_ + 1) :=
    Int.mul_pos hbase.1 (by omega)
  rw [update_level_and_score_pos g n (by omega) hd]
  refine ⟨rfl, rfl, ?_⟩
  intro h0
  simp only [h0, zero_add, mul_one, hbase.2]

theorem update_level_and_score_awards_witness :
    (update_level_and_score fresh_game 4).score_ = fresh_game.score_ + 1200 * (0 + 1) ∧
    (update_level_and_score fresh_game 4).lines_cleared_ = fresh_game.lines_cleared_ + 4 :=
  have h := update_level_and_score_awards fresh_game 4 (by decide) (by decide)
  ⟨h.1, h.2.1⟩

/-! ## The line-clear animation -/

/-- C18: `remove_rows` with the empty list leaves the board (and the whole
engine) unchanged, and so does any number of repeated calls. -/
theorem remove_rows_nil (g : TetrisGame) :
    remove_rows g [] = g ∧ (remove_rows g []).board_ = g.board_ ∧
    ∀ k : Nat, (fun s => remove_rows s [])^[k] g = g := by
  have h : ∀ s : TetrisGame, remove_rows s [] = s := fun s => rfl
  refine ⟨rfl, rfl, ?_⟩
  intro k
  induction k with
  | zero => rfl
  | succ k ih => rw [Function.iterate_succ_apply, h, ih]

theorem advance_clear_animation_wait (g : TetrisGame) (now : Int)
    (hwait : now - g.clear_start_time_ < 1500) :
    advance_clear_animation g now =
      (if now - g.last_toggle_time_ ≥ 250 then
          { g with flash_on_ := !g.flash_on_, last_toggle_time_ := now }
        else g, true) := by
  unfold advance_clear_animation emit_state
  dsimp only
  by_cases ht : now - g.last_toggle_time_ ≥ 250
  · have hd : ¬ (now - g.clear_start_time_ ≥ 1500) := by omega
    simp [ht, hd]
  · have hd : ¬ (now - g.clear_start_time_ ≥ 1500) := by omega
    simp [ht, hd]

/-- C20: in a Clearing state, at a clock reading less than 1500 ms after the
start of the clear, `step_clear_animation` and `tick` return true and change
nothing but the flash flag and the last-toggle time: the flag is inverted and
the time set to `now` if and only if at least 250 ms have passed since the
last toggle. -/
theorem clear_animation_waits (g : TetrisGame) (now : Int)
    (hphase : g.phase_ = Phase.Clearing)
    (hwait : now - g.clear_start_time_ < 1500) :
    step_clear_animation g now =
      (if now - g.last_toggle_time_ ≥ 250 then
          { g with flash_on_ := !g.flash_on_, last_toggle_time_ := now }
        else g, true) ∧
    tick g now = step_clear_animation g now := by
  have hs : step_clear_animation g now = advance_clear_animation g now := by
    simp [step_clear_animation, hphase]
  have ht : tick g now = advance_clear_animation g now := by
    simp [tick, hphase]
  rw [hs, ht]
  exact ⟨advance_clear_animation_wait g now hwait, rfl⟩

theorem clear_animation_waits_witness :
    clearing_game.phase_ = Phase.Clearing ∧
    step_clear_animation clearing_game 1300 =
      ({ clearing_game with flash_on_ := !clearing_game.flash_on_, last_toggle_time_ := 1300 },
        true) :=
  have h := clear_animation_waits clearing_game 1300 (by decide!) (by decide!)
  ⟨by decide!, by
    have h1 := h.1
    rw [if_pos (by decide!)] at h1
    exact h1⟩

/-! ## What happens when a piece locks -/

theorem spawn_placed_fields (g : TetrisGame) :
    (spawn_placed g).board_ = g.board_ ∧ (spawn_placed g).current_ = queued_piece g ∧
    (spawn_placed g).phase_ = g.phase_ ∧ (spawn_placed g).score_ = g.score_ ∧
    (spawn_placed g).level_ = g.level_ ∧ (spawn_placed g).lines_cleared_ = g.lines_cleared_ ∧
    (spawn_placed g).current_x_ = 3 ∧ (spawn_placed g).current_y_ = 0 := by
  unfold spawn_placed queued_piece
  cases g.pending_spawn_ with
  | none =>
    dsimp only
    rw [prepare_next_piece_eq]
    simp
  | some p => simp

/-- The spawn, in closed form. -/
theorem spawn_piece_eq (g : TetrisGame) :
    spawn_piece g =
      if is_valid_position g.board_ 3 0 (queued_piece g).type (queued_piece g).rotation = true then
        (spawn_placed g, true)
      else
        ({ spawn_placed g with
            phase_ := Phase.GameOver
            game_over_animation_active_ := true
            game_over_fill_row_ := 19 }, false) := by
  have hf := spawn_placed_fields g
  unfold spawn_piece
  have hx : (WIDTH.tdiv 2 - 2 : Int) = 3 := by decide
  simp only [hx]
  change (if (!is_valid_position (spawn_placed g).board_ (spawn_placed g).current_x_
      (spawn_placed g).current_y_ (spawn_placed g).current_.type
      (spawn_placed g).current_.rotation) = true then
        (emit_stats (begin_game_over_animation (spawn_placed g)), false)
      else (spawn_placed g, true)) = _
  rw [hf.1, hf.2.1, hf.2.2.2.2.2.2.1, hf.2.2.2.2.2.2.2]
  by_cases hv : is_valid_position g.board_ 3 0 (queued_piece g).type
      (queued_piece g).rotation = true
  · simp [hv]
  · simp [hv, emit_stats, begin_game_over_animation, emit_state, set_phase]
    exact ⟨hf.1, hf.2.1, hf.2.2.2.2.2.2.1, hf.2.2.2.2.2.2.2, by decide⟩

theorem foldl_push_filter {α : Type} (p : Nat → Bool) (f : Nat → α) (l : List Nat)
    (acc : List α) :
    l.foldl (fun (rows : List α) (row : Nat) => if p row then rows ++ [f row] else rows) acc =
      acc ++ (l.filter p).map f := by
  induction l generalizing acc with
  | nil => simp
  | cons a l ih =>
    rw [List.foldl_cons, ih]
    by_cases ha : p a = true
    · simp [ha]
    · simp [ha]

/-- The rows `collect_full_rows` reports are exactly the full rows, in
ascending order. -/
theorem collect_full_rows_eq (g : TetrisGame) : collect_full_rows g = full_rows g.board_ := by
  unfold collect_full_rows full_rows
  rw [foldl_push_filter (fun row => (List.range 10).all
      (fun (col : Nat) => decide (Board.get g.board_ (row : Int) (col : Int) ≠ 0)))
    (fun row => (row : Int)), List.nil_append]
  have hrange : List.range 20 = (List.finRange 20).map (fun r => r.val) := by decide
  rw [hrange, List.filter_map, List.map_map]
  congr 1
  apply List.filter_congr
  intro r _
  simp only [Function.comp]
  rw [Bool.eq_iff_iff]
  simp only [List.all_eq_true, List.mem_range, decide_eq_true_eq, row_full]
  constructor
  · intro h c
    have := h c.val c.isLt
    rwa [Board.get_of_fin] at this
  · intro h c hc
    have := Board.get_of_fin g.board_ r ⟨c, hc⟩
    simp only at this
    rw [this]
    exact h ⟨c, hc⟩

theorem full_rows_ne_nil_iff (b : Board) : full_rows b ≠ [] ↔ ∃ r : Fin 20, row_full b r := by
  unfold full_rows
  rw [Ne, List.map_eq_nil_iff, List.filter_eq_nil_iff]
  simp

theorem dropped_zero (g : TetrisGame) : dropped g 0 = g := by
  simp [dropped]

theorem handle_locked_piece_eq (g : TetrisGame) (now : Int) :
    handle_locked_piece g now =
      if full_rows (lock_piece g).board_ = [] then spawn_piece (lock_piece g)
      else
        ({ lock_piece g with
            phase_ := Phase.Clearing
            clearing_rows_ := full_rows (lock_piece g).board_
            flash_on_ := true
            clear_start_time_ := now
            last_toggle_time_ := now }, true) := by
  unfold handle_locked_piece
  dsimp only
  rw [collect_full_rows_eq]
  by_cases h : full_rows (lock_piece g).board_ = []
  · simp [h, emit_state, update_level_and_score_zero]
  · simp [h, emit_state, begin_line_clear, set_phase]

/-- C11: when the piece of a Running engine locks, by a `tick` that finds no
valid move down (k = 0) or by `HardDrop` after a fall of k rows, with `b` the
board after the piece is written: if `b` has a full row, the call returns
true and the engine is the locked one with phase Clearing, the full row
indices of `b` in ascending order as clearing rows and the flash flag set
(no piece is spawned; lines and level are untouched); if `b` has no full
row, the call is the spawn on the locked engine: score, lines and level get
no line-clear change, the queued piece stands at the origin (3, 0), and the
result is true with phase Running when that position is valid and false with
phase GameOver when it is not. -/
theorem lock_outcome (g : TetrisGame) (now : Int) (k : Nat) (res : TetrisGame × Bool)
    (hrun : g.phase_ = Phase.Running) (hlevel : 0 ≤ g.level_)
    (hfall : ∀ j : Nat, 1 ≤ j → j ≤ k →
      is_valid_position g.board_ g.current_x_ (g.current_y_ + j)
        g.current_.type g.current_.rotation = true)
    (hstop : is_valid_position g.board_ g.current_x_ (g.current_y_ + (k + 1 : Nat))
        g.current_.type g.current_.rotation = false)
    (hcall : (k = 0 ∧ res = tick g now) ∨ res = perform_action g Action.HardDrop now) :
    ((∃ r : Fin 20, row_full (lock_piece (dropped g k)).board_ r) →
      res = ({ lock_piece (dropped g k) with
                phase_ := Phase.Clearing
                clearing_rows_ := full_rows (lock_piece (dropped g k)).board_
                flash_on_ := true
                clear_start_time_ := now
                last_toggle_time_ := now }, true)) ∧
    ((¬ ∃ r : Fin 20, row_full (lock_piece (dropped g k)).board_ r) →
      res = spawn_piece (lock_piece (dropped g k)) ∧
      res.1.board_ = (lock_piece (dropped g k)).board_ ∧
      res.1.score_ = g.score_ + k * (g.level_ + 1) ∧
      res.1.lines_cleared_ = g.lines_cleared_ ∧ res.1.level_ = g.level_ ∧
      res.1.current_ = queued_piece g ∧ res.1.current_x_ = 3 ∧ res.1.current_y_ = 0 ∧
      (is_valid_position (lock_piece (dropped g k)).board_ 3 0
          (queued_piece g).type (queued_piece g).rotation = true →
        res.2 = true ∧ res.1.phase_ = Phase.Running) ∧
      (is_valid_position (lock_piece (dropped g k)).board_ 3 0
          (queued_piece g).type (queued_piece g).rotation = false →
        res.2 = false ∧ res.1.phase_ = Phase.GameOver)) := by
  have hres : res = handle_locked_piece (dropped g k) now := by
    rcases hcall with ⟨hk, ht⟩ | hh
    · subst hk
      rw [ht, dropped_zero]
      unfold tick
      rw [try_move_down_eq]
      have hd : is_valid_position g.board_ g.current_x_ (g.current_y_ + 1)
          g.current_.type g.current_.rotation = false := by simpa using hstop
      simp [hrun, hd]
    · rw [hh]
      exact hard_drop_step_eq g now k hrun hlevel hfall hstop
  rw [hres, handle_locked_piece_eq]
  have hq : queued_piece (lock_piece (dropped g k)) = queued_piece g := rfl
  constructor
  · intro hfull
    rw [if_neg ((full_rows_ne_nil_iff _).mpr hfull)]
  · intro hnone
    have hnil : full_rows (lock_piece (dropped g k)).board_ = [] := by
      by_contra hne
      exact hnone ((full_rows_ne_nil_iff _).mp hne)
    rw [if_pos hnil]
    have hf := spawn_placed_fields (lock_piece (dropped g k))
    rw [spawn_piece_eq, hq]
    by_cases hv : is_valid_position (lock_piece (dropped g k)).board_ 3 0
        (queued_piece g).type (queued_piece g).rotation = true
    · rw [if_pos hv]
      refine ⟨rfl, hf.1, hf.2.2.2.1, hf.2.2.2.2.2.1, hf.2.2.2.2.1, hf.2.1, hf.2.2.2.2.2.2.1,
        hf.2.2.2.2.2.2.2, fun _ => ⟨rfl, hf.2.2.1.trans hrun⟩, ?_⟩
      intro hv'
      rw [hv] at hv'
      exact absurd hv' (by decide)
    · rw [if_neg hv]
      refine ⟨rfl, hf.1, hf.2.2.2.1, hf.2.2.2.2.2.1, hf.2.2.2.2.1, hf.2.1, hf.2.2.2.2.2.2.1,
        hf.2.2.2.2.2.2.2, fun hv' => absurd hv' hv, fun _ => ⟨rfl, rfl⟩⟩
theorem lock_outcome_witness :
    row_game.phase_ = Phase.Running ∧
    (∃ r : Fin 20, row_full (lock_piece (dropped row_game 18)).board_ r) ∧
    perform_action row_game Action.HardDrop 1000 =
      ({ lock_piece (dropped row_game 18) with
          phase_ := Phase.Clearing
          clearing_rows_ := full_rows (lock_piece (dropped row_game 18)).board_
          flash_on_ := true
          clear_start_time_ := 1000
          last_toggle_time_ := 1000 }, true) :=
  ⟨by decide!, by decide!,
    (lock_outcome row_game 1000 18 (perform_action row_game Action.HardDrop 1000)
      (by decide!) (by decide!) (fun j h1 h2 => by interval_cases j <;> decide!) (by decide!)
      (Or.inr rfl)).1 (by decide!)⟩

/-! ## The end of the line-clear animation -/

theorem remove_rows_eq (g : TetrisGame) (rows : List Int) :
    remove_rows g rows = { g with board_ := (remove_rows g rows).board_ } := by
  unfold remove_rows
  split_ifs <;> rfl

theorem advance_clear_animation_done (g : TetrisGame) (now : Int)
    (hdone : now - g.clear_start_time_ ≥ 1500) :
    advance_clear_animation g now =
      finish_line_clear
        (if now - g.last_toggle_time_ ≥ 250 then
          { g with flash_on_ := !g.flash_on_, last_toggle_time_ := now }
        else g) := by
  unfold advance_clear_animation
  dsimp only
  by_cases ht : now - g.last_toggle_time_ ≥ 250
  · simp [ht, hdone]
  · simp [ht, hdone]

theorem spawn_placed_clear (g : TetrisGame) :
    (spawn_placed g).clearing_rows_ = g.clearing_rows_ ∧
    (spawn_placed g).flash_on_ = g.flash_on_ := by
  unfold spawn_placed
  cases g.pending_spawn_ with
  | none =>
    dsimp only
    rw [prepare_next_piece_eq]
    simp
  | some p => simp

theorem remove_rows_board_congr (g g' : TetrisGame) (rows : List Int)
    (h : g.board_ = g'.board_) : (remove_rows g rows).board_ = (remove_rows g' rows).board_ := by
  unfold remove_rows
  split_ifs
  · exact h
  · simp only [h]

/-- What the spawn leaves of the engine it is called on, and how it ends. -/
theorem spawn_piece_facts (g : TetrisGame) :
    (spawn_piece g).1.board_ = g.board_ ∧
    (spawn_piece g).1.lines_cleared_ = g.lines_cleared_ ∧
    (spawn_piece g).1.score_ = g.score_ ∧
    (spawn_piece g).1.level_ = g.level_ ∧
    (spawn_piece g).1.clearing_rows_ = g.clearing_rows_ ∧
    (spawn_piece g).1.flash_on_ = g.flash_on_ ∧
    (spawn_piece g).1.current_ = queued_piece g ∧
    (spawn_piece g).1.current_x_ = 3 ∧
    (spawn_piece g).1.current_y_ = 0 ∧
    (is_valid_position g.board_ 3 0 (queued_piece g).type (queued_piece g).rotation = true →
      (spawn_piece g).2 = true ∧ (spawn_piece g).1.phase_ = g.phase_) ∧
    (is_valid_position g.board_ 3 0 (queued_piece g).type (queued_piece g).rotation = false →
      (spawn_piece g).2 = false ∧ (spawn_piece g).1.phase_ = Phase.GameOver) := by
  have hf := spawn_placed_fields g
  have hc := spawn_placed_clear g
  rw [spawn_piece_eq]
  by_cases hv : is_valid_position g.board_ 3 0 (queued_piece g).type
      (queued_piece g).rotation = true
  · rw [if_pos hv]
    refine ⟨hf.1, hf.2.2.2.2.2.1, hf.2.2.2.1, hf.2.2.2.2.1, hc.1, hc.2, hf.2.1,
      hf.2.2.2.2.2.2.1, hf.2.2.2.2.2.2.2, fun _ => ⟨rfl, hf.2.2.1⟩, ?_⟩
    intro hv'
    rw [hv] at hv'
    exact absurd hv' (by decide)
  · rw [if_neg hv]
    exact ⟨hf.1, hf.2.2.2.2.2.1, hf.2.2.2.1, hf.2.2.2.2.1, hc.1, hc.2, hf.2.1,
      hf.2.2.2.2.2.2.1, hf.2.2.2.2.2.2.2, fun hv' => absurd hv' hv, fun _ => ⟨rfl, rfl⟩⟩

/-- The engine `finish_line_clear` hands to `spawn_piece`, for a number of
clearing rows that is positive and scores a positive award. -/
theorem finish_line_clear_eq (g : TetrisGame)
    (hn : 0 < (g.clearing_rows_.length : Int))
    (hd : 0 < lines_score.getD ((g.clearing_rows_.length : Int) - 1).toNat 0 * (g.level_ + 1)) :
    finish_line_clear g =
      spawn_piece
        { g with
          board_ := (remove_rows g g.clearing_rows_).board_
          lines_cleared_ := g.lines_cleared_ + g.clearing_rows_.length
          score_ := g.score_ +
            lines_score.getD ((g.clearing_rows_.length : Int) - 1).toNat 0 * (g.level_ + 1)
          level_ := clamp ((g.lines_cleared_ + g.clearing_rows_.length).tdiv 10) 0 19
          clearing_rows_ := []
          flash_on_ := true
          phase_ := Phase.Running } := by
  have hu := update_level_and_score_pos
    { g with
      board_ := (remove_rows g g.clearing_rows_).board_
      clearing_rows_ := []
      flash_on_ := true
      phase_ := Phase.Running } (g.clearing_rows_.length : Int) hn hd
  unfold finish_line_clear
  dsimp only
  rw [remove_rows_eq]
  simp only [emit_state, set_phase]
  rw [hu]

/-- C19: in a Clearing state with N clearing rows, N in 1..4, and a level in
0..19, at a clock reading at least 1500 ms after the start of the clear,
`step_clear_animation` is the spawn on the engine whose board is
`remove_rows(board, clearing_rows)`, whose lines are increased by N, whose
score is increased by `base[N-1] * (old level + 1)`, whose level is
recomputed, whose clearing rows are empty, whose flash flag is true and whose
phase is Running; it returns true with phase Running when the spawn position
is valid and false with phase GameOver when it is not. -/
theorem step_clear_animation_finishes (g : TetrisGame) (now : Int)
    (hphase : g.phase_ = Phase.Clearing)
    (hn : 1 ≤ g.clearing_rows_.length ∧ g.clearing_rows_.length ≤ 4)
    (hlevel : 0 ≤ g.level_ ∧ g.level_ ≤ 19)
    (hdone : now - g.clear_start_time_ ≥ 1500) :
    step_clear_animation g now =
      spawn_piece
        { g with
          board_ := (remove_rows g g.clearing_rows_).board_
          lines_cleared_ := g.lines_cleared_ + g.clearing_rows_.length
          score_ := g.score_ +
            ([40, 100, 300, 1200] : List Int).getD (g.clearing_rows_.length - 1) 0 *
              (g.level_ + 1)
          level_ := clamp ((g.lines_cleared_ + g.clearing_rows_.length).tdiv 10) 0 19
          clearing_rows_ := []
          flash_on_ := true
          phase_ := Phase.Running
          last_toggle_time_ :=
            if now - g.last_toggle_time_ ≥ 250 then now else g.last_toggle_time_ } ∧
    (step_clear_animation g now).1.board_ = (remove_rows g g.clearing_rows_).board_ ∧
    (step_clear_animation g now).1.lines_cleared_ = g.lines_cleared_ + g.clearing_rows_.length ∧
    (step_clear_animation g now).1.score_ =
      g.score_ +
        ([40, 100, 300, 1200] : List Int).getD (g.clearing_rows_.length - 1) 0 * (g.level_ + 1) ∧
    (step_clear_animation g now).1.level_ =
      clamp ((g.lines_cleared_ + g.clearing_rows_.length).tdiv 10) 0 19 ∧
    (step_clear_animation g now).1.clearing_rows_ = [] ∧
    (step_clear_animation g now).1.flash_on_ = true ∧
    (step_clear_animation g now).1.current_ = queued_piece g ∧
    (step_clear_animation g now).1.current_x_ = 3 ∧
    (step_clear_animation g now).1.current_y_ = 0 ∧
    (is_valid_position (remove_rows g g.clearing_rows_).board_ 3 0
        (queued_piece g).type (queued_piece g).rotation = true →
      (step_clear_animation g now).2 = true ∧
      (step_clear_animation g now).1.phase_ = Phase.Running) ∧
    (is_valid_position (remove_rows g g.clearing_rows_).board_ 3 0
        (queued_piece g).type (queued_piece g).rotation = false →
      (step_clear_animation g now).2 = false ∧
      (step_clear_animation g now).1.phase_ = Phase.GameOver) := by
  have hs : step_clear_animation g now = advance_clear_animation g now := by
    simp [step_clear_animation, hphase]
  have hidx : ((g.clearing_rows_.length : Int) - 1).toNat = g.clearing_rows_.length - 1 := by
    omega
  have hbase : 0 < lines_score.getD (g.clearing_rows_.length - 1) 0 := by
    have hc : g.clearing_rows_.length - 1 = 0 ∨ g.clearing_rows_.length - 1 = 1 ∨
        g.clearing_rows_.length - 1 = 2 ∨ g.clearing_rows_.length - 1 = 3 := by omega
    rcases hc with h | h | h | h <;> rw [h] <;> decide
  have hd : 0 < lines_score.getD ((g.clearing_rows_.length : Int) - 1).toNat 0 *
      (g.level_ + 1) := by
    rw [hidx]
    exact Int.mul_pos hbase (by omega)
  have hn0 : 0 < (g.clearing_rows_.length : Int) := by omega
  have hfin : ∀ gt : TetrisGame, gt.board_ = g.board_ → gt.clearing_rows_ = g.clearing_rows_ →
      gt.level_ = g.level_ → gt.lines_cleared_ = g.lines_cleared_ → gt.score_ = g.score_ →
      finish_line_clear gt =
        spawn_piece
          { gt with
            board_ := (remove_rows g g.clearing_rows_).board_
            lines_cleared_ := g.lines_cleared_ + g.clearing_rows_.length
            score_ := g.score_ +
              ([40, 100, 300, 1200] : List Int).getD (g.clearing_rows_.length - 1) 0 *
                (g.level_ + 1)
            level_ := clamp ((g.lines_cleared_ + g.clearing_rows_.length).tdiv 10) 0 19
            clearing_rows_ := []
            flash_on_ := true
            phase_ := Phase.Running } := by
    intro gt hb hr hl hli hsc
    rw [finish_line_clear_eq gt (by rw [hr]; exact hn0) (by rw [hr, hl]; exact hd)]
    rw [remove_rows_board_congr gt g _ hb, hr, hl, hli, hsc, hidx]
    rfl
  have h1 : step_clear_animation g now =
      spawn_piece
        { g with
          board_ := (remove_rows g g.clearing_rows_).board_
          lines_cleared_ := g.lines_cleared_ + g.clearing_rows_.length
          score_ := g.score_ +
            ([40, 100, 300, 1200] : List Int).getD (g.clearing_rows_.length - 1) 0 *
              (g.level_ + 1)
          level_ := clamp ((g.lines_cleared_ + g.clearing_rows_.length).tdiv 10) 0 19
          clearing_rows_ := []
          flash_on_ := true
          phase_ := Phase.Running
          last_toggle_time_ :=
            if now - g.last_toggle_time_ ≥ 250 then now else g.last_toggle_time_ } := by
    rw [hs, advance_clear_animation_done g now hdone]
    by_cases ht : now - g.last_toggle_time_ ≥ 250
    · rw [if_pos ht, if_pos ht]
      exact hfin _ rfl rfl rfl rfl rfl
    · rw [if_neg ht, if_neg ht]
      exact hfin _ rfl rfl rfl rfl rfl
  have hfacts := spawn_piece_facts
    { g with
      board_ := (remove_rows g g.clearing_rows_).board_
      lines_cleared_ := g.lines_cleared_ + g.clearing_rows_.length
      score_ := g.score_ +
        ([40, 100, 300, 1200] : List Int).getD (g.clearing_rows_.length - 1) 0 *
          (g.level_ + 1)
      level_ := clamp ((g.lines_cleared_ + g.clearing_rows_.length).tdiv 10) 0 19
      clearing_rows_ := []
      flash_on_ := true
      phase_ := Phase.Running
      last_toggle_time_ :=
        if now - g.last_toggle_time_ ≥ 250 then now else g.last_toggle_time_ }
  rw [← h1] at hfacts
  exact ⟨h1, hfacts⟩

theorem step_clear_animation_finishes_witness :
    clearing_game.phase_ = Phase.Clearing ∧
    (step_clear_animation clearing_game 2500).1.clearing_rows_ = [] ∧
    (step_clear_animation clearing_game 2500).1.lines_cleared_ =
      clearing_game.lines_cleared_ + clearing_game.clearing_rows_.length :=
  have h := step_clear_animation_finishes clearing_game 2500 (by decide!) (by decide!)
    (by decide!) (by decide!)
  ⟨by decide!, h.2.2.2.2.2.1, h.2.2.1⟩

/-! ## The counters: score, level, lines -/

theorem counters_step_same (g g' : TetrisGame) (hs : g'.score_ = g.score_)
    (hl : g'.level_ = g.level_) (hn : g'.lines_cleared_ = g.lines_cleared_) :
    counters_step g g' :=
  ⟨by rw [hs], Or.inl ⟨hl, hn⟩⟩

theorem counters_step_refl (g : TetrisGame) : counters_step g g :=
  counters_step_same g g rfl rfl rfl

theorem counters_step_trans (a b c : TetrisGame) (h1 : counters_step a b)
    (h2 : counters_step b c) : counters_step a c := by
  refine ⟨le_trans h1.1 h2.1, ?_⟩
  rcases h2.2 with ⟨hl, hn⟩ | hc
  · rcases h1.2 with ⟨hl1, hn1⟩ | hc1
    · exact Or.inl ⟨hl.trans hl1, hn.trans hn1⟩
    · right
      unfold level_consistent at hc1 ⊢
      rw [hl, hn]
      exact hc1
  · exact Or.inr hc

theorem counters_step_consistent (g g' : TetrisGame) (h : counters_step g g')
    (hg : level_consistent g) : level_consistent g' := by
  rcases h.2 with ⟨hl, hn⟩ | hc
  · unfold level_consistent at hg ⊢
    rw [hl, hn]
    exact hg
  · exact hc

theorem spawn_piece_counters (g : TetrisGame) : counters_step g (spawn_piece g).1 :=
  have h := spawn_piece_facts g
  counters_step_same _ _ h.2.2.1 h.2.2.2.1 h.2.1

theorem handle_locked_piece_counters (g : TetrisGame) (now : Int) :
    counters_step g (handle_locked_piece g now).1 := by
  rw [handle_locked_piece_eq]
  split_ifs
  · exact spawn_piece_counters (lock_piece g)
  · exact counters_step_refl g

theorem try_move_counters (g : TetrisGame) (dx dy : Int) :
    counters_step g (try_move g dx dy).1 := by
  rw [try_move_eq]
  split_ifs
  · exact counters_step_refl g
  · exact counters_step_refl g

theorem kicks_loop_counters (g : TetrisGame) (r : Int) (l : List Int) :
    counters_step g (apply_rotation_with_kicks_loop g r l).1 := by
  induction l with
  | nil => exact counters_step_refl g
  | cons e l ih =>
    unfold apply_rotation_with_kicks_loop
    dsimp only
    split_ifs
    · exact counters_step_refl g
    · exact ih

theorem try_rotate_counters (g : TetrisGame) (delta : Int) :
    counters_step g (try_rotate g delta).1 := by
  unfold try_rotate apply_rotation_with_kicks
  split_ifs
  · exact counters_step_refl g
  · exact kicks_loop_counters g _ _

theorem add_score_counters (g : TetrisGame) (delta : Int) :
    counters_step g (add_score g delta) := by
  unfold add_score
  split_ifs with h
  · exact counters_step_refl g
  · exact ⟨by simp only; omega, Or.inl ⟨rfl, rfl⟩⟩

/-- The drop loop only lowers the piece. -/
theorem hard_drop_loop_frame (g : TetrisGame) (dropped : Int) :
    ∃ k : Nat, hard_drop_loop g dropped =
      ({ g with current_y_ := g.current_y_ + k }, dropped + k) := by
  by_cases hrun : g.phase_ = Phase.Running
  · obtain ⟨k, hfall, hstop⟩ :=
      drop_depth_exists g.board_ g.current_x_ g.current_y_ g.current_.type g.current_.rotation
    exact ⟨k, hard_drop_loop_eq k g dropped hrun hfall hstop⟩
  · refine ⟨0, ?_⟩
    rw [hard_drop_loop, try_move_down_eq]
    simp [hrun]

theorem reward_hard_drop_counters (g : TetrisGame) (n : Int) :
    counters_step g (reward_hard_drop g n) := by
  unfold reward_hard_drop emit_stats
  split_ifs
  · exact counters_step_refl g
  · exact add_score_counters g _

theorem hard_drop_step_counters (g : TetrisGame) (now : Int) :
    counters_step g (hard_drop_step g now).1 := by
  unfold hard_drop_step
  dsimp only
  split_ifs
  · exact counters_step_refl g
  · obtain ⟨k, hk⟩ := hard_drop_loop_frame g 0
    rw [hk]
    have h1 : counters_step g { g with current_y_ := g.current_y_ + k } :=
      counters_step_same _ _ rfl rfl rfl
    have h2 := reward_hard_drop_counters { g with current_y_ := g.current_y_ + k } (0 + k)
    have h3 := handle_locked_piece_counters
      (reward_hard_drop { g with current_y_ := g.current_y_ + k } (0 + k)) now
    exact counters_step_trans _ _ _ (counters_step_trans _ _ _ h1 h2) h3

theorem soft_drop_step_counters (g : TetrisGame) : counters_step g (soft_drop_step g).1 := by
  unfold soft_drop_step reward_soft_drop emit_stats
  dsimp only
  split_ifs
  · exact counters_step_trans _ _ _ (try_move_counters g 0 1) (add_score_counters _ 1)
  · exact try_move_counters g 0 1

theorem update_level_and_score_counters (g : TetrisGame) (n : Int) :
    counters_step g (update_level_and_score g n) := by
  unfold update_level_and_score emit_stats
  split_ifs with hn
  · refine ⟨?_, Or.inr ?_⟩
    · exact (add_score_counters { g with lines_cleared_ := g.lines_cleared_ + n } _).1
    · unfold level_consistent add_score
      dsimp only
  · exact counters_step_refl g

theorem remove_rows_counters (g : TetrisGame) (rows : List Int) :
    counters_step g (remove_rows g rows) := by
  rw [remove_rows_eq]
  exact counters_step_refl g

theorem finish_line_clear_counters (g : TetrisGame) :
    counters_step g (finish_line_clear g).1 := by
  unfold finish_line_clear
  dsimp only [emit_state, set_phase]
  refine counters_step_trans _ _ _ ?_ (spawn_piece_counters _)
  refine counters_step_trans _ _ _ ?_ (update_level_and_score_counters _ _)
  rw [remove_rows_eq]
  exact counters_step_refl g

theorem advance_clear_animation_counters (g : TetrisGame) (now : Int) :
    counters_step g (advance_clear_animation g now).1 := by
  unfold advance_clear_animation
  dsimp only
  split_ifs
  · exact counters_step_trans _ _ _ (counters_step_refl g) (finish_line_clear_counters _)
  · exact counters_step_refl g
  · exact finish_line_clear_counters g
  · exact counters_step_refl g

theorem advance_game_over_animation_counters (g : TetrisGame) :
    counters_step g (advance_game_over_animation g).1 := by
  unfold advance_game_over_animation
  dsimp only
  split_ifs <;> exact counters_step_refl g

theorem tick_counters (g : TetrisGame) (now : Int) : counters_step g (tick g now).1 := by
  unfold tick
  dsimp only
  split_ifs
  · exact counters_step_refl g
  · exact advance_clear_animation_counters g now
  · exact counters_step_refl g
  · exact try_move_counters g 0 1
  · exact counters_step_trans _ _ _ (try_move_counters g 0 1)
      (handle_locked_piece_counters _ now)

theorem perform_action_counters (g : TetrisGame) (action : Action) (now : Int) :
    counters_step g (perform_action g action now).1 := by
  unfold perform_action
  split_ifs
  · exact counters_step_refl g
  · cases action
    · exact try_move_counters g (-1) 0
    · exact try_move_counters g 1 0
    · exact soft_drop_step_counters g
    · exact hard_drop_step_counters g now
    · exact try_rotate_counters g 1
    · exact try_rotate_counters g (-1)

theorem step_clear_animation_counters (g : TetrisGame) (now : Int) :
    counters_step g (step_clear_animation g now).1 := by
  unfold step_clear_animation
  split_ifs
  · exact advance_clear_animation_counters g now
  · exact advance_game_over_animation_counters g
  · exact counters_step_refl g

theorem toggle_pause_counters (g : TetrisGame) : counters_step g (toggle_pause g) := by
  unfold toggle_pause
  split_ifs <;> exact counters_step_refl g

theorem stop_counters (g : TetrisGame) : counters_step g (stop g) :=
  counters_step_refl g

theorem apply_counters (g : TetrisGame) (op : Op) (hop : op ≠ Op.start ∧ op ≠ Op.reset) :
    counters_step g (Op.apply g op) := by
  cases op with
  | start => exact absurd rfl hop.1
  | reset => exact absurd rfl hop.2
  | stop => exact stop_counters g
  | toggle_pause => exact toggle_pause_counters g
  | tick now => exact tick_counters g now
  | perform_action action now => exact perform_action_counters g action now
  | step_clear_animation now => exact step_clear_animation_counters g now

theorem prepare_next_piece_level (g : TetrisGame) :
    (prepare_next_piece g).level_ = g.level_ := by
  rw [prepare_next_piece_eq]

theorem prepare_next_piece_lines (g : TetrisGame) :
    (prepare_next_piece g).lines_cleared_ = g.lines_cleared_ := by
  rw [prepare_next_piece_eq]

theorem reset_counters (g : TetrisGame) :
    (reset g).score_ = 0 ∧ (reset g).level_ = 0 ∧ (reset g).lines_cleared_ = 0 := by
  simp [reset, emit_stats, emit_state, prepare_next_piece_score, prepare_next_piece_level,
    prepare_next_piece_lines, set_phase, reset_game_over_animation]

theorem reset_consistent (g : TetrisGame) : level_consistent (reset g) := by
  have h := reset_counters g
  unfold level_consistent
  rw [h.2.1, h.2.2]
  decide

theorem start_consistent (g : TetrisGame) (h : level_consistent g) :
    level_consistent (start g) := by
  unfold start
  simp only [emit_stats, emit_state]
  apply counters_step_consistent _ _ (spawn_piece_counters _)
  split_ifs
  · exact reset_consistent g
  · exact h

theorem apply_consistent (g : TetrisGame) (op : Op) (h : level_consistent g) :
    level_consistent (Op.apply g op) := by
  by_cases hop : op ≠ Op.start ∧ op ≠ Op.reset
  · exact counters_step_consistent _ _ (apply_counters g op hop) h
  · cases op with
    | start => exact start_consistent g h
    | reset => exact reset_consistent g
    | stop => exact absurd ⟨by simp, by simp⟩ hop
    | toggle_pause => exact absurd ⟨by simp, by simp⟩ hop
    | tick now => exact absurd ⟨by simp, by simp⟩ hop
    | perform_action action now => exact absurd ⟨by simp, by simp⟩ hop
    | step_clear_animation now => exact absurd ⟨by simp, by simp⟩ hop

theorem run_consistent (ops : List Op) (g : TetrisGame) (h : level_consistent g) :
    level_consistent (run g ops) := by
  induction ops generalizing g with
  | nil => exact h
  | cons op ops ih => exact ih (Op.apply g op) (apply_consistent g op h)

theorem reachable_apply (g : TetrisGame) (op : Op) (h : Reachable g) :
    Reachable (Op.apply g op) := by
  obtain ⟨rng, ops, rfl⟩ := h
  refine ⟨rng, ops ++ [op], ?_⟩
  simp [run, List.foldl_append]

theorem reachable_run (g : TetrisGame) (ops : List Op) (h : Reachable g) :
    Reachable (run g ops) := by
  induction ops generalizing g with
  | nil => exact h
  | cons op ops ih => exact ih (Op.apply g op) (reachable_apply g op h)

theorem row_game_reachable : Reachable row_game := ⟨_, _, rfl⟩

theorem clearing_game_reachable : Reachable clearing_game :=
  reachable_apply row_game (Op.perform_action Action.HardDrop 1000) row_game_reachable

theorem clamp_range (v : Int) : 0 ≤ clamp v 0 19 ∧ clamp v 0 19 ≤ 19 := by
  unfold clamp
  split_ifs <;> omega

/-- C13: in every state reachable from a newly constructed engine by any
sequence of public operations, `level()` equals `clamp(lines() / 10, 0, 19)`
with the truncating integer division; hence the level is in 0..19 and the
index of the lookup `level_speeds_[level_]` of `speed_ms()` is in range. -/
theorem level_from_lines (g : TetrisGame) (hreach : Reachable g) :
    level g = clamp ((lines g).tdiv 10) 0 19 ∧
    0 ≤ level g ∧ level g ≤ 19 ∧
    (level g).toNat < level_speeds_.length ∧
    speed_ms g ∈ level_speeds_ := by
  obtain ⟨rng, ops, rfl⟩ := hreach
  have h : level_consistent (run (new rng) ops) :=
    run_consistent ops (new rng) (reset_consistent _)
  unfold level_consistent at h
  have hr := clamp_range ((run (new rng) ops).lines_cleared_.tdiv 10)
  rw [← h] at hr
  have hlen : level_speeds_.length = 20 := rfl
  have hlt : (run (new rng) ops).level_.toNat < level_speeds_.length := by
    rw [hlen]
    omega
  refine ⟨h, hr.1, hr.2, hlt, ?_⟩
  unfold speed_ms
  rw [List.getD_eq_getElem _ _ hlt]
  exact List.getElem_mem _

theorem level_from_lines_witness :
    Reachable clearing_game ∧ level clearing_game = clamp ((lines clearing_game).tdiv 10) 0 19 :=
  ⟨clearing_game_reachable, (level_from_lines clearing_game clearing_game_reachable).1⟩

/-- C14: for every state and every public operation other than `reset()` and
`start()` (tick, perform_action with any action, step_clear_animation,
toggle_pause, stop), the score after the operation is at least the score
before it, scores being unbounded integers. -/
theorem score_monotone (g : TetrisGame) (op : Op) (hop : op ≠ Op.start ∧ op ≠ Op.reset) :
    score g ≤ score (Op.apply g op) :=
  (apply_counters g op hop).1

theorem score_monotone_witness :
    score row_game ≤ score (Op.apply row_game hard_drop) :=
  score_monotone row_game hard_drop ⟨by decide, by decide⟩

/-! ## Row removal -/

theorem remove_flags_fold (rows : List Int) (init : Int → Bool) (i : Int) :
    rows.foldl (fun flags row =>
        if row ≥ 0 ∧ row < HEIGHT then (fun r => if r = row then true else flags r)
        else flags) init i = true ↔
      init i = true ∨ (i ∈ rows ∧ 0 ≤ i ∧ i < 20) := by
  induction rows generalizing init with
  | nil => simp
  | cons a rows ih =>
    rw [List.foldl_cons, ih]
    by_cases ha : a ≥ 0 ∧ a < HEIGHT
    · rw [if_pos ha]
      simp only [HEIGHT] at ha
      by_cases hia : i = a
      · subst hia
        have hin : i ∈ i :: rows := List.mem_cons_self _ _
        constructor
        · intro _
          exact Or.inr ⟨hin, by omega, by omega⟩
        · intro _
          left
          simp
      · simp [hia]
    · rw [if_neg ha]
      simp only [HEIGHT] at ha
      by_cases hia : i = a
      · subst hia
        constructor
        · rintro (h | h)
          · exact Or.inl h
          · exact Or.inr ⟨List.mem_cons_of_mem _ h.1, h.2⟩
        · rintro (h | h)
          · exact Or.inl h
          · exact absurd ⟨by omega, by omega⟩ ha
      · simp [hia]

/-- A row is flagged exactly when its index is in the list (entries outside
`0..19` flag nothing). -/
theorem remove_flags_iff (rows : List Int) (i : Int) :
    remove_flags rows i = true ↔ i ∈ rows ∧ 0 ≤ i ∧ i < 20 := by
  unfold remove_flags
  rw [remove_flags_fold]
  simp

theorem remove_rows_fill_row (m : Nat) (b : Board) (j : Fin 20) :
    remove_rows_fill m b j = if j.val < m then (fun _ => 0) else b j := by
  induction m generalizing b with
  | zero => simp [remove_rows_fill]
  | succ m ih =>
    rw [remove_rows_fill, ih]
    by_cases h1 : j.val < m
    · rw [if_pos h1, if_pos (by omega)]
    · rw [if_neg h1]
      unfold Board.setRow
      by_cases h2 : j.val = m
      · rw [if_pos (by omega), if_pos (by omega)]
      · rw [if_neg (by omega), if_neg (by omega)]

theorem kept_below_succ (flags : Int → Bool) (n : Nat) :
    kept_below flags (n + 1) =
      kept_below flags n ++ (if flags (n : Int) then [] else [n]) := by
  unfold kept_below
  rw [List.range_succ, List.filter_append]
  congr 1
  by_cases h : flags (n : Int) = true
  · simp [h]
  · simp [h]

theorem kept_below_lt (flags : Int → Bool) (n : Nat) : ∀ i ∈ kept_below flags n, i < n := by
  intro i hi
  unfold kept_below at hi
  exact List.mem_range.mp (List.mem_filter.mp hi).1

theorem kept_below_length_le (flags : Int → Bool) (n : Nat) :
    (kept_below flags n).length ≤ n := by
  unfold kept_below
  exact le_trans (List.length_filter_le _ _) (by simp)
theorem kept_below_getD_lt (flags : Int → Bool) (n i : Nat)
    (hi : i < (kept_below flags n).length) : (kept_below flags n).getD i 0 < n := by
  rw [List.getD_eq_getElem _ _ hi]
  exact kept_below_lt flags n _ (List.getElem_mem _)

theorem getRow_of_fin (b : Board) (j : Fin 20) : Board.getRow b (j.val : Int) = b j := by
  have hj := j.isLt
  unfold Board.getRow
  rw [dif_pos (by omega)]
  simp

theorem setRow_same (b : Board) (t : Int) (line : Fin 10 → Int) (j : Fin 20)
    (h : (j.val : Int) = t) : Board.setRow b t line j = line := by
  unfold Board.setRow
  rw [if_pos h]

theorem setRow_other (b : Board) (t : Int) (line : Fin 10 → Int) (j : Fin 20)
    (h : (j.val : Int) ≠ t) : Board.setRow b t line j = b j := by
  unfold Board.setRow
  rw [if_neg h]

theorem getRow_setRow_other (b : Board) (t : Int) (line : Fin 10 → Int) (i : Int)
    (h : i ≠ t) : Board.getRow (Board.setRow b t line) i = Board.getRow b i := by
  unfold Board.getRow
  split_ifs with hi
  · exact setRow_other b t line _ (by simp; omega)
  · rfl

/-- The copy loop of `remove_rows` run on the rows below `n` with the cursor
at `t`: the kept rows below `n` end up, in their order, in the rows up to
`t`, the cursor moves up by their number, and every other row is as it was. -/
theorem remove_rows_copy_spec (flags : Int → Bool) (n : Nat) (b : Board) (t : Int)
    (ht : (n : Int) - 1 ≤ t) :
    (remove_rows_copy flags n (b, t)).2 = t - (kept_below flags n).length ∧
    ∀ j : Fin 20,
      (remove_rows_copy flags n (b, t)).1 j =
        if t - (kept_below flags n).length < (j.val : Int) ∧ (j.val : Int) ≤ t then
          Board.getRow b (((kept_below flags n).getD
            ((j.val : Int) - (t - (kept_below flags n).length) - 1).toNat 0 : Nat) : Int)
        else b j := by
  induction n generalizing b t with
  | zero =>
    refine ⟨by simp [remove_rows_copy, kept_below], ?_⟩
    intro j
    simp only [remove_rows_copy, kept_below, List.range_zero, List.filter_nil, List.length_nil,
      Nat.cast_zero, sub_zero]
    rw [if_neg (by omega)]
  | succ n ih =>
    rw [kept_below_succ]
    unfold remove_rows_copy
    dsimp only
    by_cases hf : flags (n : Int) = true
    · rw [if_pos hf]
      simp only [hf, if_true, List.append_nil]
      exact ih b t (by push_cast at ht; omega)
    · rw [if_neg hf]
      simp only [hf, Bool.false_eq_true, if_false, List.length_append, List.length_singleton]
      have hnt : (n : Int) ≤ t := by push_cast at ht; omega
      have hb1 : (if t ≠ (n : Int) then Board.setRow b t (Board.getRow b (n : Int)) else b) =
          Board.setRow b t (Board.getRow b (n : Int)) := by
        by_cases htn : t = (n : Int)
        · rw [if_neg (by simpa using htn)]
          funext j
          by_cases hjt : (j.val : Int) = t
          · rw [setRow_same b t _ j hjt, ← htn, ← hjt, getRow_of_fin]
          · rw [setRow_other b t _ j hjt]
        · rw [if_pos htn]
      rw [hb1]
      obtain ⟨h2, hrows⟩ := ih (Board.setRow b t (Board.getRow b (n : Int))) (t - 1) (by omega)
      refine ⟨by rw [h2]; push_cast; omega, ?_⟩
      intro j
      rw [hrows j]
      have hlen := kept_below_length_le flags n
      have hcast : (((kept_below flags n).length + 1 : Nat) : Int) =
          ((kept_below flags n).length : Int) + 1 := by push_cast; rfl
      rw [hcast]
      by_cases hj1 : t - 1 - ((kept_below flags n).length : Int) < (j.val : Int) ∧
          (j.val : Int) ≤ t - 1
      · have hj2 : t - (((kept_below flags n).length : Int) + 1) < (j.val : Int) ∧
            (j.val : Int) ≤ t := by omega
        rw [if_pos hj1, if_pos hj2]
        have hidx : ((j.val : Int) - (t - (((kept_below flags n).length : Int) + 1)) - 1).toNat =
            ((j.val : Int) - (t - 1 - ((kept_below flags n).length : Int)) - 1).toNat := by
          congr 1
          omega
        rw [hidx]
        have hil : ((j.val : Int) - (t - 1 - ((kept_below flags n).length : Int)) - 1).toNat <
            (kept_below flags n).length := by omega
        rw [List.getD_append _ _ _ _ hil]
        have hlt := kept_below_getD_lt flags n _ hil
        rw [getRow_setRow_other]
        omega
      · rw [if_neg hj1]
        by_cases hjt : (j.val : Int) = t
        · have hj2 : t - (((kept_below flags n).length : Int) + 1) < (j.val : Int) ∧
              (j.val : Int) ≤ t := by omega
          rw [if_pos hj2]
          have hidx : ((j.val : Int) - (t - (((kept_below flags n).length : Int) + 1)) - 1).toNat =
              (kept_below flags n).length := by omega
          rw [hidx, List.getD_append_right _ _ _ _ (le_refl _)]
          simp only [Nat.sub_self, List.getD_cons_zero]
          exact setRow_same b t _ j hjt
        · have hj2 : ¬ (t - (((kept_below flags n).length : Int) + 1) < (j.val : Int) ∧
              (j.val : Int) ≤ t) := by omega
          rw [if_neg hj2]
          exact setRow_other b t _ j hjt
theorem kept_rows_eq (b : Board) (rows : List Int) :
    kept_rows b rows =
      (kept_below (remove_flags rows) 20).map (fun (i : Nat) => Board.getRow b (i : Int)) := by
  unfold kept_rows kept_below
  have hrange : List.range 20 = (List.finRange 20).map (fun r => r.val) := by decide
  rw [hrange, List.filter_map, List.map_map]
  have hfun : ((fun i : Nat => Board.getRow b (i : Int)) ∘ fun r : Fin 20 => r.val) = b := by
    funext r
    exact getRow_of_fin b r
  rw [hfun]
  congr 1
  apply List.filter_congr
  intro r _
  simp only [Function.comp]
  have hr := r.isLt
  rw [Bool.eq_iff_iff]
  simp only [decide_eq_true_eq, Bool.not_eq_true', ← Bool.not_eq_true, remove_flags_iff]
  constructor
  · intro h hh
    exact h hh.1
  · intro h hh
    exact h ⟨hh, by omega, by omega⟩

/-- Row `j` of the board after `remove_rows` with a non-empty list: zero above
the kept rows, and below that the kept rows in their order. -/
theorem remove_rows_row (g : TetrisGame) (rows : List Int) (hne : rows ≠ []) (j : Fin 20) :
    (remove_rows g rows).board_ j =
      if j.val < 20 - (kept_below (remove_flags rows) 20).length then (fun _ => 0)
      else Board.getRow g.board_
        (((kept_below (remove_flags rows) 20).getD
          (j.val - (20 - (kept_below (remove_flags rows) 20).length)) 0 : Nat) : Int) := by
  have hlen := kept_below_length_le (remove_flags rows) 20
  obtain ⟨h2, hrows⟩ := remove_rows_copy_spec (remove_flags rows) 20 g.board_ (HEIGHT - 1)
    (by simp only [HEIGHT]; omega)
  unfold remove_rows
  have he : rows.isEmpty = false := by
    cases rows with
    | nil => exact absurd rfl hne
    | cons a l => rfl
  simp only [he, Bool.false_eq_true, if_false]
  rw [remove_rows_fill_row, h2, hrows j]
  have hj := j.isLt
  simp only [HEIGHT]
  have hm : ((20 : Int) - 1 - ((kept_below (remove_flags rows) 20).length : Int) + 1).toNat =
      20 - (kept_below (remove_flags rows) 20).length := by omega
  rw [hm]
  by_cases hjm : j.val < 20 - (kept_below (remove_flags rows) 20).length
  · rw [if_pos hjm, if_pos hjm]
  · have hin : (20 : Int) - 1 - ((kept_below (remove_flags rows) 20).length : Int) < (j.val : Int) ∧
        (j.val : Int) ≤ 20 - 1 := by omega
    rw [if_neg hjm, if_neg hjm, if_pos hin]
    have hidx : ((j.val : Int) - (20 - 1 - ((kept_below (remove_flags rows) 20).length : Int)) - 1).toNat =
        j.val - (20 - (kept_below (remove_flags rows) 20).length) := by omega
    rw [hidx]

theorem remove_rows_refines (g : TetrisGame) (rows : List Int) :
    (List.finRange 20).map (remove_rows g rows).board_ = remove_rows_spec g.board_ rows := by
  by_cases hne : rows = []
  · subst hne
    unfold remove_rows_spec kept_rows
    simp [remove_rows]
  · unfold remove_rows_spec
    rw [kept_rows_eq]
    have hlen := kept_below_length_le (remove_flags rows) 20
    apply List.ext_getElem
    · simp
      omega
    · intro i h1 h2
      simp only [List.length_map, List.length_finRange] at h1
      rw [List.getElem_map, List.getElem_finRange, remove_rows_row g rows hne]
      simp only [List.length_map]
      by_cases him : i < 20 - (kept_below (remove_flags rows) 20).length
      · rw [List.getElem_append_left (by simpa using him)]
        simp [him]
      · rw [List.getElem_append_right (by simpa using him)]
        simp only [Fin.coe_cast, Fin.val_mk, if_neg him, List.length_replicate, List.getElem_map]
        have hidx : i - (20 - (kept_below (remove_flags rows) 20).length) <
            (kept_below (remove_flags rows) 20).length := by omega
        rw [List.getD_eq_getElem _ _ hidx]

/-- C16: for every board and every list of row indices (duplicates and
entries outside 0..19 are ignored), with K the rows of the board whose index
is not in the list, in their original top-to-bottom order, the board after
`remove_rows` is 20 - |K| all-zero rows followed by the rows K in the same
order: the in-place bottom-up copy equals "filter out the removed rows, then
pad with zero rows on top". Nothing but the board changes. -/
theorem remove_rows_compacts (g : TetrisGame) (rows : List Int) :
    (List.finRange 20).map (remove_rows g rows).board_ = remove_rows_spec g.board_ rows ∧
    remove_rows_spec g.board_ rows =
      List.replicate
          (20 - (((List.finRange 20).filter
            (fun i => decide ((i.val : Int) ∉ rows))).map g.board_).length)
          (fun _ => 0) ++
        ((List.finRange 20).filter (fun i => decide ((i.val : Int) ∉ rows))).map g.board_ ∧
    remove_rows g rows = { g with board_ := (remove_rows g rows).board_ } :=
  ⟨remove_rows_refines g rows, rfl, remove_rows_eq g rows⟩

/-- C17: `remove_rows` called with a list that contains all 20 row indices
0..19 leaves a board in which every cell is 0. -/
theorem remove_rows_all (g : TetrisGame) (rows : List Int)
    (hall : ∀ i : Fin 20, (i.val : Int) ∈ rows) :
    ∀ (r : Fin 20) (c : Fin 10), (remove_rows g rows).board_ r c = 0 := by
  intro r c
  have hne : rows ≠ [] := by
    intro h
    have := hall 0
    rw [h] at this
    exact absurd this (List.not_mem_nil _)
  have hk : kept_below (remove_flags rows) 20 = [] := by
    unfold kept_below
    rw [List.filter_eq_nil_iff]
    intro i hi
    have hi' : i < 20 := List.mem_range.mp hi
    have hflag : remove_flags rows (i : Int) = true :=
      (remove_flags_iff rows i).mpr ⟨hall ⟨i, hi'⟩, by omega, by omega⟩
    simp [hflag]
  rw [remove_rows_row g rows hne, hk]
  have hr := r.isLt
  simp only [List.length_nil, Nat.sub_zero]
  rw [if_pos hr]

theorem remove_rows_all_witness :
    (∀ i : Fin 20, (i.val : Int) ∈
      ([0, 1, 2, 3, 4, 5, 6, 7, 8, 9, 10, 11, 12, 13, 14, 15, 16, 17, 18, 19] : List Int)) ∧
    ∀ (r : Fin 20) (c : Fin 10),
      (remove_rows clearing_game
        [0, 1, 2, 3, 4, 5, 6, 7, 8, 9, 10, 11, 12, 13, 14, 15, 16, 17, 18, 19]).board_ r c = 0 :=
  ⟨by decide, remove_rows_all clearing_game _ (by decide)⟩

/-! ## More than four rows can be cleared at once -/

/-- C15 fails on the code: `over_clear_game` is reachable, it is Clearing
with the five rows 15 to 19, and the end of the animation applies the
line-clear scoring for N = 5 (the lines grow by 5), although the base-point
table has four entries; the lookup at index 4, past the end of the table, is
read as 0 here. -/
theorem five_rows_cleared_at_once :
    Reachable over_clear_game ∧
    (over_clear_game.phase_ = Phase.Clearing ∧
      clearing_rows over_clear_game = [15, 16, 17, 18, 19] ∧
      ¬ ((clearing_rows over_clear_game).length ≤ 4) ∧
      lines_score.length = 4 ∧
      lines (step_clear_animation over_clear_game 1500).1 = lines over_clear_game + 5 ∧
      score (step_clear_animation over_clear_game 1500).1 = score over_clear_game) :=
  ⟨⟨_, _, rfl⟩, by decide!⟩

/-! ## Spawn, reset and start -/

/-- The piece generation reads the generator only, and writes the next piece
and the generator only. -/
theorem prepare_next_piece_congr (g g' : TetrisGame) (h : g.rng_ = g'.rng_) :
    (prepare_next_piece g).next_ = (prepare_next_piece g').next_ ∧
    (prepare_next_piece g).rng_ = (prepare_next_piece g').rng_ := by
  unfold prepare_next_piece random_piece
  dsimp only
  rw [h]
  split_ifs <;> exact ⟨rfl, rfl⟩

theorem spawn_placed_queue (g : TetrisGame) :
    (spawn_placed g).pending_spawn_ = none ∧
    (spawn_placed g).game_over_animation_active_ = g.game_over_animation_active_ ∧
    (spawn_placed g).game_over_fill_row_ = g.game_over_fill_row_ ∧
    (∀ p, g.pending_spawn_ = some p →
      (spawn_placed g).next_ = g.next_ ∧ (spawn_placed g).rng_ = g.rng_) ∧
    (g.pending_spawn_ = none →
      (spawn_placed g).next_ = (prepare_next_piece g).next_ ∧
      (spawn_placed g).rng_ = (prepare_next_piece g).rng_) := by
  unfold spawn_placed
  cases hp : g.pending_spawn_ with
  | none =>
    dsimp only
    refine ⟨?_, ?_, ?_, ?_, ?_⟩
    · rw [prepare_next_piece_eq]
    · rw [prepare_next_piece_eq]
    · rw [prepare_next_piece_eq]
    · intro p h
      exact absurd h (by simp)
    · intro _
      exact prepare_next_piece_congr _ g rfl
  | some p =>
    dsimp only
    refine ⟨rfl, rfl, rfl, fun _ _ => ⟨rfl, rfl⟩, ?_⟩
    intro h
    exact absurd h (by simp)

/-- C21: `spawn_piece` sets the origin to (3, 0), which is
(WIDTH / 2 - 2, 0); the active piece becomes the buffered pending-spawn piece
when there is one (the buffer is emptied, the next piece and the generator are
untouched), otherwise the previous next piece, and a new next piece is
generated; if `is_valid_position` fails at (3, 0) the phase becomes GameOver,
the fill animation is active with target row 19 and the result is false,
otherwise the phase and the animation state are unchanged and the result is
true. -/
theorem spawn_piece_spec (g : TetrisGame) :
    (WIDTH.tdiv 2 - 2 = 3 ∧ HEIGHT - 1 = 19) ∧
    (spawn_piece g).1.current_x_ = 3 ∧ (spawn_piece g).1.current_y_ = 0 ∧
    (spawn_piece g).1.pending_spawn_ = none ∧
    (∀ p, g.pending_spawn_ = some p →
      (spawn_piece g).1.current_ = p ∧ (spawn_piece g).1.next_ = g.next_ ∧
      (spawn_piece g).1.rng_ = g.rng_) ∧
    (g.pending_spawn_ = none →
      (spawn_piece g).1.current_ = g.next_ ∧
      (spawn_piece g).1.next_ = (prepare_next_piece g).next_ ∧
      (spawn_piece g).1.rng_ = (prepare_next_piece g).rng_) ∧
    (is_valid_position g.board_ 3 0 (spawn_piece g).1.current_.type
        (spawn_piece g).1.current_.rotation = false →
      (spawn_piece g).2 = false ∧ (spawn_piece g).1.phase_ = Phase.GameOver ∧
      (spawn_piece g).1.game_over_animation_active_ = true ∧
      (spawn_piece g).1.game_over_fill_row_ = 19) ∧
    (is_valid_position g.board_ 3 0 (spawn_piece g).1.current_.type
        (spawn_piece g).1.current_.rotation = true →
      (spawn_piece g).2 = true ∧ (spawn_piece g).1.phase_ = g.phase_ ∧
      (spawn_piece g).1.game_over_animation_active_ = g.game_over_animation_active_ ∧
      (spawn_piece g).1.game_over_fill_row_ = g.game_over_fill_row_) := by
  have hf := spawn_placed_fields g
  have hq := spawn_placed_queue g
  have hcur : (spawn_piece g).1.current_ = queued_piece g := (spawn_piece_facts g).2.2.2.2.2.2.1
  rw [hcur]
  have hqp : ∀ p, g.pending_spawn_ = some p → queued_piece g = p := by
    intro p hp
    unfold queued_piece
    rw [hp]
  have hqn : g.pending_spawn_ = none → queued_piece g = g.next_ := by
    intro hp
    unfold queued_piece
    rw [hp]
  rw [spawn_piece_eq]
  by_cases hv : is_valid_position g.board_ 3 0 (queued_piece g).type
      (queued_piece g).rotation = true
  · rw [if_pos hv]
    refine ⟨⟨by decide, by decide⟩, hf.2.2.2.2.2.2.1, hf.2.2.2.2.2.2.2, hq.1,
      fun p hp => ⟨hqp p hp, hq.2.2.2.1 p hp⟩, fun hp => ⟨hqn hp, hq.2.2.2.2 hp⟩, ?_,
      fun _ => ⟨rfl, hf.2.2.1, hq.2.1, hq.2.2.1⟩⟩
    intro hv'
    rw [hv] at hv'
    exact absurd hv' (by decide)
  · rw [if_neg hv]
    exact ⟨⟨by decide, by decide⟩, hf.2.2.2.2.2.2.1, hf.2.2.2.2.2.2.2, hq.1,
      fun p hp => ⟨hqp p hp, hq.2.2.2.1 p hp⟩, fun hp => ⟨hqn hp, hq.2.2.2.2 hp⟩,
      fun _ => ⟨rfl, rfl, rfl, rfl⟩, fun hv' => absurd hv' hv⟩

theorem reset_fields (g : TetrisGame) :
    (reset g).board_ = Board.empty ∧ (reset g).phase_ = Phase.Idle ∧
    (reset g).score_ = 0 ∧ (reset g).level_ = 0 ∧ (reset g).lines_cleared_ = 0 ∧
    (reset g).clearing_rows_ = [] ∧ (reset g).flash_on_ = true ∧
    (reset g).game_over_animation_active_ = false ∧ (reset g).game_over_fill_row_ = 19 ∧
    (reset g).current_x_ = 3 ∧ (reset g).current_y_ = 0 ∧
    (reset g).pending_spawn_ = some (reset g).current_ := by
  unfold reset
  dsimp only [emit_stats, emit_state]
  rw [prepare_next_piece_eq]
  dsimp only
  rw [prepare_next_piece_eq]
  dsimp only [set_phase, reset_game_over_animation]
  refine ⟨rfl, rfl, rfl, rfl, rfl, rfl, rfl, rfl, by decide, by decide, rfl, rfl⟩

/-- On the empty board every piece fits at the spawn origin. -/
theorem is_valid_position_empty (t r : Int) :
    is_valid_position Board.empty 3 0 t r = true := by
  rw [is_valid_position_iff]
  intro j hj
  have h := coord_at_range t r j hj
  refine ⟨by omega, ?_⟩
  unfold Board.get Board.empty
  split <;> rfl

/-- The spawn of a buffered piece that fits. -/
theorem spawn_piece_pending (g : TetrisGame) (p : PieceState) (hp : g.pending_spawn_ = some p)
    (hv : is_valid_position g.board_ 3 0 p.type p.rotation = true) :
    spawn_piece g =
      ({ g with current_ := p, pending_spawn_ := none, current_x_ := 3, current_y_ := 0 }, true) := by
  have hq : queued_piece g = p := by
    unfold queued_piece
    rw [hp]
  rw [spawn_piece_eq, hq, if_pos hv]
  unfold spawn_placed
  rw [hp]

/-- After `reset()`, `start()` is the spawn of the buffered piece on the empty
board. -/
theorem start_reset_eq (g : TetrisGame) :
    start (reset g) = { reset g with phase_ := Phase.Running, pending_spawn_ := none } := by
  obtain ⟨hb, hph, -, -, -, -, -, -, -, hx, hy, hp⟩ := reset_fields g
  have hstart : start (reset g) = (spawn_piece (set_phase (reset g) Phase.Running)).1 := by
    unfold start
    rw [if_neg (by rw [hph]; simp)]
    rfl
  have hv : is_valid_position (set_phase (reset g) Phase.Running).board_ 3 0
      (reset g).current_.type (reset g).current_.rotation = true := by
    have hb2 : (set_phase (reset g) Phase.Running).board_ = Board.empty := hb
    rw [hb2]
    exact is_valid_position_empty _ _
  have hp2 : (set_phase (reset g) Phase.Running).pending_spawn_ = some (reset g).current_ := hp
  rw [hstart, spawn_piece_pending (set_phase (reset g) Phase.Running) (reset g).current_ hp2 hv]
  dsimp only [set_phase]
  rw [← hx, ← hy]

/-- C22, counterexample: with the raw draws 3, 0, 0 the state left by
`reset()` shows the O piece (type 0) as next, and `start()` then makes the
I piece (type 3) active. -/
theorem start_piece_is_not_next :
    two_piece_game.next_ = { type := 0, rotation := 0 } ∧
    (start two_piece_game).current_ = { type := 3, rotation := 0 } ∧
    next_cells two_piece_game = [(0, 0, 1), (1, 0, 1), (0, 1, 1), (1, 1, 1)] ∧
    active_cells (start two_piece_game) = [(4, 0, 4), (4, 1, 4), (4, 2, 4), (4, 3, 4)] ∧
    (start two_piece_game).current_.type ≠ two_piece_game.next_.type := by
  decide!

/-- C22, amended: for every state produced by `reset()`, the piece `start()`
makes active is the piece that was buffered as pending spawn, which is the
piece `active_cells()` showed in that state (same type, rotation and cells);
the piece `next_cells()` showed stays the next piece after `start()`. -/
theorem start_keeps_shown_pieces (g : TetrisGame) :
    (reset g).pending_spawn_ = some (start (reset g)).current_ ∧
    (start (reset g)).current_ = (reset g).current_ ∧
    active_cells (start (reset g)) = active_cells (reset g) ∧
    (start (reset g)).next_ = (reset g).next_ ∧
    next_cells (start (reset g)) = next_cells (reset g) := by
  rw [start_reset_eq]
  exact ⟨(reset_fields g).2.2.2.2.2.2.2.2.2.2.2, rfl, rfl, rfl, rfl⟩

/-- The state `start()` leaves when it begins with `reset()` or follows one. -/
theorem start_fields (g : TetrisGame) (h : g.phase_ ≠ Phase.Idle ∨ ∃ g0, g = reset g0) :
    ∃ g0, start g = { reset g0 with phase_ := Phase.Running, pending_spawn_ := none } := by
  rcases h with h | ⟨g0, h⟩
  · refine ⟨g, ?_⟩
    rw [← start_reset_eq]
    unfold start
    rw [if_pos h, if_neg (by rw [reset_phase]; simp)]
  · exact ⟨g0, by rw [h, start_reset_eq]⟩

/-- C23: from every state whose phase is not Idle, and from the state left by
`reset()`, `start()` yields a state with every board cell 0, score, level and
lines 0, no clearing rows, no game-over animation, the active piece at origin
(3, 0) and phase Running; the spawn on the empty board fits for every piece
type and rotation. -/
theorem start_fresh (g : TetrisGame) (h : g.phase_ ≠ Phase.Idle ∨ ∃ g0, g = reset g0) :
    (∀ (r : Fin 20) (c : Fin 10), (start g).board_ r c = 0) ∧
    (start g).score_ = 0 ∧ (start g).level_ = 0 ∧ (start g).lines_cleared_ = 0 ∧
    score (start g) = 0 ∧ level (start g) = 0 ∧ lines (start g) = 0 ∧
    (start g).clearing_rows_ = [] ∧
    (start g).game_over_animation_active_ = false ∧ is_game_over_animating (start g) = false ∧
    (start g).current_x_ = 3 ∧ (start g).current_y_ = 0 ∧
    (start g).phase_ = Phase.Running ∧ is_running (start g) = true ∧
    (∀ t r, is_valid_position Board.empty 3 0 t r = true) := by
  obtain ⟨g0, h0⟩ := start_fields g h
  obtain ⟨hb, -, hs, hl, hn, hc, -, ha, -, hx, hy, -⟩ := reset_fields g0
  rw [h0]
  refine ⟨?_, hs, hl, hn, hs, hl, hn, hc, ha, ?_, hx, hy, rfl, ?_, is_valid_position_empty⟩
  · intro r c
    show (reset g0).board_ r c = 0
    rw [hb]
    rfl
  · unfold is_game_over_animating
    simp
  · unfold is_running
    simp

theorem start_fresh_witness :
    (topped_game.phase_ ≠ Phase.Idle ∨ ∃ g0, topped_game = reset g0) ∧
    (start topped_game).phase_ = Phase.Running ∧ (start topped_game).score_ = 0 :=
  ⟨Or.inl (by decide!),
   (start_fresh topped_game (Or.inl (by decide!))).2.2.2.2.2.2.2.2.2.2.2.2.1,
   (start_fresh topped_game (Or.inl (by decide!))).2.1⟩

/-! ## Pause, gravity tick and the speed table -/

/-- C28: `toggle_pause` changes Running to Paused and Paused to Running, is
a no-op in Idle, GameOver and Clearing, never changes anything other than the
phase, and two consecutive calls return every state to itself. -/
theorem toggle_pause_spec (g : TetrisGame) :
    (g.phase_ = Phase.Running → toggle_pause g = { g with phase_ := Phase.Paused }) ∧
    (g.phase_ = Phase.Paused → toggle_pause g = { g with phase_ := Phase.Running }) ∧
    (g.phase_ = Phase.Idle ∨ g.phase_ = Phase.GameOver ∨ g.phase_ = Phase.Clearing →
      toggle_pause g = g) ∧
    toggle_pause g = { g with phase_ := (toggle_pause g).phase_ } ∧
    toggle_pause (toggle_pause g) = g := by
  unfold toggle_pause set_phase
  rcases g with ⟨b, ph, cur, x, y, nx, pd, fr, fa, sc, lv, ln, rng, cr, fl, t1, t2⟩
  cases ph <;> simp

/-- C29: `tick` in phase Paused returns true and leaves the state unchanged;
in phase Idle or GameOver it returns false and leaves the state unchanged; in
phase Running with a valid position one row down it returns true, increases
the origin y by 1 and changes nothing else (the score included). -/
theorem tick_spec (g : TetrisGame) (now : Int) :
    (g.phase_ = Phase.Paused → tick g now = (g, true)) ∧
    (g.phase_ = Phase.Idle ∨ g.phase_ = Phase.GameOver → tick g now = (g, false)) ∧
    (g.phase_ = Phase.Running →
      is_valid_position g.board_ g.current_x_ (g.current_y_ + 1)
        g.current_.type g.current_.rotation = true →
      tick g now = ({ g with current_y_ := g.current_y_ + 1 }, true) ∧
      (tick g now).1.score_ = g.score_) := by
  refine ⟨?_, ?_, ?_⟩
  · intro h
    unfold tick
    rw [if_pos h]
  · intro h
    unfold tick
    rcases h with h | h <;> simp [h]
  · intro h hv
    have hm : try_move g 0 1 = ({ g with current_y_ := g.current_y_ + 1 }, true) := by
      rw [try_move_eq]
      have hx : g.current_x_ + 0 = g.current_x_ := by omega
      rw [hx, if_pos ⟨h, hv⟩]
    have ht : tick g now = ({ g with current_y_ := g.current_y_ + 1 }, true) := by
      unfold tick
      simp only [h, hm]
      simp
    rw [ht]
    exact ⟨rfl, rfl⟩

/-- C30: the gravity interval table has exactly 20 entries, the entry for
level 0 is 1000 ms and the entry for level 19 is 100 ms, and the table is
strictly decreasing; `speed_ms` reads it at the level. -/
theorem level_speeds_decreasing :
    level_speeds_.length = 20 ∧ level_speeds_.getD 0 0 = 1000 ∧ level_speeds_.getD 19 0 = 100 ∧
    (∀ a b : Fin 20, a < b → level_speeds_.getD a.val 0 > level_speeds_.getD b.val 0) ∧
    (∀ g g' : TetrisGame, 0 ≤ g.level_ → g.level_ < g'.level_ → g'.level_ ≤ 19 →
      speed_ms g > speed_ms g') := by
  have hdec : ∀ a b : Fin 20, a < b → level_speeds_.getD a.val 0 > level_speeds_.getD b.val 0 := by
    decide
  refine ⟨rfl, rfl, rfl, hdec, ?_⟩
  intro g g' h0 hlt h19
  unfold speed_ms
  have ha : g.level_.toNat < 20 := by omega
  have hb : g'.level_.toNat < 20 := by omega
  have := hdec ⟨g.level_.toNat, ha⟩ ⟨g'.level_.toNat, hb⟩ (by
    show g.level_.toNat < g'.level_.toNat
    omega)
  exact this

/-! ## The game-over fill animation -/

theorem fill_game_over_row_fold (b : Board) (row : Int) (hrow : 0 ≤ row ∧ row < 20) (n : Nat)
    (hn : n ≤ 10) (r : Fin 20) (c : Fin 10) :
    ((List.range n).foldl (fun (b : Board) (col : Nat) =>
      if Board.get b row (col : Int) = 0 then Board.set b row (col : Int) game_over_fill_color_
      else b) b) r c =
      if (r.val : Int) = row ∧ c.val < n ∧ b r c = 0 then 8 else b r c := by
  induction n generalizing r c with
  | zero => simp
  | succ n ih =>
    rw [List.range_succ, List.foldl_append]
    simp only [List.foldl_cons, List.foldl_nil]
    have ih' := fun r c => ih (by omega) r c
    generalize hB : (List.range n).foldl (fun (b : Board) (col : Nat) =>
      if Board.get b row (col : Int) = 0 then Board.set b row (col : Int) game_over_fill_color_
      else b) b = B at ih' ⊢
    have hc := c.isLt
    obtain ⟨R, hR⟩ : ∃ R : Fin 20, (R.val : Int) = row := ⟨⟨row.toNat, by omega⟩, by simp; omega⟩
    obtain ⟨N, hN⟩ : ∃ N : Fin 10, N.val = n := ⟨⟨n, by omega⟩, rfl⟩
    have hget : Board.get B row (n : Int) = b R N := by
      have h1 := Board.get_of_fin B R N
      rw [hR, hN] at h1
      rw [h1, ih', if_neg (by omega)]
    rw [hget]
    by_cases hz : b R N = 0
    · rw [if_pos hz]
      unfold Board.set
      by_cases hcell : (r.val : Int) = row ∧ (c.val : Int) = (n : Int)
      · rw [if_pos hcell]
        have hr : r = R := Fin.ext (by omega)
        have hcn : c = N := Fin.ext (by omega)
        have hbz : b r c = 0 := by
          rw [hr, hcn]
          exact hz
        rw [if_pos ⟨hcell.1, by omega, hbz⟩]
        rfl
      · rw [if_neg hcell, ih']
        by_cases h1 : (r.val : Int) = row ∧ c.val < n ∧ b r c = 0
        · rw [if_pos h1, if_pos ⟨h1.1, by omega, h1.2.2⟩]
        · rw [if_neg h1, if_neg]
          rintro ⟨h2, h3, h4⟩
          exact h1 ⟨h2, by omega, h4⟩
    · rw [if_neg hz, ih']
      by_cases h1 : (r.val : Int) = row ∧ c.val < n ∧ b r c = 0
      · rw [if_pos h1, if_pos ⟨h1.1, by omega, h1.2.2⟩]
      · rw [if_neg h1, if_neg]
        rintro ⟨h2, h3, h4⟩
        by_cases hcn : c.val = n
        · apply hz
          have hr : r = R := Fin.ext (by omega)
          have hcn2 : c = N := Fin.ext (by omega)
          rw [← hr, ← hcn2]
          exact h4
        · exact h1 ⟨h2, by omega, h4⟩

/-- The fill of one row, cell by cell. -/
theorem fill_game_over_row_cell (b : Board) (row : Int) (hrow : 0 ≤ row ∧ row < 20)
    (r : Fin 20) (c : Fin 10) :
    fill_game_over_row b row r c = if (r.val : Int) = row ∧ b r c = 0 then 8 else b r c := by
  unfold fill_game_over_row
  rw [fill_game_over_row_fold b row hrow 10 (le_refl _) r c]
  have hc := c.isLt
  by_cases h : (r.val : Int) = row ∧ b r c = 0
  · rw [if_pos h, if_pos ⟨h.1, hc, h.2⟩]
  · rw [if_neg h, if_neg]
    rintro ⟨h2, -, h4⟩
    exact h ⟨h2, h4⟩

/-- One step of the fill animation, in closed form. -/
theorem step_game_over_animation_eq (g : TetrisGame) (now : Int)
    (hph : g.phase_ = Phase.GameOver) (ha : g.game_over_animation_active_ = true)
    (hr : 0 ≤ g.game_over_fill_row_) :
    step_clear_animation g now =
      ({ g with board_ := fill_game_over_row g.board_ g.game_over_fill_row_,
                game_over_fill_row_ := g.game_over_fill_row_ - 1,
                game_over_animation_active_ := decide (0 < g.game_over_fill_row_) },
       decide (0 < g.game_over_fill_row_)) := by
  unfold step_clear_animation is_game_over_animating advance_game_over_animation emit_state
  rw [if_neg (by rw [hph]; simp)]
  simp only [hph, ha]
  simp only [decide_True, Bool.and_self, if_true, Bool.not_true, Bool.false_eq_true, if_false]
  rw [if_neg (by omega)]
  by_cases h0 : 0 < g.game_over_fill_row_
  · rw [if_neg (by omega)]
    simp [h0, ha]
  · rw [if_pos (by omega)]
    simp [h0]

/-- C25: in a GameOver state with the fill animation active and target row
`r` in 0..19, one `step_clear_animation()` call sets every cell of row `r`
that was 0 to the game-over colour 8 (which differs from every piece colour
`type + 1`, `type` in 0..6), leaves every non-zero cell and every other row
unchanged, leaves score, level, lines, active piece and phase (and every
other member except the animation flag) unchanged, sets the target row to
`r - 1`, and returns true if and only if `r > 0`. -/
theorem game_over_fill_step (g : TetrisGame) (now : Int)
    (hph : g.phase_ = Phase.GameOver) (ha : g.game_over_animation_active_ = true)
    (hr : 0 ≤ g.game_over_fill_row_ ∧ g.game_over_fill_row_ ≤ 19) :
    (∀ (r : Fin 20) (c : Fin 10), (r.val : Int) = g.game_over_fill_row_ → g.board_ r c = 0 →
      (step_clear_animation g now).1.board_ r c = 8) ∧
    (∀ (r : Fin 20) (c : Fin 10), g.board_ r c ≠ 0 →
      (step_clear_animation g now).1.board_ r c = g.board_ r c) ∧
    (∀ (r : Fin 20) (c : Fin 10), (r.val : Int) ≠ g.game_over_fill_row_ →
      (step_clear_animation g now).1.board_ r c = g.board_ r c) ∧
    (game_over_fill_color_ = 8 ∧ ∀ t : Int, 0 ≤ t → t ≤ 6 → game_over_fill_color_ ≠ t + 1) ∧
    (step_clear_animation g now).1 =
      { g with board_ := (step_clear_animation g now).1.board_,
               game_over_fill_row_ := g.game_over_fill_row_ - 1,
               game_over_animation_active_ := decide (0 < g.game_over_fill_row_) } ∧
    (step_clear_animation g now).1.score_ = g.score_ ∧
    (step_clear_animation g now).1.level_ = g.level_ ∧
    (step_clear_animation g now).1.lines_cleared_ = g.lines_cleared_ ∧
    (step_clear_animation g now).1.current_ = g.current_ ∧
    (step_clear_animation g now).1.current_x_ = g.current_x_ ∧
    (step_clear_animation g now).1.current_y_ = g.current_y_ ∧
    (step_clear_animation g now).1.phase_ = Phase.GameOver ∧
    (step_clear_animation g now).1.game_over_fill_row_ = g.game_over_fill_row_ - 1 ∧
    ((step_clear_animation g now).2 = true ↔ 0 < g.game_over_fill_row_) := by
  rw [step_game_over_animation_eq g now hph ha hr.1]
  have hcell := fill_game_over_row_cell g.board_ g.game_over_fill_row_ ⟨hr.1, by omega⟩
  refine ⟨?_, ?_, ?_, ⟨rfl, ?_⟩, rfl, rfl, rfl, rfl, rfl, rfl, rfl, hph, rfl, by simp⟩
  · intro r c h1 h2
    show fill_game_over_row g.board_ g.game_over_fill_row_ r c = 8
    rw [hcell, if_pos ⟨h1, h2⟩]
  · intro r c h1
    show fill_game_over_row g.board_ g.game_over_fill_row_ r c = g.board_ r c
    rw [hcell, if_neg (fun h => h1 h.2)]
  · intro r c h1
    show fill_game_over_row g.board_ g.game_over_fill_row_ r c = g.board_ r c
    rw [hcell, if_neg (fun h => h1 h.1)]
  · intro t h0 h6
    show (8 : Int) ≠ t + 1
    omega

theorem game_over_fill_step_witness :
    lost_game.phase_ = Phase.GameOver ∧ lost_game.game_over_animation_active_ = true ∧
    lost_game.game_over_fill_row_ = 19 ∧
    (step_clear_animation lost_game 0).1.game_over_fill_row_ = 19 - 1 ∧
    ((step_clear_animation lost_game 0).2 = true ↔ (0 : Int) < 19) := by
  have hrow : lost_game.game_over_fill_row_ = 19 := by decide!
  have h := game_over_fill_step lost_game 0 (by decide!) (by decide!) (by rw [hrow]; decide)
  rw [hrow] at h
  exact ⟨by decide!, by decide!, hrow, h.2.2.2.2.2.2.2.2.2.2.2.2.1, h.2.2.2.2.2.2.2.2.2.2.2.2.2⟩

/-- The fill animation run to its end, in closed form: from target row `n`
the next `n + 1` calls fill the rows `n` down to 0; the last call returns
false, the ones before return true. -/
theorem step_clear_animation_calls_fill (n : Nat) (g : TetrisGame) (nows : List Int)
    (hph : g.phase_ = Phase.GameOver) (ha : g.game_over_animation_active_ = true)
    (hr : g.game_over_fill_row_ = (n : Int)) (hn : n ≤ 19) (hlen : nows.length = n + 1) :
    step_clear_animation_calls g nows =
      ({ g with board_ := fun r c =>
                  if (r.val : Int) ≤ (n : Int) ∧ g.board_ r c = 0 then 8 else g.board_ r c,
                game_over_fill_row_ := -1,
                game_over_animation_active_ := false },
       List.replicate n true ++ [false]) := by
  induction n generalizing g nows with
  | zero =>
    rcases nows with _ | ⟨now, _ | ⟨now2, rest⟩⟩
    · simp at hlen
    · simp only [step_clear_animation_calls]
      rw [step_game_over_animation_eq g now hph ha (by omega)]
      simp only [hr]
      have hb : fill_game_over_row g.board_ ((0 : Nat) : Int) =
          fun r c => if (r.val : Int) ≤ ((0 : Nat) : Int) ∧ g.board_ r c = 0 then 8
            else g.board_ r c := by
        funext r c
        rw [fill_game_over_row_cell _ _ (by omega)]
        have hr0 : 0 ≤ (r.val : Int) := by omega
        by_cases h : (r.val : Int) = ((0 : Nat) : Int) ∧ g.board_ r c = 0
        · rw [if_pos h, if_pos ⟨by omega, h.2⟩]
        · rw [if_neg h, if_neg]
          rintro ⟨h1, h2⟩
          exact h ⟨by omega, h2⟩
      rw [hb]
      simp
    · simp at hlen
  | succ n ih =>
    rcases nows with _ | ⟨now, rest⟩
    · simp at hlen
    · simp only [step_clear_animation_calls]
      rw [step_game_over_animation_eq g now hph ha (by omega)]
      have hpos : (0 : Int) < g.game_over_fill_row_ := by omega
      have hd : decide ((0 : Int) < g.game_over_fill_row_) = true := by simp [hpos]
      rw [hd]
      dsimp only
      have hrow : g.game_over_fill_row_ - 1 = (n : Int) := by
        rw [hr]
        push_cast
        omega
      have key := ih { g with board_ := fill_game_over_row g.board_ g.game_over_fill_row_,
                              game_over_fill_row_ := g.game_over_fill_row_ - 1,
                              game_over_animation_active_ := true } rest hph rfl hrow (by omega)
        (by simpa using hlen)
      rw [key]
      dsimp only
      have hb : (fun (r : Fin 20) (c : Fin 10) =>
            if (r.val : Int) ≤ (n : Int) ∧
                fill_game_over_row g.board_ g.game_over_fill_row_ r c = 0 then (8 : Int)
            else fill_game_over_row g.board_ g.game_over_fill_row_ r c) =
          fun r c => if (r.val : Int) ≤ ((n + 1 : Nat) : Int) ∧ g.board_ r c = 0 then 8
            else g.board_ r c := by
        funext r c
        rw [fill_game_over_row_cell _ _ (by omega), hr]
        push_cast
        by_cases hz : g.board_ r c = 0
        · by_cases h1 : (r.val : Int) = (n : Int) + 1
          · have e1 : (if (r.val : Int) = (n : Int) + 1 ∧ g.board_ r c = 0 then (8 : Int)
                else g.board_ r c) = 8 := if_pos ⟨h1, hz⟩
            rw [e1]
            have c1 : ¬ ((r.val : Int) ≤ (n : Int) ∧ (8 : Int) = 0) := fun h => by omega
            have c2 : (r.val : Int) ≤ (n : Int) + 1 ∧ g.board_ r c = 0 := ⟨by omega, hz⟩
            rw [if_neg c1, if_pos c2]
          · have e1 : (if (r.val : Int) = (n : Int) + 1 ∧ g.board_ r c = 0 then (8 : Int)
                else g.board_ r c) = g.board_ r c := if_neg (fun h => h1 h.1)
            rw [e1]
            by_cases h2 : (r.val : Int) ≤ (n : Int)
            · have c1 : (r.val : Int) ≤ (n : Int) ∧ g.board_ r c = 0 := ⟨h2, hz⟩
              have c2 : (r.val : Int) ≤ (n : Int) + 1 ∧ g.board_ r c = 0 := ⟨by omega, hz⟩
              rw [if_pos c1, if_pos c2]
            · have c1 : ¬ ((r.val : Int) ≤ (n : Int) ∧ g.board_ r c = 0) := fun h => h2 h.1
              have c2 : ¬ ((r.val : Int) ≤ (n : Int) + 1 ∧ g.board_ r c = 0) := fun h => by omega
              rw [if_neg c1, if_neg c2]
        · have e1 : (if (r.val : Int) = (n : Int) + 1 ∧ g.board_ r c = 0 then (8 : Int)
              else g.board_ r c) = g.board_ r c := if_neg (fun h => hz h.2)
          rw [e1]
          have c1 : ¬ ((r.val : Int) ≤ (n : Int) ∧ g.board_ r c = 0) := fun h => hz h.2
          have c2 : ¬ ((r.val : Int) ≤ (n : Int) + 1 ∧ g.board_ r c = 0) := fun h => hz h.2
          rw [if_neg c1, if_neg c2]
      rw [hb]
      rfl

/-- Without a clear and without the fill animation, `step_clear_animation`
does nothing, however often it is called. -/
theorem step_clear_animation_calls_idle (g : TetrisGame) (nows : List Int)
    (hph : g.phase_ ≠ Phase.Clearing) (ha : is_game_over_animating g = false) :
    step_clear_animation_calls g nows = (g, List.replicate nows.length false) := by
  have hstep : ∀ now, step_clear_animation g now = (g, false) := by
    intro now
    unfold step_clear_animation
    rw [if_neg hph, ha]
    rfl
  induction nows with
  | nil => rfl
  | cons now rest ih =>
    simp only [step_clear_animation_calls, hstep, ih]
    rfl

/-- C26: from a state in which a spawn has just failed (phase GameOver, fill
animation active, target row 19), 20 consecutive `step_clear_animation()`
calls return true for the first 19 and false for the 20th; afterwards no
board cell is 0, `is_game_over_animating()` is false, the phase is still
GameOver, and every further call returns false and changes nothing. -/
theorem game_over_animation_ends (g : TetrisGame) (nows : List Int)
    (hph : g.phase_ = Phase.GameOver) (ha : g.game_over_animation_active_ = true)
    (hr : g.game_over_fill_row_ = 19) (hlen : nows.length = 20) :
    (step_clear_animation_calls g nows).2 = List.replicate 19 true ++ [false] ∧
    (∀ (r : Fin 20) (c : Fin 10), (step_clear_animation_calls g nows).1.board_ r c ≠ 0) ∧
    is_game_over_animating (step_clear_animation_calls g nows).1 = false ∧
    (step_clear_animation_calls g nows).1.phase_ = Phase.GameOver ∧
    (∀ now, step_clear_animation (step_clear_animation_calls g nows).1 now =
      ((step_clear_animation_calls g nows).1, false)) ∧
    (∀ more : List Int, step_clear_animation_calls (step_clear_animation_calls g nows).1 more =
      ((step_clear_animation_calls g nows).1, List.replicate more.length false)) := by
  rw [step_clear_animation_calls_fill 19 g nows hph ha hr (le_refl _) hlen]
  dsimp only
  have hidle : ∀ h : TetrisGame, h.phase_ = Phase.GameOver →
      h.game_over_animation_active_ = false →
      (∀ now, step_clear_animation h now = (h, false)) ∧
      ∀ more, step_clear_animation_calls h more = (h, List.replicate more.length false) := by
    intro h h1 h2
    have h3 : h.phase_ ≠ Phase.Clearing := by
      rw [h1]
      simp
    have h4 : is_game_over_animating h = false := by
      unfold is_game_over_animating
      rw [h2]
      simp
    refine ⟨?_, fun more => step_clear_animation_calls_idle h more h3 h4⟩
    intro now
    unfold step_clear_animation
    rw [if_neg h3, h4]
    rfl
  have hend := hidle
    { g with board_ := (fun r c =>
               if (r.val : Int) ≤ ((19 : Nat) : Int) ∧ g.board_ r c = 0 then 8 else g.board_ r c),
             game_over_fill_row_ := -1,
             game_over_animation_active_ := false } hph rfl
  refine ⟨rfl, ?_, ?_, hph, ?_, ?_⟩
  · intro r c
    have hlt := r.isLt
    by_cases hz : g.board_ r c = 0
    · rw [if_pos ⟨by push_cast; omega, hz⟩]
      decide
    · rw [if_neg (fun h => hz h.2)]
      exact hz
  · unfold is_game_over_animating
    simp
  · exact hend.1
  · exact hend.2

theorem game_over_animation_ends_witness :
    lost_game.phase_ = Phase.GameOver ∧ lost_game.game_over_animation_active_ = true ∧
    lost_game.game_over_fill_row_ = 19 ∧
    (step_clear_animation_calls lost_game (List.replicate 20 0)).2 =
      List.replicate 19 true ++ [false] :=
  ⟨by decide!, by decide!, by decide!,
   (game_over_animation_ends lost_game (List.replicate 20 0) (by decide!) (by decide!)
     (by decide!) rfl).1⟩

/-! ## Play, line clear and game-over animation exclude each other -/

theorem same_mode_refl (g : TetrisGame) : same_mode g g := ⟨rfl, rfl, rfl⟩

theorem same_mode_trans (a b c : TetrisGame) (h1 : same_mode a b) (h2 : same_mode b c) :
    same_mode a c :=
  ⟨h2.1.trans h1.1, h2.2.1.trans h1.2.1, h2.2.2.trans h1.2.2⟩

theorem phase_exclusive_of_same_mode (g g' : TetrisGame) (h : same_mode g g')
    (hg : phase_exclusive g) : phase_exclusive g' := by
  unfold phase_exclusive at hg ⊢
  rw [h.1, h.2.1, h.2.2]
  exact hg

/-- In a state that is neither Clearing nor GameOver there are no clearing
rows and no fill animation. -/
theorem phase_exclusive_play (g : TetrisGame) (hg : phase_exclusive g)
    (h1 : g.phase_ ≠ Phase.Clearing) (h2 : g.phase_ ≠ Phase.GameOver) :
    g.clearing_rows_ = [] ∧ g.game_over_animation_active_ = false := by
  constructor
  · by_contra hne
    exact h1 (hg.1.mp hne)
  · cases ha : g.game_over_animation_active_
    · rfl
    · exact absurd (hg.2 ha) h2

theorem spawn_piece_exclusive (g : TetrisGame) (hc : g.clearing_rows_ = [])
    (hp : g.phase_ = Phase.Running) (ha : g.game_over_animation_active_ = false) :
    phase_exclusive (spawn_piece g).1 := by
  have hf := spawn_piece_facts g
  have hq := spawn_placed_queue g
  have hcr : (spawn_piece g).1.clearing_rows_ = [] := by rw [hf.2.2.2.2.1, hc]
  unfold phase_exclusive
  rw [hcr]
  rw [spawn_piece_eq]
  split_ifs
  · dsimp only
    rw [(spawn_placed_fields g).2.2.1, hq.2.1, hp, ha]
    simp
  · simp

theorem try_move_mode (g : TetrisGame) (dx dy : Int) : same_mode g (try_move g dx dy).1 := by
  rw [try_move_eq]
  split_ifs <;> exact same_mode_refl g

theorem kicks_loop_mode (g : TetrisGame) (r : Int) (l : List Int) :
    same_mode g (apply_rotation_with_kicks_loop g r l).1 := by
  induction l with
  | nil => exact same_mode_refl g
  | cons e l ih =>
    unfold apply_rotation_with_kicks_loop
    dsimp only
    split_ifs
    · exact same_mode_refl g
    · exact ih

theorem try_rotate_mode (g : TetrisGame) (delta : Int) :
    same_mode g (try_rotate g delta).1 := by
  unfold try_rotate apply_rotation_with_kicks
  split_ifs
  · exact same_mode_refl g
  · exact kicks_loop_mode g _ _

theorem add_score_mode (g : TetrisGame) (delta : Int) : same_mode g (add_score g delta) := by
  unfold add_score
  split_ifs <;> exact same_mode_refl g

theorem reward_hard_drop_mode (g : TetrisGame) (n : Int) :
    same_mode g (reward_hard_drop g n) := by
  unfold reward_hard_drop emit_stats
  split_ifs
  · exact same_mode_refl g
  · exact add_score_mode g _

theorem soft_drop_step_mode (g : TetrisGame) : same_mode g (soft_drop_step g).1 := by
  unfold soft_drop_step reward_soft_drop emit_stats
  dsimp only
  split_ifs
  · exact same_mode_trans _ _ _ (try_move_mode g 0 1) (add_score_mode _ 1)
  · exact try_move_mode g 0 1

theorem update_level_and_score_mode (g : TetrisGame) (n : Int) :
    same_mode g (update_level_and_score g n) := by
  unfold update_level_and_score emit_stats
  split_ifs
  · exact same_mode_trans _ _ _ (same_mode_refl g)
      (add_score_mode { g with lines_cleared_ := g.lines_cleared_ + n } _)
  · exact same_mode_refl g

theorem handle_locked_piece_exclusive (g : TetrisGame) (now : Int)
    (hrun : g.phase_ = Phase.Running) (hg : phase_exclusive g) :
    phase_exclusive (handle_locked_piece g now).1 := by
  obtain ⟨hc, ha⟩ := phase_exclusive_play g hg (by rw [hrun]; simp) (by rw [hrun]; simp)
  rw [handle_locked_piece_eq]
  split_ifs with hrows
  · exact spawn_piece_exclusive (lock_piece g) hc hrun ha
  · unfold phase_exclusive
    dsimp only
    refine ⟨⟨fun _ => rfl, fun _ => hrows⟩, ?_⟩
    intro h
    have ha2 : (lock_piece g).game_over_animation_active_ = false := ha
    rw [ha2] at h
    exact absurd h (by simp)

theorem hard_drop_step_exclusive (g : TetrisGame) (now : Int) (hg : phase_exclusive g) :
    phase_exclusive (hard_drop_step g now).1 := by
  unfold hard_drop_step can_accept_actions
  dsimp only
  split_ifs with hrun
  · exact hg
  · have hrun2 : g.phase_ = Phase.Running := by simpa using hrun
    obtain ⟨k, hk⟩ := hard_drop_loop_frame g 0
    rw [hk]
    have h2 := reward_hard_drop_mode { g with current_y_ := g.current_y_ + k } (0 + k)
    apply handle_locked_piece_exclusive
    · rw [h2.1]
      exact hrun2
    · exact phase_exclusive_of_same_mode _ _ h2 hg

theorem finish_line_clear_exclusive (g : TetrisGame) (hph : g.phase_ = Phase.Clearing)
    (hg : phase_exclusive g) : phase_exclusive (finish_line_clear g).1 := by
  have ha : g.game_over_animation_active_ = false := by
    cases h : g.game_over_animation_active_
    · rfl
    · have := hg.2 h
      rw [hph] at this
      exact absurd this (by simp)
  unfold finish_line_clear
  dsimp only [emit_state, set_phase]
  have hr := remove_rows_eq g g.clearing_rows_
  have hm := update_level_and_score_mode
    { remove_rows g g.clearing_rows_ with
      clearing_rows_ := [], flash_on_ := true, phase_ := Phase.Running }
    ((remove_rows g g.clearing_rows_).clearing_rows_.length : Int)
  apply spawn_piece_exclusive
  · rw [hm.2.1]
  · rw [hm.1]
  · rw [hm.2.2]
    dsimp only
    rw [hr]
    exact ha

theorem advance_clear_animation_exclusive (g : TetrisGame) (now : Int)
    (hph : g.phase_ = Phase.Clearing) (hg : phase_exclusive g) :
    phase_exclusive (advance_clear_animation g now).1 := by
  unfold advance_clear_animation emit_state
  dsimp only
  split_ifs
  · exact finish_line_clear_exclusive _ hph hg
  · exact hg
  · exact finish_line_clear_exclusive g hph hg
  · exact hg

theorem advance_game_over_animation_exclusive (g : TetrisGame) (hg : phase_exclusive g)
    (hph : g.phase_ = Phase.GameOver) :
    phase_exclusive (advance_game_over_animation g).1 := by
  have hc : (g.clearing_rows_ ≠ [] ↔ Phase.GameOver = Phase.Clearing) := by
    rw [← hph]
    exact hg.1
  unfold advance_game_over_animation emit_state
  dsimp only
  split_ifs
  · exact hg
  · exact ⟨hg.1, fun _ => hph⟩
  · exact ⟨hg.1, fun _ => hph⟩
  · exact ⟨hg.1, fun _ => hph⟩

theorem tick_exclusive (g : TetrisGame) (now : Int) (hg : phase_exclusive g) :
    phase_exclusive (tick g now).1 := by
  unfold tick
  dsimp only
  split_ifs with h1 h2 h3 h4
  · exact hg
  · exact advance_clear_animation_exclusive g now h2 hg
  · exact hg
  · exact phase_exclusive_of_same_mode _ _ (try_move_mode g 0 1) hg
  · have hrun : g.phase_ = Phase.Running := by
      by_contra h
      exact h3 h
    have hm := try_move_mode g 0 1
    exact handle_locked_piece_exclusive _ now (by rw [hm.1]; exact hrun)
      (phase_exclusive_of_same_mode _ _ hm hg)

theorem perform_action_exclusive (g : TetrisGame) (action : Action) (now : Int)
    (hg : phase_exclusive g) : phase_exclusive (perform_action g action now).1 := by
  unfold perform_action
  split_ifs
  · exact hg
  · cases action
    · exact phase_exclusive_of_same_mode _ _ (try_move_mode g (-1) 0) hg
    · exact phase_exclusive_of_same_mode _ _ (try_move_mode g 1 0) hg
    · exact phase_exclusive_of_same_mode _ _ (soft_drop_step_mode g) hg
    · exact hard_drop_step_exclusive g now hg
    · exact phase_exclusive_of_same_mode _ _ (try_rotate_mode g 1) hg
    · exact phase_exclusive_of_same_mode _ _ (try_rotate_mode g (-1)) hg

theorem step_clear_animation_exclusive (g : TetrisGame) (now : Int) (hg : phase_exclusive g) :
    phase_exclusive (step_clear_animation g now).1 := by
  unfold step_clear_animation
  split_ifs with h1 h2
  · exact advance_clear_animation_exclusive g now h1 hg
  · apply advance_game_over_animation_exclusive g hg
    unfold is_game_over_animating at h2
    simp at h2
    exact h2.1
  · exact hg

theorem toggle_pause_exclusive (g : TetrisGame) (hg : phase_exclusive g) :
    phase_exclusive (toggle_pause g) := by
  unfold toggle_pause set_phase
  split_ifs with h1 h2 h3
  · exact hg
  · obtain ⟨hc, ha⟩ := phase_exclusive_play g hg (by rw [h2]; simp) (by rw [h2]; simp)
    unfold phase_exclusive
    dsimp only
    rw [hc, ha]
    simp
  · obtain ⟨hc, ha⟩ := phase_exclusive_play g hg (by rw [h3]; simp) (by rw [h3]; simp)
    unfold phase_exclusive
    dsimp only
    rw [hc, ha]
    simp
  · exact hg

theorem stop_exclusive (g : TetrisGame) : phase_exclusive (stop g) := by
  unfold stop phase_exclusive set_phase reset_game_over_animation
  simp

theorem reset_exclusive (g : TetrisGame) : phase_exclusive (reset g) := by
  obtain ⟨-, hph, -, -, -, hc, -, ha, -⟩ := reset_fields g
  unfold phase_exclusive
  rw [hph, hc, ha]
  simp

theorem start_exclusive (g : TetrisGame) (hg : phase_exclusive g) :
    phase_exclusive (start g) := by
  unfold start emit_stats emit_state
  dsimp only
  split_ifs with h
  · have hr := reset_exclusive g
    obtain ⟨-, hph, -, -, -, hc, -, ha, -⟩ := reset_fields g
    exact spawn_piece_exclusive _ hc rfl ha
  · have hidle : g.phase_ = Phase.Idle := by
      by_contra h2
      exact h h2
    obtain ⟨hc, ha⟩ := phase_exclusive_play g hg (by rw [hidle]; simp) (by rw [hidle]; simp)
    exact spawn_piece_exclusive _ hc rfl ha

theorem apply_exclusive (g : TetrisGame) (op : Op) (hg : phase_exclusive g) :
    phase_exclusive (Op.apply g op) := by
  cases op with
  | start => exact start_exclusive g hg
  | reset => exact reset_exclusive g
  | stop => exact stop_exclusive g
  | toggle_pause => exact toggle_pause_exclusive g hg
  | tick now => exact tick_exclusive g now hg
  | perform_action action now => exact perform_action_exclusive g action now hg
  | step_clear_animation now => exact step_clear_animation_exclusive g now hg

theorem run_exclusive (ops : List Op) (g : TetrisGame) (hg : phase_exclusive g) :
    phase_exclusive (run g ops) := by
  induction ops generalizing g with
  | nil => exact hg
  | cons op ops ih => exact ih _ (apply_exclusive g op hg)

/-- C27: in every state reachable from a newly constructed engine by any
sequence of public operations, `clearing_rows()` is non-empty if and only if
the phase is Clearing, and the game-over fill animation flag is set only if
the phase is GameOver; hence no two of normal play (phase Running), line-clear
animation (clearing rows present) and game-over animation are active at once. -/
theorem phases_exclude (g : TetrisGame) (h : Reachable g) :
    (g.clearing_rows_ ≠ [] ↔ g.phase_ = Phase.Clearing) ∧
    (g.clearing_rows_ ≠ [] ↔ is_clearing g = true) ∧
    (g.game_over_animation_active_ = true → g.phase_ = Phase.GameOver) ∧
    ¬ (is_running g = true ∧ g.clearing_rows_ ≠ []) ∧
    ¬ (is_running g = true ∧ is_game_over_animating g = true) ∧
    ¬ (g.clearing_rows_ ≠ [] ∧ is_game_over_animating g = true) ∧
    ¬ (is_running g = true ∧ g.game_over_animation_active_ = true) ∧
    ¬ (g.clearing_rows_ ≠ [] ∧ g.game_over_animation_active_ = true) := by
  obtain ⟨rng, ops, hrun⟩ := h
  have hg : phase_exclusive g := by
    rw [hrun]
    exact run_exclusive ops _ (reset_exclusive _)
  obtain ⟨h1, h2⟩ := hg
  unfold is_running is_clearing is_game_over_animating
  refine ⟨h1, ?_, h2, ?_, ?_, ?_, ?_, ?_⟩
  · rw [h1]
    simp
  · rintro ⟨ha, hb⟩
    have := h1.mp hb
    simp at ha
    rw [ha] at this
    exact absurd this (by simp)
  · rintro ⟨ha, hb⟩
    simp at ha hb
    rw [ha] at hb
    exact absurd hb.1 (by simp)
  · rintro ⟨ha, hb⟩
    have := h1.mp ha
    simp at hb
    rw [hb.1] at this
    exact absurd this (by simp)
  · rintro ⟨ha, hb⟩
    have := h2 hb
    simp at ha
    rw [ha] at this
    exact absurd this (by simp)
  · rintro ⟨ha, hb⟩
    have h3 := h1.mp ha
    have h4 := h2 hb
    rw [h3] at h4
    exact absurd h4 (by simp)

theorem phases_exclude_witness :
    Reachable clearing_game ∧
    (clearing_game.clearing_rows_ ≠ [] ↔ clearing_game.phase_ = Phase.Clearing) :=
  ⟨clearing_game_reachable, (phases_exclude clearing_game clearing_game_reachable).1⟩

/-! ## The first hard drop of a game -/

theorem frame_at_bottom (piece rotation : Int) :
    (frame_at piece rotation).Nodup ∧
    0 ≤ frame_bottom (frame_at piece rotation) ∧ frame_bottom (frame_at piece rotation) ≤ 3 ∧
    (∀ c ∈ frame_at piece rotation, c.y ≤ frame_bottom (frame_at piece rotation)) ∧
    ∃ c ∈ frame_at piece rotation, c.y = frame_bottom (frame_at piece rotation) := by
  obtain ⟨t, k, h⟩ := frame_at_table piece rotation
  rw [h]
  clear h
  revert t k
  decide

theorem prepare_next_piece_type_range (g : TetrisGame) :
    0 ≤ (prepare_next_piece g).next_.type ∧ (prepare_next_piece g).next_.type ≤ 6 := by
  have h : (prepare_next_piece g).next_.type = ((g.rng_.headD 0 : Nat) : Int) % 7 := by
    unfold prepare_next_piece random_piece uniform_int
    dsimp only
    split_ifs <;> simp
  rw [h]
  omega

theorem reset_current_type (g : TetrisGame) :
    0 ≤ (reset g).current_.type ∧ (reset g).current_.type ≤ 6 := by
  unfold reset
  dsimp only [emit_stats, emit_state]
  rw [prepare_next_piece_current]
  dsimp only
  exact prepare_next_piece_type_range _

/-- On the empty board a piece at column 3 is validly placed exactly when its
cells are in the rows of the board. -/
theorem is_valid_position_empty_iff (y t r : Int) :
    is_valid_position Board.empty 3 y t r = true ↔
      ∀ c ∈ frame_at t r, 0 ≤ y + c.y ∧ y + c.y < 20 := by
  rw [is_valid_position_iff]
  constructor
  · intro h c hc
    rw [frame_at_eq] at hc
    simp only [List.mem_cons, List.mem_singleton, List.not_mem_nil, or_false] at hc
    rcases hc with rfl | rfl | rfl | rfl
    · exact (h 0 (by omega)).1.2.2
    · exact (h 1 (by omega)).1.2.2
    · exact (h 2 (by omega)).1.2.2
    · exact (h 3 (by omega)).1.2.2
  · intro h j hj
    have hr := coord_at_range t r j hj
    have hy := h _ (coord_at_mem t r j hj)
    refine ⟨⟨by omega, by omega, hy.1, hy.2⟩, ?_⟩
    unfold Board.get Board.empty
    split <;> rfl

/-- The first hard drop of a game, from any engine at the start of play whose
active piece has a colour: the piece falls `first_drop_rows` rows, locks on
the empty board, no row is full, and the next piece is spawned. -/
theorem first_drop_eq (s : TetrisGame) (now : Int)
    (hb : s.board_ = Board.empty) (hrun : s.phase_ = Phase.Running)
    (hx : s.current_x_ = 3) (hy : s.current_y_ = 0)
    (hs : s.score_ = 0) (hl : s.level_ = 0) (hp : s.pending_spawn_ = none) :
    (∀ j : Nat, 1 ≤ j → j ≤ first_drop_rows s →
      is_valid_position s.board_ s.current_x_ (s.current_y_ + j)
        s.current_.type s.current_.rotation = true) ∧
    is_valid_position s.board_ s.current_x_ (s.current_y_ + (first_drop_rows s + 1 : Nat))
      s.current_.type s.current_.rotation = false ∧
    (perform_action s Action.HardDrop now).2 = true ∧
    (perform_action s Action.HardDrop now).1.phase_ = Phase.Running ∧
    (perform_action s Action.HardDrop now).1.lines_cleared_ = s.lines_cleared_ ∧
    (perform_action s Action.HardDrop now).1.level_ = 0 ∧
    (perform_action s Action.HardDrop now).1.score_ = (first_drop_rows s : Int) ∧
    (perform_action s Action.HardDrop now).1.current_ = s.next_ ∧
    (perform_action s Action.HardDrop now).1.current_x_ = 3 ∧
    (perform_action s Action.HardDrop now).1.current_y_ = 0 ∧
    ∀ (r : Fin 20) (c : Fin 10),
      (perform_action s Action.HardDrop now).1.board_ r c =
        if ∃ coord ∈ frame_at s.current_.type s.current_.rotation,
            (r.val : Int) = (first_drop_rows s : Int) + coord.y ∧
            (c.val : Int) = 3 + coord.x then
          s.current_.type + 1
        else 0 := by
  obtain ⟨-, hm0, hm3, hmax, cm, hcm, hcmy⟩ := frame_at_bottom s.current_.type s.current_.rotation
  have hrange := frame_at_range s.current_.type s.current_.rotation
  have hk : ((first_drop_rows s : Nat) : Int) =
      19 - frame_bottom (frame_at s.current_.type s.current_.rotation) := by
    unfold first_drop_rows
    omega
  generalize first_drop_rows s = k at hk ⊢
  have hfall : ∀ j : Nat, 1 ≤ j → j ≤ k →
      is_valid_position s.board_ s.current_x_ (s.current_y_ + j)
        s.current_.type s.current_.rotation = true := by
    intro j hj1 hj2
    rw [hb, hx, hy, is_valid_position_empty_iff]
    intro c hc
    have h1 := hrange c hc
    have h2 := hmax c hc
    omega
  have hstop : is_valid_position s.board_ s.current_x_ (s.current_y_ + (k + 1 : Nat))
      s.current_.type s.current_.rotation = false := by
    rw [hb, hx, hy, ← Bool.not_eq_true, is_valid_position_empty_iff]
    intro h
    have h1 := h cm hcm
    push_cast at h1
    omega
  have hd := hard_drop_step_eq s now k hrun (by rw [hl]) hfall hstop
  obtain ⟨s', hs'⟩ : ∃ s' : TetrisGame, s' =
      { s with current_y_ := s.current_y_ + k, score_ := s.score_ + k * (s.level_ + 1) } :=
    ⟨_, rfl⟩
  rw [← hs'] at hd
  have e1 : s'.current_y_ = (k : Int) := by
    rw [hs']
    show s.current_y_ + k = k
    rw [hy]
    omega
  have e4 : s'.score_ = (k : Int) := by
    rw [hs']
    show s.score_ + k * (s.level_ + 1) = k
    rw [hs, hl]
    omega
  have hcur : s'.current_ = s.current_ := by rw [hs']
  have hlock : ∀ (r : Fin 20) (c : Fin 10),
      (lock_piece s').board_ r c =
        if ∃ coord ∈ frame_at s.current_.type s.current_.rotation,
            (r.val : Int) = (k : Int) + coord.y ∧ (c.val : Int) = 3 + coord.x then
          s.current_.type + 1
        else 0 := by
    intro r c
    rw [lock_piece_board, hcur]
    have e2 : s'.current_x_ = 3 := by rw [hs']; exact hx
    have e3 : s'.board_ r c = 0 := by
      rw [hs']
      show s.board_ r c = 0
      rw [hb]
      rfl
    rw [e1, e2, e3]
  have hcol : ∀ r : Fin 20, (lock_piece s').board_ r 0 = 0 := by
    intro r
    rw [hlock, if_neg]
    rintro ⟨coord, hc, -, h2⟩
    have h1 := hrange coord hc
    have h3 : ((0 : Fin 10).val : Int) = 0 := rfl
    omega
  have hnofull := collect_full_rows_of_empty_column (lock_piece s') 0 hcol
  rw [handle_locked_piece_of_no_full s' now hnofull] at hd
  have hq : queued_piece (lock_piece s') = s.next_ := by
    unfold queued_piece
    have e : (lock_piece s').pending_spawn_ = none := by
      rw [hs']
      exact hp
    rw [e]
    rw [hs']
    rfl
  have hvalid : is_valid_position (lock_piece s').board_ 3 0
      (queued_piece (lock_piece s')).type (queued_piece (lock_piece s')).rotation = true := by
    rw [is_valid_position_iff]
    intro j hj
    have h1 := coord_at_range (queued_piece (lock_piece s')).type
      (queued_piece (lock_piece s')).rotation j hj
    refine ⟨by omega, ?_⟩
    by_contra hne
    obtain ⟨r, c, hr, -, hrc⟩ := (Board.get_ne_zero_iff _ _ _).mp hne
    rw [hlock] at hrc
    split_ifs at hrc with hex
    · obtain ⟨coord, hc, h2, -⟩ := hex
      have h3 := hrange coord hc
      omega
    · exact hrc rfl
  rw [spawn_piece_eq, if_pos hvalid] at hd
  rw [hd]
  obtain ⟨f1, f2, f3, f4, f5, f6, f7, f8⟩ := spawn_placed_fields (lock_piece s')
  refine ⟨hfall, hstop, rfl, ?_, ?_, ?_, ?_, ?_, f7, f8, ?_⟩
  · show (spawn_placed (lock_piece s')).phase_ = Phase.Running
    rw [f3, hs']
    exact hrun
  · show (spawn_placed (lock_piece s')).lines_cleared_ = s.lines_cleared_
    rw [f6, hs']
    rfl
  · show (spawn_placed (lock_piece s')).level_ = 0
    rw [f5, hs']
    exact hl
  · show (spawn_placed (lock_piece s')).score_ = (k : Int)
    rw [f4]
    exact e4
  · show (spawn_placed (lock_piece s')).current_ = s.next_
    rw [f2, hq]
  · intro r c
    show (spawn_placed (lock_piece s')).board_ r c = _
    rw [f1, hlock]

/-- A board that holds a value other than 0 exactly in the cells of a frame
translated into the board has exactly 4 non-zero cells. -/
theorem translated_frame_card (b : Board) (F : List Coord) (k v : Int) (hv : v ≠ 0)
    (hnodup : F.Nodup) (hlen : F.length = 4)
    (hin : ∀ c ∈ F, 0 ≤ k + c.y ∧ k + c.y < 20 ∧ 0 ≤ 3 + c.x ∧ 3 + c.x < 10)
    (hb : ∀ (r : Fin 20) (c : Fin 10), b r c =
      if ∃ coord ∈ F, (r.val : Int) = k + coord.y ∧ (c.val : Int) = 3 + coord.x then v else 0) :
    (Finset.univ.filter (fun p : Fin 20 × Fin 10 => b p.1 p.2 ≠ 0)).card = 4 := by
  classical
  have hinj : Function.Injective
      (fun p : Fin 20 × Fin 10 => (((p.1.val : Nat) : Int), ((p.2.val : Nat) : Int))) := by
    rintro ⟨a1, a2⟩ ⟨c1, c2⟩ h
    simp only [Prod.mk.injEq] at h
    have h1 : a1 = c1 := Fin.ext (by omega)
    have h2 : a2 = c2 := Fin.ext (by omega)
    rw [h1, h2]
  rw [← Finset.card_image_of_injective _ hinj]
  have himg : Finset.image
      (fun p : Fin 20 × Fin 10 => (((p.1.val : Nat) : Int), ((p.2.val : Nat) : Int)))
      (Finset.univ.filter (fun p : Fin 20 × Fin 10 => b p.1 p.2 ≠ 0)) =
      (F.map (fun c => (k + c.y, 3 + c.x))).toFinset := by
    ext ⟨y, x⟩
    simp only [Finset.mem_image, Finset.mem_filter, Finset.mem_univ, true_and, List.mem_toFinset,
      List.mem_map, Prod.mk.injEq, Prod.exists]
    constructor
    · rintro ⟨r, c, hne, h1, h2⟩
      rw [hb] at hne
      split_ifs at hne with hex
      · obtain ⟨coord, hc, h3, h4⟩ := hex
        exact ⟨coord, hc, by omega, by omega⟩
      · exact absurd rfl hne
    · rintro ⟨coord, hc, h1, h2⟩
      have h3 := hin coord hc
      refine ⟨⟨(k + coord.y).toNat, by omega⟩, ⟨(3 + coord.x).toNat, by omega⟩, ?_,
        by simp only; omega, by simp only; omega⟩
      rw [hb, if_pos ⟨coord, hc, by simp only; omega, by simp only; omega⟩]
      exact hv
  rw [himg, List.toFinset_card_of_nodup, List.length_map, hlen]
  apply hnodup.map
  rintro ⟨x1, y1⟩ ⟨x2, y2⟩ h
  simp only [Prod.mk.injEq] at h
  have h1 : x1 = x2 := by omega
  have h2 : y1 = y2 := by omega
  rw [h1, h2]

/-- C24: for every sequence of random draws (hence every first piece and
every next piece), a fresh game (construct, `start()`) followed by one
`perform_action(HardDrop)` returns true and leaves phase Running with lines 0
and level 0; with `k` the number of rows the piece fell, the board holds
exactly 4 non-zero cells, all equal to `type + 1` (a colour in 1..7), which
are the cells of the piece frame translated to (3, k), the lowest of them in
row 19; the score is exactly `k` (`k * (level + 1)` at level 0); and the
piece shown as next before the drop is the active piece at origin (3, 0). -/
theorem first_hard_drop (rng : List Nat) (now : Int) :
    (start (new rng)).level_ = 0 ∧ (start (new rng)).score_ = 0 ∧
    (∀ (r : Fin 20) (c : Fin 10), (start (new rng)).board_ r c = 0) ∧
    (∀ j : Nat, 1 ≤ j → j ≤ first_drop_rows (start (new rng)) →
      is_valid_position (start (new rng)).board_ (start (new rng)).current_x_
        ((start (new rng)).current_y_ + j)
        (start (new rng)).current_.type (start (new rng)).current_.rotation = true) ∧
    is_valid_position (start (new rng)).board_ (start (new rng)).current_x_
      ((start (new rng)).current_y_ + (first_drop_rows (start (new rng)) + 1 : Nat))
      (start (new rng)).current_.type (start (new rng)).current_.rotation = false ∧
    (perform_action (start (new rng)) Action.HardDrop now).2 = true ∧
    (perform_action (start (new rng)) Action.HardDrop now).1.phase_ = Phase.Running ∧
    (perform_action (start (new rng)) Action.HardDrop now).1.lines_cleared_ = 0 ∧
    (perform_action (start (new rng)) Action.HardDrop now).1.level_ = 0 ∧
    (perform_action (start (new rng)) Action.HardDrop now).1.score_ =
      (first_drop_rows (start (new rng)) : Int) ∧
    (perform_action (start (new rng)) Action.HardDrop now).1.score_ =
      (first_drop_rows (start (new rng)) : Int) * ((start (new rng)).level_ + 1) ∧
    (perform_action (start (new rng)) Action.HardDrop now).1.current_ = (start (new rng)).next_ ∧
    (perform_action (start (new rng)) Action.HardDrop now).1.current_x_ = 3 ∧
    (perform_action (start (new rng)) Action.HardDrop now).1.current_y_ = 0 ∧
    (∀ (r : Fin 20) (c : Fin 10),
      (perform_action (start (new rng)) Action.HardDrop now).1.board_ r c =
        if ∃ coord ∈ frame_at (start (new rng)).current_.type (start (new rng)).current_.rotation,
            (r.val : Int) = (first_drop_rows (start (new rng)) : Int) + coord.y ∧
            (c.val : Int) = 3 + coord.x then
          (start (new rng)).current_.type + 1
        else 0) ∧
    (1 ≤ (start (new rng)).current_.type + 1 ∧ (start (new rng)).current_.type + 1 ≤ 7) ∧
    (Finset.univ.filter (fun p : Fin 20 × Fin 10 =>
      (perform_action (start (new rng)) Action.HardDrop now).1.board_ p.1 p.2 ≠ 0)).card = 4 ∧
    (∀ coord ∈ frame_at (start (new rng)).current_.type (start (new rng)).current_.rotation,
      (first_drop_rows (start (new rng)) : Int) + coord.y ≤ 19) ∧
    (∃ coord ∈ frame_at (start (new rng)).current_.type (start (new rng)).current_.rotation,
      (first_drop_rows (start (new rng)) : Int) + coord.y = 19) := by
  have hnew : new rng = reset { rng_ := rng } := rfl
  obtain ⟨rb, -, rs, rl, rn, -, -, -, -, rx, ry, -⟩ := reset_fields { rng_ := rng }
  have rt := reset_current_type { rng_ := rng }
  have hstart := start_reset_eq { rng_ := rng }
  rw [← hnew] at rb rs rl rn rx ry rt hstart
  obtain ⟨s, hs⟩ : ∃ s, s = start (new rng) := ⟨_, rfl⟩
  rw [← hs] at hstart ⊢
  have hb : s.board_ = Board.empty := by rw [hstart]; exact rb
  have hrun : s.phase_ = Phase.Running := by rw [hstart]
  have hx : s.current_x_ = 3 := by rw [hstart]; exact rx
  have hy : s.current_y_ = 0 := by rw [hstart]; exact ry
  have hsc : s.score_ = 0 := by rw [hstart]; exact rs
  have hl : s.level_ = 0 := by rw [hstart]; exact rl
  have hn : s.lines_cleared_ = 0 := by rw [hstart]; exact rn
  have hp : s.pending_spawn_ = none := by rw [hstart]
  have ht : 0 ≤ s.current_.type ∧ s.current_.type ≤ 6 := by rw [hstart]; exact rt
  obtain ⟨d1, d2, d3, d4, d5, d6, d7, d8, d9, d10, d11⟩ := first_drop_eq s now hb hrun hx hy hsc hl hp
  obtain ⟨hnodup, hm0, hm3, hmax, cm, hcm, hcmy⟩ := frame_at_bottom s.current_.type s.current_.rotation
  have hrange := frame_at_range s.current_.type s.current_.rotation
  have hk : ((first_drop_rows s : Nat) : Int) =
      19 - frame_bottom (frame_at s.current_.type s.current_.rotation) := by
    unfold first_drop_rows
    omega
  refine ⟨hl, hsc, ?_, d1, d2, d3, d4, ?_, d6, d7, ?_, d8, d9, d10, d11, by omega, ?_, ?_, ?_⟩
  · intro r c
    rw [hb]
    rfl
  · rw [d5, hn]
  · rw [d7, hl]
    omega
  · apply translated_frame_card _ (frame_at s.current_.type s.current_.rotation)
      (first_drop_rows s : Int) (s.current_.type + 1) (by omega) hnodup (frame_at_length _ _)
      _ d11
    intro c hc
    have h1 := hrange c hc
    have h2 := hmax c hc
    omega
  · intro c hc
    have h2 := hmax c hc
    omega
  · exact ⟨cm, hcm, by omega⟩

/-! ## The static piece table -/

/-- C33: for every piece type in 0..6 and every rotation slot in 0..3 of the
piece table, the 4 offsets are pairwise distinct, every coordinate lies in
0..3, the rotation count is 1, 2 or 4, and the frame in slot `r` equals the
frame in slot `r mod rotation_count`. -/
theorem piece_table_frames :
    pieces_.length = 7 ∧
    ∀ t : Fin 7,
      ((piece_at (t.val : Int)).rotation_count = 1 ∨ (piece_at (t.val : Int)).rotation_count = 2 ∨
        (piece_at (t.val : Int)).rotation_count = 4) ∧
      (piece_at (t.val : Int)).rotations.length = 4 ∧
      ∀ r : Fin 4,
        (frame_at (t.val : Int) (r.val : Int)).length = 4 ∧
        (∀ i j : Fin 4, i ≠ j →
          coord_at (t.val : Int) (r.val : Int) i.val ≠ coord_at (t.val : Int) (r.val : Int) j.val) ∧
        (∀ i : Fin 4,
          0 ≤ (coord_at (t.val : Int) (r.val : Int) i.val).x ∧
          (coord_at (t.val : Int) (r.val : Int) i.val).x ≤ 3 ∧
          0 ≤ (coord_at (t.val : Int) (r.val : Int) i.val).y ∧
          (coord_at (t.val : Int) (r.val : Int) i.val).y ≤ 3) ∧
        frame_at (t.val : Int) (r.val : Int) =
          frame_at (t.val : Int) ((r.val : Int) % (piece_at (t.val : Int)).rotation_count) := by
  decide!

/-- C34: for the three 4-orientation pieces L, J, T (types 4, 5, 6) and every
rotation `r` in 0..3, the rotation count is 4, the set of cells of frame
`(r + 1) mod 4` is the image of the cells of frame `r` under the quarter turn
clockwise `(x, y) -> (2 - y, x)`; the index `try_rotate(+1)` computes is
`(r + 1) mod 4`, so RotateCW turns the frame clockwise, and the index
`try_rotate(-1)` computes is a frame whose clockwise image is frame `r`, so
RotateCCW turns it counter-clockwise. -/
theorem frames_rotate_clockwise :
    ∀ (t : Fin 3) (r : Fin 4),
      (piece_at ((t.val : Int) + 4)).rotation_count = 4 ∧
      (frame_at ((t.val : Int) + 4) (((r.val : Int) + 1) % 4)).toFinset =
        ((frame_at ((t.val : Int) + 4) (r.val : Int)).map rotate_cw).toFinset ∧
      new_rotation ⟨(t.val : Int) + 4, (r.val : Int)⟩ 1 = ((r.val : Int) + 1) % 4 ∧
      (frame_at ((t.val : Int) + 4) (new_rotation ⟨(t.val : Int) + 4, (r.val : Int)⟩ 1)).toFinset =
        ((frame_at ((t.val : Int) + 4) (r.val : Int)).map rotate_cw).toFinset ∧
      ((frame_at ((t.val : Int) + 4)
          (new_rotation ⟨(t.val : Int) + 4, (r.val : Int)⟩ (-1))).map rotate_cw).toFinset =
        (frame_at ((t.val : Int) + 4) (r.val : Int)).toFinset := by
  decide!

/-! ## Rotating there and back -/

/-- The rotation step in terms of `new_rotation`. -/
theorem try_rotate_eq (g : TetrisGame) (delta : Int) :
    try_rotate g delta =
      if !can_accept_actions g then (g, false)
      else apply_rotation_with_kicks g (new_rotation g.current_ delta) :=
  rfl

theorem rotation_count_cases (piece : Int) :
    (piece_at piece).rotation_count = 1 ∨ (piece_at piece).rotation_count = 2 ∨
    (piece_at piece).rotation_count = 4 := by
  unfold piece_at
  generalize piece.toNat = n
  rcases n with _ | _ | _ | _ | _ | _ | _ | n <;>
    simp [pieces_, piece_O, piece_Z, piece_S, piece_I, piece_L, piece_J, piece_T]

/-- The kick loop either fails and leaves the engine alone, or takes an offset
of the list at which the target frame is valid. -/
theorem kicks_loop_cases (g : TetrisGame) (r : Int) (l : List Int) :
    apply_rotation_with_kicks_loop g r l = (g, false) ∨
    ∃ d ∈ l, is_valid_position g.board_ (g.current_x_ + d) g.current_y_ g.current_.type r = true ∧
      apply_rotation_with_kicks_loop g r l =
        ({ g with current_x_ := g.current_x_ + d,
                  current_ := { g.current_ with rotation := r } }, true) := by
  induction l with
  | nil => exact Or.inl rfl
  | cons e l ih =>
    unfold apply_rotation_with_kicks_loop
    dsimp only [emit_state]
    split_ifs with hv
    · exact Or.inr ⟨e, List.mem_cons_self _ _, hv, rfl⟩
    · rcases ih with h | ⟨d, hd, hvd, h⟩
      · exact Or.inl h
      · exact Or.inr ⟨d, List.mem_cons_of_mem _ hd, hvd, h⟩

/-- Rotating there and back, for a piece whose rotation index is in
`[0, rotation_count)`: in a Running state with a validly placed active piece,
if the first rotation returns true without changing the origin x, the
opposite rotation returns true and gives back exactly the engine state before
the two calls. -/
theorem rotate_round_trip_of_range (g : TetrisGame) (now now2 : Int) (first second : Action)
    (hrun : g.phase_ = Phase.Running)
    (hvalid : is_valid_position g.board_ g.current_x_ g.current_y_
      g.current_.type g.current_.rotation = true)
    (hrot : 0 ≤ g.current_.rotation ∧
      g.current_.rotation < (piece_at g.current_.type).rotation_count)
    (ha : (first = Action.RotateCW ∧ second = Action.RotateCCW) ∨
      (first = Action.RotateCCW ∧ second = Action.RotateCW))
    (htrue : (perform_action g first now).2 = true)
    (hx : (perform_action g first now).1.current_x_ = g.current_x_) :
    perform_action (perform_action g first now).1 second now2 = (g, true) := by
  obtain ⟨δ, δ2, ha1, ha2, hsum⟩ : ∃ δ δ2 : Int,
      ((first = Action.RotateCW ∧ δ = 1) ∨ (first = Action.RotateCCW ∧ δ = -1)) ∧
      ((second = Action.RotateCW ∧ δ2 = 1) ∨ (second = Action.RotateCCW ∧ δ2 = -1)) ∧
      δ + δ2 = 0 := by
    rcases ha with ⟨h1, h2⟩ | ⟨h1, h2⟩
    · exact ⟨1, -1, Or.inl ⟨h1, rfl⟩, Or.inr ⟨h2, rfl⟩, by omega⟩
    · exact ⟨-1, 1, Or.inr ⟨h1, rfl⟩, Or.inl ⟨h2, rfl⟩, by omega⟩
  have hδ : δ = 1 ∨ δ = -1 := by rcases ha1 with ⟨_, h⟩ | ⟨_, h⟩ <;> simp [h]
  have hcount := rotation_count_cases g.current_.type
  obtain ⟨c, hc⟩ : ∃ c, c = (piece_at g.current_.type).rotation_count := ⟨_, rfl⟩
  rw [← hc] at hcount hrot
  obtain ⟨r, hr⟩ : ∃ r, r = g.current_.rotation := ⟨_, rfl⟩
  rw [← hr] at hrot
  have hback : ((r + δ) % c + δ2) % c = r := by
    rcases hcount with h | h | h <;> rw [h] at hrot ⊢ <;> omega
  have hnn : 0 ≤ (r + δ) % c := Int.emod_nonneg _ (by omega)
  have h1 := perform_action_rotate_eq g now first δ hrun (by rw [← hr]; exact hrot.1) ha1
  rw [← hc, ← hr] at h1
  rcases kicks_loop_cases g ((r + δ) % c) rotation_kick_offsets_ with hk | ⟨d, -, -, hk⟩
  · rw [h1, hk] at htrue
    exact absurd htrue (by simp)
  · rw [h1, hk] at hx ⊢
    have hd : d = 0 := by
      have : g.current_x_ + d = g.current_x_ := hx
      omega
    subst hd
    obtain ⟨g1, hg1⟩ : ∃ g1 : TetrisGame, g1 =
        { g with current_x_ := g.current_x_ + 0,
                 current_ := { g.current_ with rotation := (r + δ) % c } } := ⟨_, rfl⟩
    rw [← hg1]
    have e1 : g1.phase_ = Phase.Running := by rw [hg1]; exact hrun
    have e2 : g1.current_.rotation = (r + δ) % c := by rw [hg1]
    have e3 : g1.current_.type = g.current_.type := by rw [hg1]
    have e4 : g1.board_ = g.board_ := by rw [hg1]
    have e5 : g1.current_x_ = g.current_x_ := by
      rw [hg1]
      show g.current_x_ + 0 = g.current_x_
      omega
    have e6 : g1.current_y_ = g.current_y_ := by rw [hg1]
    have h2 := perform_action_rotate_eq g1 now2 second δ2 e1 (by rw [e2]; exact hnn) ha2
    rw [e2, e3, ← hc, hback] at h2
    have hv2 : is_valid_position g1.board_ (g1.current_x_ + 0) g1.current_y_ g1.current_.type r
        = true := by
      rw [e4, e5, e6, e3, hr]
      have : g.current_x_ + 0 = g.current_x_ := by omega
      rw [this]
      exact hvalid
    have hlist : rotation_kick_offsets_ = [] ++ (0 : Int) :: [-1, 1, -2, 2] := rfl
    rw [h2, hlist, kicks_loop_found g1 r 0 [] [-1, 1, -2, 2] (by simp) hv2, hg1, hr]
    simp

/-! ## The piece indices stay in range -/

theorem same_pieces_refl (g : TetrisGame) : same_pieces g g := ⟨rfl, rfl, rfl⟩

theorem same_pieces_trans (a b c : TetrisGame) (h1 : same_pieces a b) (h2 : same_pieces b c) :
    same_pieces a c :=
  ⟨h2.1.trans h1.1, h2.2.1.trans h1.2.1, h2.2.2.trans h1.2.2⟩

theorem pieces_in_range_of_same (g g' : TetrisGame) (h : same_pieces g g')
    (hg : pieces_in_range g) : pieces_in_range g' := by
  unfold pieces_in_range at hg ⊢
  rw [h.1, h.2.1, h.2.2]
  exact hg

/-- A generated piece indexes the table in range. -/
theorem prepare_next_piece_in_range (g : TetrisGame) :
    piece_in_range (prepare_next_piece g).next_ := by
  have ht := prepare_next_piece_type_range g
  have hc := rotation_count_pos (prepare_next_piece g).next_.type
  refine ⟨ht.1, by show _ < (7 : Int); omega, ?_⟩
  revert hc
  unfold prepare_next_piece random_piece uniform_int
  dsimp only
  split_ifs with h1
  · dsimp only
    intro hc
    omega
  · dsimp only
    intro hc
    constructor
    · have := Int.emod_nonneg ((List.headD g.rng_.tail 0 : Nat) : Int)
        (show (piece_at (0 + ((List.headD g.rng_ 0 : Nat) : Int) % (BLOCK_TYPES - 1 - 0 + 1))).rotation_count
          - 1 - 0 + 1 ≠ 0 by omega)
      omega
    · have := Int.emod_lt_of_pos ((List.headD g.rng_.tail 0 : Nat) : Int)
        (show 0 < (piece_at (0 + ((List.headD g.rng_ 0 : Nat) : Int) % (BLOCK_TYPES - 1 - 0 + 1))).rotation_count
          - 1 - 0 + 1 by omega)
      omega

theorem spawn_placed_in_range (g : TetrisGame) (hg : pieces_in_range g) :
    pieces_in_range (spawn_placed g) := by
  obtain ⟨hc, hn, hp⟩ := hg
  have hq := spawn_placed_queue g
  have hf := spawn_placed_fields g
  refine ⟨?_, ?_, ?_⟩
  · rw [hf.2.1]
    unfold queued_piece
    cases h : g.pending_spawn_ with
    | none => exact hn
    | some p => exact hp p h
  · cases h : g.pending_spawn_ with
    | none =>
      rw [(hq.2.2.2.2 h).1]
      exact prepare_next_piece_in_range g
    | some p =>
      rw [(hq.2.2.2.1 p h).1]
      exact hn
  · intro p h
    rw [hq.1] at h
    exact absurd h (by simp)

theorem spawn_piece_in_range (g : TetrisGame) (hg : pieces_in_range g) :
    pieces_in_range (spawn_piece g).1 := by
  have h := spawn_placed_in_range g hg
  rw [spawn_piece_eq]
  split_ifs
  · exact h
  · exact h

theorem try_move_pieces (g : TetrisGame) (dx dy : Int) : same_pieces g (try_move g dx dy).1 := by
  rw [try_move_eq]
  split_ifs <;> exact same_pieces_refl g

theorem add_score_pieces (g : TetrisGame) (delta : Int) : same_pieces g (add_score g delta) := by
  unfold add_score
  split_ifs <;> exact same_pieces_refl g

theorem reward_hard_drop_pieces (g : TetrisGame) (n : Int) :
    same_pieces g (reward_hard_drop g n) := by
  unfold reward_hard_drop emit_stats
  split_ifs
  · exact same_pieces_refl g
  · exact add_score_pieces g _

theorem soft_drop_step_pieces (g : TetrisGame) : same_pieces g (soft_drop_step g).1 := by
  unfold soft_drop_step reward_soft_drop emit_stats
  dsimp only
  split_ifs
  · exact same_pieces_trans _ _ _ (try_move_pieces g 0 1) (add_score_pieces _ 1)
  · exact try_move_pieces g 0 1

theorem update_level_and_score_pieces (g : TetrisGame) (n : Int) :
    same_pieces g (update_level_and_score g n) := by
  unfold update_level_and_score emit_stats
  split_ifs
  · exact same_pieces_trans _ _ _ (same_pieces_refl g)
      (add_score_pieces { g with lines_cleared_ := g.lines_cleared_ + n } _)
  · exact same_pieces_refl g

/-- The rotation index `try_rotate` computes for delta +1 or -1 is in range. -/
theorem new_rotation_range (p : PieceState) (delta : Int) (hp : 0 ≤ p.rotation)
    (hd : delta = 1 ∨ delta = -1) :
    0 ≤ new_rotation p delta ∧ new_rotation p delta < (piece_at p.type).rotation_count := by
  unfold new_rotation
  rw [new_rotation_eq _ _ _ hp hd]
  have hc := rotation_count_pos p.type
  exact ⟨Int.emod_nonneg _ (by omega), Int.emod_lt_of_pos _ hc⟩

theorem try_rotate_in_range (g : TetrisGame) (delta : Int) (hd : delta = 1 ∨ delta = -1)
    (hg : pieces_in_range g) : pieces_in_range (try_rotate g delta).1 := by
  rw [try_rotate_eq]
  split_ifs
  · exact hg
  · unfold apply_rotation_with_kicks
    rcases kicks_loop_cases g (new_rotation g.current_ delta) rotation_kick_offsets_ with
      h | ⟨d, -, -, h⟩
    · rw [h]
      exact hg
    · rw [h]
      obtain ⟨hc, hn, hp⟩ := hg
      have hr := new_rotation_range g.current_ delta hc.2.2.1 hd
      exact ⟨⟨hc.1, hc.2.1, hr.1, hr.2⟩, hn, hp⟩

theorem handle_locked_piece_in_range (g : TetrisGame) (now : Int) (hg : pieces_in_range g) :
    pieces_in_range (handle_locked_piece g now).1 := by
  rw [handle_locked_piece_eq]
  split_ifs
  · exact spawn_piece_in_range (lock_piece g) hg
  · exact hg

theorem hard_drop_step_in_range (g : TetrisGame) (now : Int) (hg : pieces_in_range g) :
    pieces_in_range (hard_drop_step g now).1 := by
  unfold hard_drop_step
  dsimp only
  split_ifs
  · exact hg
  · obtain ⟨k, hk⟩ := hard_drop_loop_frame g 0
    rw [hk]
    have h2 := reward_hard_drop_pieces { g with current_y_ := g.current_y_ + k } (0 + k)
    exact handle_locked_piece_in_range _ now (pieces_in_range_of_same _ _ h2 hg)

theorem finish_line_clear_in_range (g : TetrisGame) (hg : pieces_in_range g) :
    pieces_in_range (finish_line_clear g).1 := by
  unfold finish_line_clear
  dsimp only [emit_state, set_phase]
  apply spawn_piece_in_range
  refine pieces_in_range_of_same _ _ (update_level_and_score_pieces _ _) ?_
  have hr := remove_rows_eq g g.clearing_rows_
  unfold pieces_in_range
  dsimp only
  rw [hr]
  exact hg

theorem advance_clear_animation_in_range (g : TetrisGame) (now : Int)
    (hg : pieces_in_range g) : pieces_in_range (advance_clear_animation g now).1 := by
  unfold advance_clear_animation emit_state
  dsimp only
  split_ifs
  · exact finish_line_clear_in_range _ hg
  · exact hg
  · exact finish_line_clear_in_range g hg
  · exact hg

theorem advance_game_over_animation_pieces (g : TetrisGame) :
    same_pieces g (advance_game_over_animation g).1 := by
  unfold advance_game_over_animation emit_state
  dsimp only
  split_ifs <;> exact same_pieces_refl g

theorem tick_in_range (g : TetrisGame) (now : Int) (hg : pieces_in_range g) :
    pieces_in_range (tick g now).1 := by
  unfold tick
  dsimp only
  split_ifs
  · exact hg
  · exact advance_clear_animation_in_range g now hg
  · exact hg
  · exact pieces_in_range_of_same _ _ (try_move_pieces g 0 1) hg
  · exact handle_locked_piece_in_range _ now
      (pieces_in_range_of_same _ _ (try_move_pieces g 0 1) hg)

theorem perform_action_in_range (g : TetrisGame) (action : Action) (now : Int)
    (hg : pieces_in_range g) : pieces_in_range (perform_action g action now).1 := by
  unfold perform_action
  split_ifs
  · exact hg
  · cases action
    · exact pieces_in_range_of_same _ _ (try_move_pieces g (-1) 0) hg
    · exact pieces_in_range_of_same _ _ (try_move_pieces g 1 0) hg
    · exact pieces_in_range_of_same _ _ (soft_drop_step_pieces g) hg
    · exact hard_drop_step_in_range g now hg
    · exact try_rotate_in_range g 1 (Or.inl rfl) hg
    · exact try_rotate_in_range g (-1) (Or.inr rfl) hg

theorem step_clear_animation_in_range (g : TetrisGame) (now : Int) (hg : pieces_in_range g) :
    pieces_in_range (step_clear_animation g now).1 := by
  unfold step_clear_animation
  split_ifs
  · exact advance_clear_animation_in_range g now hg
  · exact pieces_in_range_of_same _ _ (advance_game_over_animation_pieces g) hg
  · exact hg

theorem toggle_pause_in_range (g : TetrisGame) (hg : pieces_in_range g) :
    pieces_in_range (toggle_pause g) := by
  unfold toggle_pause set_phase
  split_ifs <;> exact hg

theorem reset_in_range (g : TetrisGame) : pieces_in_range (reset g) := by
  have hp := (reset_fields g).2.2.2.2.2.2.2.2.2.2.2
  have hcur : piece_in_range (reset g).current_ := by
    unfold reset
    dsimp only [emit_stats, emit_state]
    rw [prepare_next_piece_current]
    dsimp only
    exact prepare_next_piece_in_range _
  have hnext : piece_in_range (reset g).next_ := by
    unfold reset
    dsimp only [emit_stats, emit_state]
    exact prepare_next_piece_in_range _
  refine ⟨hcur, hnext, ?_⟩
  intro p h
  rw [hp] at h
  cases h
  exact hcur

theorem start_in_range (g : TetrisGame) (hg : pieces_in_range g) :
    pieces_in_range (start g) := by
  unfold start emit_stats emit_state
  dsimp only
  split_ifs
  · exact spawn_piece_in_range _ (reset_in_range g)
  · exact spawn_piece_in_range _ hg

theorem apply_in_range (g : TetrisGame) (op : Op) (hg : pieces_in_range g) :
    pieces_in_range (Op.apply g op) := by
  cases op with
  | start => exact start_in_range g hg
  | reset => exact reset_in_range g
  | stop => exact hg
  | toggle_pause => exact toggle_pause_in_range g hg
  | tick now => exact tick_in_range g now hg
  | perform_action action now => exact perform_action_in_range g action now hg
  | step_clear_animation now => exact step_clear_animation_in_range g now hg

theorem run_in_range (ops : List Op) (g : TetrisGame) (hg : pieces_in_range g) :
    pieces_in_range (run g ops) := by
  induction ops generalizing g with
  | nil => exact hg
  | cons op ops ih => exact ih _ (apply_in_range g op hg)

/-- An in-range piece state looks up an existing slot of the table. -/
theorem piece_in_range_lookup (p : PieceState) (hp : piece_in_range p) :
    p.type.toNat < pieces_.length ∧ p.rotation.toNat < (piece_at p.type).rotations.length := by
  obtain ⟨h1, h2, h3, h4⟩ := hp
  have hc := rotation_count_cases p.type
  have hlen : (piece_at p.type).rotations.length = 4 := by
    unfold piece_at
    generalize p.type.toNat = n
    rcases n with _ | _ | _ | _ | _ | _ | _ | n <;>
      simp [pieces_, piece_O, piece_Z, piece_S, piece_I, piece_L, piece_J, piece_T]
  rw [hlen]
  have h7 : pieces_.length = 7 := rfl
  rw [h7]
  have h2 : p.type < 7 := h2
  omega

/-- C32: in every state reachable from a newly constructed engine by any
sequence of public operations (for all random draws), the active and the next
piece types are in 0..6 and their rotation indices are in
`[0, rotation_count(type))`; hence the lookups
`pieces_[type].rotations[rotation]` of `active_cells`, `next_cells`,
`is_valid_position` and `lock_piece` are in range, and the rotation index
`try_rotate` computes for delta +1 or -1 is again in `[0, rotation_count)`. -/
theorem piece_indices_in_range (g : TetrisGame) (h : Reachable g) :
    (0 ≤ g.current_.type ∧ g.current_.type ≤ 6 ∧ 0 ≤ g.current_.rotation ∧
      g.current_.rotation < (piece_at g.current_.type).rotation_count) ∧
    (0 ≤ g.next_.type ∧ g.next_.type ≤ 6 ∧ 0 ≤ g.next_.rotation ∧
      g.next_.rotation < (piece_at g.next_.type).rotation_count) ∧
    (g.current_.type.toNat < pieces_.length ∧
      g.current_.rotation.toNat < (piece_at g.current_.type).rotations.length) ∧
    (g.next_.type.toNat < pieces_.length ∧
      g.next_.rotation.toNat < (piece_at g.next_.type).rotations.length) ∧
    (∀ delta : Int, delta = 1 ∨ delta = -1 →
      0 ≤ new_rotation g.current_ delta ∧
      new_rotation g.current_ delta < (piece_at g.current_.type).rotation_count ∧
      (new_rotation g.current_ delta).toNat < (piece_at g.current_.type).rotations.length ∧
      try_rotate g delta =
        if !can_accept_actions g then (g, false)
        else apply_rotation_with_kicks g (new_rotation g.current_ delta)) := by
  obtain ⟨rng, ops, hrun⟩ := h
  have hg : pieces_in_range g := by
    rw [hrun]
    exact run_in_range ops _ (reset_in_range _)
  obtain ⟨hc, hn, -⟩ := hg
  have hc7 : g.current_.type < 7 := hc.2.1
  have hn7 : g.next_.type < 7 := hn.2.1
  refine ⟨⟨hc.1, by omega, hc.2.2⟩, ⟨hn.1, by omega, hn.2.2⟩, piece_in_range_lookup _ hc,
    piece_in_range_lookup _ hn, ?_⟩
  intro delta hd
  have hr := new_rotation_range g.current_ delta hc.2.2.1 hd
  have hl := piece_in_range_lookup ⟨g.current_.type, new_rotation g.current_ delta⟩
    ⟨hc.1, hc.2.1, hr.1, hr.2⟩
  exact ⟨hr.1, hr.2, hl.2, rfl⟩

theorem piece_indices_in_range_witness :
    Reachable kick_game ∧ 0 ≤ kick_game.current_.type ∧ kick_game.current_.type ≤ 6 :=
  ⟨⟨_, _, rfl⟩,
   (piece_indices_in_range kick_game ⟨_, _, rfl⟩).1.1,
   (piece_indices_in_range kick_game ⟨_, _, rfl⟩).1.2.1⟩

/-! ## Rotating there and back in a reachable state -/

/-- C35: in every Running state of the engine (reachable from a newly
constructed engine by any sequence of public operations) with a validly
placed active piece, if `RotateCW` returns true without changing the origin x
(kick offset 0), an immediately following `RotateCCW` returns true and gives
back exactly the engine state before the two calls (origin, rotation, board
and counters); the same holds with the two actions swapped. -/
theorem rotate_round_trip (g : TetrisGame) (now now2 : Int) (first second : Action)
    (hreach : Reachable g) (hrun : g.phase_ = Phase.Running)
    (hvalid : is_valid_position g.board_ g.current_x_ g.current_y_
      g.current_.type g.current_.rotation = true)
    (ha : (first = Action.RotateCW ∧ second = Action.RotateCCW) ∨
      (first = Action.RotateCCW ∧ second = Action.RotateCW))
    (htrue : (perform_action g first now).2 = true)
    (hx : (perform_action g first now).1.current_x_ = g.current_x_) :
    perform_action (perform_action g first now).1 second now2 = (g, true) ∧
    (perform_action (perform_action g first now).1 second now2).2 = true ∧
    (perform_action (perform_action g first now).1 second now2).1.current_x_ = g.current_x_ ∧
    (perform_action (perform_action g first now).1 second now2).1.current_y_ = g.current_y_ ∧
    (perform_action (perform_action g first now).1 second now2).1.current_.rotation =
      g.current_.rotation ∧
    (perform_action (perform_action g first now).1 second now2).1.board_ = g.board_ ∧
    (perform_action (perform_action g first now).1 second now2).1.score_ = g.score_ ∧
    (perform_action (perform_action g first now).1 second now2).1.level_ = g.level_ ∧
    (perform_action (perform_action g first now).1 second now2).1.lines_cleared_ =
      g.lines_cleared_ := by
  obtain ⟨rng, ops, hg⟩ := hreach
  have hrange : pieces_in_range g := by
    rw [hg]
    exact run_in_range ops _ (reset_in_range _)
  have h := rotate_round_trip_of_range g now now2 first second hrun hvalid
    ⟨hrange.1.2.2.1, hrange.1.2.2.2⟩ ha htrue hx
  rw [h]
  exact ⟨rfl, rfl, rfl, rfl, rfl, rfl, rfl, rfl, rfl⟩

theorem rotate_round_trip_witness :
    Reachable upright_game ∧ upright_game.phase_ = Phase.Running ∧
    is_valid_position upright_game.board_ upright_game.current_x_ upright_game.current_y_
      upright_game.current_.type upright_game.current_.rotation = true ∧
    (perform_action upright_game Action.RotateCW 0).2 = true ∧
    (perform_action upright_game Action.RotateCW 0).1.current_x_ = upright_game.current_x_ ∧
    perform_action (perform_action upright_game Action.RotateCW 0).1 Action.RotateCCW 5 =
      (upright_game, true) :=
  ⟨⟨[3, 0], [Op.start], rfl⟩, by decide!, by decide!, by decide!, by decide!,
   (rotate_round_trip upright_game 0 5 Action.RotateCW Action.RotateCCW ⟨[3, 0], [Op.start], rfl⟩
     (by decide!) (by decide!) (Or.inl ⟨rfl, rfl⟩) (by decide!) (by decide!)).1⟩

/-! ## No full row outside a clear -/

theorem same_rows_refl (g : TetrisGame) : same_rows g g := ⟨rfl, rfl, rfl⟩

theorem same_rows_trans (a b c : TetrisGame) (h1 : same_rows a b) (h2 : same_rows b c) :
    same_rows a c :=
  ⟨h2.1.trans h1.1, h2.2.1.trans h1.2.1, h2.2.2.trans h1.2.2⟩

theorem rows_settled_of_same (g g' : TetrisGame) (h : same_rows g g')
    (hg : rows_settled g) : rows_settled g' := by
  unfold rows_settled at hg ⊢
  rw [h.1, h.2.1, h.2.2]
  exact hg

theorem full_rows_eq_nil_iff (b : Board) : full_rows b = [] ↔ ∀ r : Fin 20, ¬ row_full b r := by
  have h := full_rows_ne_nil_iff b
  constructor
  · intro h1 r hr
    exact (h.mpr ⟨r, hr⟩) h1
  · intro h1
    by_contra h2
    obtain ⟨r, hr⟩ := h.mp h2
    exact h1 r hr

theorem mem_full_rows_iff (b : Board) (i : Fin 20) :
    (i.val : Int) ∈ full_rows b ↔ row_full b i := by
  unfold full_rows
  simp only [List.mem_map, List.mem_filter, List.mem_finRange, true_and, decide_eq_true_eq]
  constructor
  · rintro ⟨r, hr, he⟩
    have : r = i := Fin.ext (by omega)
    rw [← this]
    exact hr
  · intro h
    exact ⟨i, h, rfl⟩

/-- At most 4 of the 20 row indices lie in a window of 4 rows. -/
theorem window_rows_length (y : Int) :
    ((List.finRange 20).filter
      (fun r => decide (y ≤ (r.val : Int) ∧ (r.val : Int) ≤ y + 3))).length ≤ 4 := by
  have hnd : ((List.finRange 20).filter
      (fun r => decide (y ≤ (r.val : Int) ∧ (r.val : Int) ≤ y + 3))).Nodup :=
    (List.nodup_finRange 20).filter _
  have hinj : Function.Injective (fun r : Fin 20 => ((r.val : Nat) : Int)) := by
    intro a b h
    exact Fin.ext (by simpa using h)
  have hnd2 := hnd.map hinj
  rw [← List.length_map _ (fun r : Fin 20 => ((r.val : Nat) : Int)),
    ← List.toFinset_card_of_nodup hnd2]
  have hsub : (((List.finRange 20).filter
      (fun r => decide (y ≤ (r.val : Int) ∧ (r.val : Int) ≤ y + 3))).map
        (fun r : Fin 20 => ((r.val : Nat) : Int))).toFinset ⊆ Finset.Icc y (y + 3) := by
    intro x hx
    simp only [List.mem_toFinset, List.mem_map, List.mem_filter, List.mem_finRange, true_and,
      decide_eq_true_eq] at hx
    obtain ⟨r, hr, rfl⟩ := hx
    exact Finset.mem_Icc.mpr hr
  have hcard := Finset.card_le_card hsub
  rw [Int.card_Icc] at hcard
  have : (y + 3 + 1 - y).toNat = 4 := by omega
  omega

/-- A lock on a board without a full row fills at most 4 rows. -/
theorem lock_piece_full_rows_le (g : TetrisGame) (h : full_rows g.board_ = []) :
    (full_rows (lock_piece g).board_).length ≤ 4 := by
  rw [full_rows_eq_nil_iff] at h
  unfold full_rows
  rw [List.length_map]
  refine le_trans (List.Sublist.length_le ?_) (window_rows_length g.current_y_)
  apply List.monotone_filter_right
  intro r hr
  simp only [decide_eq_true_eq] at hr ⊢
  have hnot := h r
  unfold row_full at hnot
  push_neg at hnot
  obtain ⟨c, hc⟩ := hnot
  have hrc := hr c
  rw [lock_piece_board] at hrc
  split_ifs at hrc with hex
  · obtain ⟨coord, hmem, hy, -⟩ := hex
    have hrange := frame_at_range _ _ coord hmem
    omega
  · exact absurd hc hrc

/-- After the full rows have been removed no row is full. -/
theorem remove_full_rows_settled (g : TetrisGame) :
    full_rows (remove_rows g (full_rows g.board_)).board_ = [] := by
  rw [full_rows_eq_nil_iff]
  intro r hr
  have hmem : (remove_rows g (full_rows g.board_)).board_ r ∈
      (List.finRange 20).map (remove_rows g (full_rows g.board_)).board_ :=
    List.mem_map.mpr ⟨r, List.mem_finRange r, rfl⟩
  rw [remove_rows_refines] at hmem
  unfold remove_rows_spec at hmem
  rcases List.mem_append.mp hmem with h1 | h1
  · have h2 := List.eq_of_mem_replicate h1
    have h3 := hr 0
    rw [h2] at h3
    exact h3 rfl
  · unfold kept_rows at h1
    simp only [List.mem_map, List.mem_filter, List.mem_finRange, true_and,
      decide_eq_true_eq] at h1
    obtain ⟨i, hi, he⟩ := h1
    rw [mem_full_rows_iff] at hi
    apply hi
    intro c
    rw [he]
    exact hr c

theorem spawn_piece_settled (g : TetrisGame) (hrun : g.phase_ = Phase.Running)
    (hb : full_rows g.board_ = []) : rows_settled (spawn_piece g).1 := by
  have hf := spawn_piece_facts g
  unfold rows_settled
  rw [hf.1, hb]
  refine ⟨fun _ => rfl, ?_⟩
  intro hcl
  rcases spawn_piece_post g with ⟨-, h⟩ | ⟨-, h, -⟩
  · rw [h] at hcl
    exact absurd hcl (by simp)
  · rw [h, hrun] at hcl
    exact absurd hcl (by simp)

theorem try_move_rows (g : TetrisGame) (dx dy : Int) : same_rows g (try_move g dx dy).1 := by
  rw [try_move_eq]
  split_ifs <;> exact same_rows_refl g

theorem try_rotate_rows (g : TetrisGame) (delta : Int) :
    same_rows g (try_rotate g delta).1 := by
  rw [try_rotate_eq]
  split_ifs
  · exact same_rows_refl g
  · unfold apply_rotation_with_kicks
    rcases kicks_loop_cases g (new_rotation g.current_ delta) rotation_kick_offsets_ with
      h | ⟨d, -, -, h⟩
    · rw [h]
      exact same_rows_refl g
    · rw [h]
      exact same_rows_refl g

theorem add_score_rows (g : TetrisGame) (delta : Int) : same_rows g (add_score g delta) := by
  unfold add_score
  split_ifs <;> exact same_rows_refl g

theorem reward_hard_drop_rows (g : TetrisGame) (n : Int) :
    same_rows g (reward_hard_drop g n) := by
  unfold reward_hard_drop emit_stats
  split_ifs
  · exact same_rows_refl g
  · exact add_score_rows g _

theorem soft_drop_step_rows (g : TetrisGame) : same_rows g (soft_drop_step g).1 := by
  unfold soft_drop_step reward_soft_drop emit_stats
  dsimp only
  split_ifs
  · exact same_rows_trans _ _ _ (try_move_rows g 0 1) (add_score_rows _ 1)
  · exact try_move_rows g 0 1

theorem update_level_and_score_rows (g : TetrisGame) (n : Int) :
    same_rows g (update_level_and_score g n) := by
  unfold update_level_and_score emit_stats
  split_ifs
  · exact same_rows_trans _ _ _ (same_rows_refl g)
      (add_score_rows { g with lines_cleared_ := g.lines_cleared_ + n } _)
  · exact same_rows_refl g

theorem handle_locked_piece_settled (g : TetrisGame) (now : Int)
    (hrun : g.phase_ = Phase.Running) (hb : full_rows g.board_ = []) :
    rows_settled (handle_locked_piece g now).1 := by
  rw [handle_locked_piece_eq]
  split_ifs with hrows
  · exact spawn_piece_settled (lock_piece g) hrun hrows
  · unfold rows_settled
    dsimp only
    refine ⟨?_, fun _ => ⟨rfl, lock_piece_full_rows_le g hb⟩⟩
    intro h
    rcases h with h | h | h <;> exact absurd h (by simp)

theorem hard_drop_step_settled (g : TetrisGame) (now : Int) (hg : rows_settled g) :
    rows_settled (hard_drop_step g now).1 := by
  unfold hard_drop_step can_accept_actions
  dsimp only
  split_ifs with hrun
  · exact hg
  · have hrun2 : g.phase_ = Phase.Running := by simpa using hrun
    obtain ⟨k, hk⟩ := hard_drop_loop_frame g 0
    rw [hk]
    have h2 := reward_hard_drop_rows { g with current_y_ := g.current_y_ + k } (0 + k)
    apply handle_locked_piece_settled
    · rw [h2.1]
      exact hrun2
    · rw [h2.2.1]
      exact hg.1 (Or.inl hrun2)

theorem finish_line_clear_settled (g : TetrisGame) (hph : g.phase_ = Phase.Clearing)
    (hg : rows_settled g) : rows_settled (finish_line_clear g).1 := by
  have hrows := (hg.2 hph).1
  unfold finish_line_clear
  dsimp only [emit_state, set_phase]
  have hm := update_level_and_score_rows
    { remove_rows g g.clearing_rows_ with
      clearing_rows_ := [], flash_on_ := true, phase_ := Phase.Running }
    ((remove_rows g g.clearing_rows_).clearing_rows_.length : Int)
  apply spawn_piece_settled
  · rw [hm.1]
  · rw [hm.2.1]
    dsimp only
    rw [hrows]
    exact remove_full_rows_settled g

theorem advance_clear_animation_settled (g : TetrisGame) (now : Int)
    (hph : g.phase_ = Phase.Clearing) (hg : rows_settled g) :
    rows_settled (advance_clear_animation g now).1 := by
  unfold advance_clear_animation emit_state
  dsimp only
  split_ifs
  · exact finish_line_clear_settled _ hph hg
  · exact hg
  · exact finish_line_clear_settled g hph hg
  · exact hg

theorem advance_game_over_animation_settled (g : TetrisGame)
    (hph : g.phase_ = Phase.GameOver) : rows_settled (advance_game_over_animation g).1 := by
  have h := advance_game_over_animation_phase g
  unfold rows_settled
  rw [h, hph]
  simp

theorem tick_settled (g : TetrisGame) (now : Int) (hg : rows_settled g) :
    rows_settled (tick g now).1 := by
  unfold tick
  dsimp only
  split_ifs with h1 h2 h3 h4
  · exact hg
  · exact advance_clear_animation_settled g now h2 hg
  · exact hg
  · exact rows_settled_of_same _ _ (try_move_rows g 0 1) hg
  · have hrun : g.phase_ = Phase.Running := by
      by_contra h
      exact h3 h
    have hm := try_move_rows g 0 1
    apply handle_locked_piece_settled
    · rw [hm.1]
      exact hrun
    · rw [hm.2.1]
      exact hg.1 (Or.inl hrun)

theorem perform_action_settled (g : TetrisGame) (action : Action) (now : Int)
    (hg : rows_settled g) : rows_settled (perform_action g action now).1 := by
  unfold perform_action
  split_ifs
  · exact hg
  · cases action
    · exact rows_settled_of_same _ _ (try_move_rows g (-1) 0) hg
    · exact rows_settled_of_same _ _ (try_move_rows g 1 0) hg
    · exact rows_settled_of_same _ _ (soft_drop_step_rows g) hg
    · exact hard_drop_step_settled g now hg
    · exact rows_settled_of_same _ _ (try_rotate_rows g 1) hg
    · exact rows_settled_of_same _ _ (try_rotate_rows g (-1)) hg

theorem step_clear_animation_settled (g : TetrisGame) (now : Int) (hg : rows_settled g) :
    rows_settled (step_clear_animation g now).1 := by
  unfold step_clear_animation
  split_ifs with h1 h2
  · exact advance_clear_animation_settled g now h1 hg
  · apply advance_game_over_animation_settled g
    unfold is_game_over_animating at h2
    simp at h2
    exact h2.1
  · exact hg

theorem toggle_pause_settled (g : TetrisGame) (hg : rows_settled g) :
    rows_settled (toggle_pause g) := by
  unfold toggle_pause set_phase
  split_ifs with h1 h2 h3
  · exact hg
  · have hb := hg.1 (Or.inr (Or.inl h2))
    unfold rows_settled
    dsimp only
    exact ⟨fun _ => hb, fun h => absurd h (by simp)⟩
  · have hb := hg.1 (Or.inl h3)
    unfold rows_settled
    dsimp only
    exact ⟨fun _ => hb, fun h => absurd h (by simp)⟩
  · exact hg

theorem full_rows_empty : full_rows Board.empty = [] := by
  rw [full_rows_eq_nil_iff]
  intro r h
  exact h 0 rfl

theorem reset_settled (g : TetrisGame) : rows_settled (reset g) := by
  obtain ⟨hb, hph, -⟩ := reset_fields g
  unfold rows_settled
  rw [hb, hph, full_rows_empty]
  simp

theorem start_settled (g : TetrisGame) (hg : rows_settled g) : rows_settled (start g) := by
  unfold start emit_stats emit_state
  dsimp only
  split_ifs with h
  · apply spawn_piece_settled _ rfl
    show full_rows (reset g).board_ = []
    rw [(reset_fields g).1, full_rows_empty]
  · have hidle : g.phase_ = Phase.Idle := by
      by_contra h2
      exact h h2
    apply spawn_piece_settled _ rfl
    exact hg.1 (Or.inr (Or.inr hidle))

theorem apply_settled (g : TetrisGame) (op : Op) (hop : op ≠ Op.stop) (hg : rows_settled g) :
    rows_settled (Op.apply g op) := by
  cases op with
  | start => exact start_settled g hg
  | reset => exact reset_settled g
  | stop => exact absurd rfl hop
  | toggle_pause => exact toggle_pause_settled g hg
  | tick now => exact tick_settled g now hg
  | perform_action action now => exact perform_action_settled g action now hg
  | step_clear_animation now => exact step_clear_animation_settled g now hg

theorem run_settled (ops : List Op) (g : TetrisGame) (hops : Op.stop ∉ ops)
    (hg : rows_settled g) : rows_settled (run g ops) := by
  induction ops generalizing g with
  | nil => exact hg
  | cons op ops ih =>
    have h1 : op ≠ Op.stop := fun h => hops (by rw [h]; exact List.mem_cons_self _ _)
    have h2 : Op.stop ∉ ops := fun h => hops (List.mem_cons_of_mem _ h)
    exact ih _ h2 (apply_settled g op h1 hg)

theorem reachable_without_stop_apply (g : TetrisGame) (op : Op) (hop : op ≠ Op.stop)
    (h : ReachableWithoutStop g) : ReachableWithoutStop (Op.apply g op) := by
  obtain ⟨rng, ops, hops, rfl⟩ := h
  refine ⟨rng, ops ++ [op], ?_, ?_⟩
  · intro hmem
    rcases List.mem_append.mp hmem with h1 | h1
    · exact hops h1
    · exact hop (List.mem_singleton.mp h1).symm
  · simp [run, List.foldl_append]

theorem row_game_reachable_without_stop : ReachableWithoutStop row_game :=
  ⟨_, _, by decide, rfl⟩

theorem clearing_game_reachable_without_stop : ReachableWithoutStop clearing_game :=
  reachable_without_stop_apply row_game (Op.perform_action Action.HardDrop 1000) (by decide)
    row_game_reachable_without_stop

/-- C31: in every state reachable from a newly constructed engine by
sequences of `start`, `reset`, `toggle_pause`, `tick`, `perform_action` and
`step_clear_animation` (no `stop`), for all clock readings and random draws:
in phase Running, Paused or Idle no board row is full, and in phase Clearing
the full rows of the board are exactly `clearing_rows()` and there are at
most 4 of them. -/
theorem no_full_row_outside_clear (g : TetrisGame) (h : ReachableWithoutStop g) :
    ((g.phase_ = Phase.Running ∨ g.phase_ = Phase.Paused ∨ g.phase_ = Phase.Idle) →
      (∀ r : Fin 20, ¬ row_full g.board_ r) ∧ collect_full_rows g = []) ∧
    (g.phase_ = Phase.Clearing →
      g.clearing_rows_ = full_rows g.board_ ∧
      (∀ r : Fin 20, (r.val : Int) ∈ g.clearing_rows_ ↔ row_full g.board_ r) ∧
      g.clearing_rows_.length ≤ 4) := by
  obtain ⟨rng, ops, hops, hrun⟩ := h
  have hg : rows_settled g := by
    rw [hrun]
    exact run_settled ops _ hops (reset_settled _)
  constructor
  · intro hph
    have hb := hg.1 hph
    exact ⟨(full_rows_eq_nil_iff _).mp hb, by rw [collect_full_rows_eq, hb]⟩
  · intro hph
    obtain ⟨h1, h2⟩ := hg.2 hph
    refine ⟨h1, ?_, h2⟩
    intro r
    rw [h1]
    exact mem_full_rows_iff _ r

theorem no_full_row_outside_clear_witness :
    ReachableWithoutStop clearing_game ∧ clearing_game.phase_ = Phase.Clearing ∧
    clearing_game.clearing_rows_ = full_rows clearing_game.board_ ∧
    clearing_game.clearing_rows_.length ≤ 4 :=
  ⟨clearing_game_reachable_without_stop, by decide!,
   ((no_full_row_outside_clear clearing_game clearing_game_reachable_without_stop).2
     (by decide!)).1,
   ((no_full_row_outside_clear clearing_game clearing_game_reachable_without_stop).2
     (by decide!)).2.2⟩

end TetrisGame
